import Mathlib

/-!
# Ordering core of wired247/fabric: batch cutter and etcdraft chain adapter

A shallow embedding of
* `orderer/common/blockcutter/blockcutter.go` (the batch cutter), and
* `orderer/consensus/etcdraft/chain.go` (the consensus chain adapter),
together with the properties proved about them.

Machine integers are natural numbers reduced modulo `2 ^ 32` wherever the Go
code computes in `uint32`.  Go panics are the `none` result of a step.
-/

namespace Fabric

/-! ## Envelopes and the batch cutter (`blockcutter.go`) -/

/-- A byte string; only its length is ever inspected by the batch cutter. -/
abbrev Bytes := List Nat

/-- The two fields of `cb.Envelope` that the ordering core reads. -/
structure Envelope where
  Payload : Bytes
  Signature : Bytes
deriving DecidableEq, Repr

/-- The part of `BatchSize()` read by the batch cutter; both fields are `uint32` in Go. -/
structure BatchSize where
  MaxMessageCount : Nat
  PreferredMaxBytes : Nat
deriving DecidableEq, Repr

/-- Both configuration fields are representable as `uint32`. -/
def BatchSize.wf (cfg : BatchSize) : Prop :=
  cfg.MaxMessageCount < 2 ^ 32 ∧ cfg.PreferredMaxBytes < 2 ^ 32

instance (cfg : BatchSize) : Decidable cfg.wf := by
  unfold BatchSize.wf; infer_instance

/-- The mutable fields of `type receiver struct`. -/
structure receiver where
  pendingBatch : List Envelope
  pendingBatchSizeBytes : Nat
deriving DecidableEq, Repr

/-- The state `NewReceiverImpl` creates: nothing pending, size zero. -/
def NewReceiverImpl : receiver :=
  { pendingBatch := [], pendingBatchSizeBytes := 0 }

/-- Go: `uint32(len(message.Payload) + len(message.Signature))`. -/
def messageSizeBytes (message : Envelope) : Nat :=
  (message.Payload.length + message.Signature.length) % 2 ^ 32

/-- Go `receiver.Cut`: return the pending batch and reset the state. -/
def receiver.Cut (r : receiver) : List Envelope × receiver :=
  (r.pendingBatch, { pendingBatch := [], pendingBatchSizeBytes := 0 })

/-- Go `receiver.Ordered`: the result is `((messageBatches, pending), r')`. -/
def receiver.Ordered (cfg : BatchSize) (r : receiver) (msg : Envelope) :
    (List (List Envelope) × Bool) × receiver :=
  let size := messageSizeBytes msg
  if size > cfg.PreferredMaxBytes then
    -- the message is isolated; the pending batch is cut first when non-empty
    if r.pendingBatch.length > 0 then
      (([(r.Cut).1, [msg]], false), (r.Cut).2)
    else
      (([[msg]], false), r)
  else
    let messageWillOverflowBatchSizeBytes :=
      decide ((r.pendingBatchSizeBytes + size) % 2 ^ 32 > cfg.PreferredMaxBytes)
    let batches1 : List (List Envelope) :=
      if messageWillOverflowBatchSizeBytes then [(r.Cut).1] else []
    let r1 : receiver := if messageWillOverflowBatchSizeBytes then (r.Cut).2 else r
    let r2 : receiver :=
      { pendingBatch := r1.pendingBatch ++ [msg]
        pendingBatchSizeBytes := (r1.pendingBatchSizeBytes + size) % 2 ^ 32 }
    if r2.pendingBatch.length % 2 ^ 32 ≥ cfg.MaxMessageCount then
      ((batches1 ++ [(r2.Cut).1], false), (r2.Cut).2)
    else
      ((batches1, true), r2)

/-- Pass the envelopes one by one to `Ordered`; the batches emitted by the
calls are collected in emission order, and the final receiver is returned. -/
def receiver.orderedAll (cfg : BatchSize) (r : receiver) :
    List Envelope → List (List Envelope) × receiver
  | [] => ([], r)
  | msg :: rest =>
    let out := r.Ordered cfg msg
    let tail := receiver.orderedAll cfg out.2 rest
    (out.1.1 ++ tail.1, tail.2)

/-- The true size of a batch: the sum over its envelopes of payload length
plus signature length, as an unbounded natural number. -/
def batchBytes (batch : List Envelope) : Nat :=
  (batch.map (fun e => e.Payload.length + e.Signature.length)).sum

/-! ## Data carried by the etcdraft chain (`chain.go`)

The protobuf and etcd/raft types are reduced to the fields the chain reads.
64-bit counters (log indices, block numbers) are unbounded naturals. -/

/-- Go `raft.None`: the node ID that stands for "no leader". -/
def raft.None : Nat := 0

/-- `common.HeaderType_CONFIG` (protobuf enum value). -/
def HeaderType_CONFIG : Int := 1

/-- `common.HeaderType_ORDERER_TRANSACTION` (protobuf enum value). -/
def HeaderType_ORDERER_TRANSACTION : Int := 4

/-- Go `raft.StateType`. -/
inductive StateType where
  | StateFollower
  | StateCandidate
  | StateLeader
  | StatePreCandidate
deriving DecidableEq, Repr

/-- Go `raft.SoftState`. -/
structure SoftState where
  Lead : Nat
  RaftState : StateType
deriving DecidableEq, Repr

/-- Go `raftpb.EntryType`; `EntryOther` is any value matched by no `case`. -/
inductive EntryType where
  | EntryNormal
  | EntryConfChange
  | EntryOther
deriving DecidableEq, Repr

/-- Go `raftpb.Entry` (field `Type` is spelled `Typ`). -/
structure Entry where
  Typ : EntryType
  Index : Nat
  Data : Bytes
deriving DecidableEq, Repr

/-- Go `raftpb.ConfChangeType`. -/
inductive ConfChangeType where
  | ConfChangeAddNode
  | ConfChangeRemoveNode
  | ConfChangeUpdateNode
  | ConfChangeAddLearnerNode
deriving DecidableEq, Repr

/-- Go `raftpb.ConfChange` (field `Type` is spelled `Typ`). -/
structure ConfChange where
  Typ : ConfChangeType
  NodeID : Nat
deriving DecidableEq, Repr

/-- Go `raftpb.ConfState`. -/
structure ConfState where
  Nodes : List Nat
deriving DecidableEq, Repr

/-- Go `raftpb.Snapshot` with its `Metadata` flattened. -/
structure Snapshot where
  Data : Bytes
  Index : Nat
  Term : Nat
  ConfState : ConfState
deriving DecidableEq, Repr

/-- Go `etcdraft.Consenter`. -/
structure Consenter where
  Host : String
  Port : Nat
  ClientTlsCert : Bytes
  ServerTlsCert : Bytes
deriving DecidableEq, Repr

/-- Go `etcdraft.RaftMetadata`; the map `Consenters` is an association list. -/
structure RaftMetadata where
  Consenters : List (Nat × Consenter)
  NextConsenterId : Nat
  RaftIndex : Nat
deriving DecidableEq, Repr

/-- Go `etcdraft.Metadata`: the consenters listed by the channel configuration. -/
structure Metadata where
  Consenters : List Consenter
deriving DecidableEq, Repr

/-- Go `MembershipChanges` (declared in `util.go`). -/
structure MembershipChanges where
  AddedNodes : List Consenter
  RemovedNodes : List Consenter
  TotalChanges : Nat
deriving DecidableEq, Repr

/-- Go `cluster.RemoteNode`; the endpoint `host:port` is kept as a pair. -/
structure RemoteNode where
  ID : Nat
  Endpoint : String × Nat
  ServerTLSCert : Bytes
  ClientTLSCert : Bytes
deriving DecidableEq, Repr

/-- Go `common.Block`: header fields and data. -/
structure Block where
  Number : Nat
  PreviousHash : Bytes
  DataHash : Bytes
  Data : List Bytes
deriving DecidableEq, Repr

/-- Go `blockCreator`: hash and number of the last block created. -/
structure blockCreator where
  hash : Bytes
  number : Nat
deriving DecidableEq, Repr

/-- Go `orderer.SubmitRequest`. -/
structure SubmitRequest where
  LastValidationSeq : Nat
  Payload : Envelope
  Channel : String
deriving DecidableEq, Repr

/-- Go `type gc struct`: a request to take a snapshot. -/
structure gc where
  index : Nat
  state : ConfState
  data : Bytes
deriving DecidableEq, Repr

/-- Go `type apply struct`: committed entries and an optional soft state. -/
structure apply where
  entries : List Entry
  soft : Option SoftState
deriving DecidableEq, Repr

/-- Which ledger method performed a write. -/
inductive WriteKind where
  | WriteBlock
  | WriteConfigBlock
deriving DecidableEq, Repr

/-- One call of `support.WriteBlock` or `support.WriteConfigBlock`.  The
metadata argument is kept unmarshalled; `none` is Go `nil`. -/
structure LedgerWrite where
  kind : WriteKind
  block : Block
  encodedMetadataValue : Option RaftMetadata
deriving DecidableEq, Repr

/-- Pure helpers of the repository that `chain.go` calls and that are taken as
parameters: `protos/utils`, `blockcreator.go`, `util.go`, `encoding/pem` and
protobuf decoding.  `none` is a returned error. -/
structure Utils where
  /-- Header type found by `utils.ChannelHeader(env)`, or an error. -/
  ChannelHeader : Envelope → Option Int
  MarshalBlock : Block → Bytes
  UnmarshalBlock : Bytes → Option Block
  IsConfigBlock : Block → Bool
  /-- Go `block.Header.Hash()`. -/
  HeaderHash : Block → Bytes
  /-- Go `bc.createNextBlock(batch)`: the new block and the updated creator. -/
  createNextBlock : blockCreator → List Envelope → Block × blockCreator
  /-- Go `cc.Unmarshal(data)`. -/
  UnmarshalConfChange : Bytes → Option ConfChange
  /-- Go `ConsensusMetadataFromConfigBlock`: error, or possibly-nil metadata. -/
  ConsensusMetadataFromConfigBlock : Block → Option (Option Metadata)
  ComputeMembershipChanges : List (Nat × Consenter) → List Consenter → MembershipChanges
  /-- Go `changes.UpdateRaftMetadataAndConfChange(raftMetadata)`: the updated
  metadata and the resulting ConfChange (nil receiver allowed). -/
  UpdateRaftMetadataAndConfChange :
    Option MembershipChanges → RaftMetadata → RaftMetadata × Option ConfChange
  /-- Go `utils.GetMetadataFromBlock` followed by `proto.Unmarshal` into RaftMetadata. -/
  BlockRaftMetadata : Block → Option RaftMetadata
  /-- Go `ConfChange(raftMetadata, confState)` of `util.go`. -/
  ConfChange : RaftMetadata → ConfState → Option ConfChange
  /-- Go `pem.Decode`: the DER bytes of the first PEM block, if any. -/
  pemDecode : Bytes → Option Bytes

/-- Answers of the stateful collaborators (channel support, raft node, block
puller, snapshot goroutine) during the handling of one event. -/
structure Oracle where
  /-- Go `sharedConfigManager.BatchSize()`. -/
  BatchSize : BatchSize
  /-- Go `c.support.Sequence()`. -/
  Sequence : Nat
  /-- Go `c.support.ProcessNormalMsg` returned no error. -/
  ProcessNormalMsg : Envelope → Bool
  /-- Go `c.support.ProcessConfigMsg`: the resulting envelope, or an error. -/
  ProcessConfigMsg : Envelope → Option Envelope
  /-- Go `c.node.Propose` returned no error. -/
  Propose : Bytes → Bool
  /-- Go `c.node.lastIndex()`. -/
  lastIndex : Nat
  /-- Go `c.node.ApplyConfChange`. -/
  ApplyConfChange : ConfChange → ConfState
  /-- The snapshot goroutine is ready to receive on `gcC`. -/
  gcReady : Bool
  /-- Go `c.createPuller()` returned no error. -/
  createPuller : Bool
  /-- Go `puller.PullBlock(seq)`; `none` is a nil block. -/
  PullBlock : Nat → Option Block

/-- Go `Options`, the fields read by the event loop. -/
structure Options where
  RaftID : Nat
  SnapInterval : Nat
  MaxInflightMsgs : Int
  RaftMetadata : Fabric.RaftMetadata
deriving DecidableEq, Repr

/-- Go `Chain`: the fields the event loop reads or writes, followed by the
observable state of its collaborators (block cutter, ledger, raft node,
configurator, block pullers). -/
structure Chain where
  raftID : Nat
  channelID : String
  opts : Options
  confChangeInProgress : Option ConfChange
  justElected : Bool
  configInflight : Bool
  blockInflight : Int
  appliedIndex : Nat
  sizeLimit : Nat
  accDataSize : Nat
  lastSnapBlockNum : Nat
  confState : ConfState
  /-- The channel `errorC` is closed. -/
  errorC : Bool
  /-- State of `c.support.BlockCutter()`. -/
  cutter : receiver
  /-- Blocks written through `c.support`, oldest first. -/
  ledger : List LedgerWrite
  /-- Data of every `c.node.Propose` call, oldest first. -/
  proposals : List Bytes
  /-- Argument of every `c.node.ProposeConfChange` call, oldest first. -/
  confChangeProposals : List ConfChange
  /-- Argument of every `c.configurator.Configure` call, oldest first. -/
  configureCalls : List (List RemoteNode)
  /-- Requests accepted on `gcC`, oldest first. -/
  gcRequests : List gc
  /-- A goroutine running `c.Halt()` has been spawned. -/
  haltSpawned : Bool
  /-- Argument of every `puller.PullBlock` call, oldest first. -/
  pullCalls : List Nat
  /-- Number of block pullers created. -/
  pullersCreated : Nat
  /-- Number of `puller.Close()` calls. -/
  pullersClosed : Nat
deriving DecidableEq, Repr

/-! ## Operations of the chain (`chain.go`)

A Go panic (including a nil-pointer dereference) is the result `none`. -/

/-- Go `isCandidate`. -/
def isCandidate (state : StateType) : Bool :=
  state == StateType.StatePreCandidate || state == StateType.StateCandidate

/-- Go `c.support.Height()`: the number of blocks in the ledger. -/
def Chain.Height (c : Chain) : Nat :=
  c.ledger.length

/-- Go `c.support.Block(c.support.Height() - 1)`; `none` is a nil block. -/
def Chain.lastBlock (c : Chain) : Option Block :=
  c.ledger.getLast?.map (fun w => w.block)

/-- Go `Chain.isConfig`; panics when the channel header cannot be extracted. -/
def Chain.isConfig (u : Utils) (env : Envelope) : Option Bool :=
  match u.ChannelHeader env with
  | none => none
  | some t => some (t == HeaderType_CONFIG || t == HeaderType_ORDERER_TRANSACTION)

/-- Go `Chain.remotePeers`: every consenter but the local one, with both
certificates decoded; `none` is the error of `pemToDER`. -/
def Chain.remotePeers (u : Utils) (c : Chain) : Option (List RemoteNode) :=
  (c.opts.RaftMetadata.Consenters.filter (fun p => p.1 != c.raftID)).mapM
    (fun p =>
      match u.pemDecode p.2.ServerTlsCert, u.pemDecode p.2.ClientTlsCert with
      | some serverCertAsDER, some clientCertAsDER =>
        some { ID := p.1, Endpoint := (p.2.Host, p.2.Port),
               ServerTLSCert := serverCertAsDER, ClientTLSCert := clientCertAsDER }
      | _, _ => none)

/-- Go `Chain.configureComm`; `none` is a returned error. -/
def Chain.configureComm (u : Utils) (c : Chain) : Option Chain :=
  match c.remotePeers u with
  | none => none
  | some nodes => some { c with configureCalls := c.configureCalls ++ [nodes] }

/-- Go `Chain.writeConfigBlock`. -/
def Chain.writeConfigBlock (u : Utils) (c : Chain) (block : Block) (index : Nat) :
    Option Chain :=
  -- newRaftMetadata panics when the consensus metadata cannot be read
  match u.ConsensusMetadataFromConfigBlock block with
  | none => none
  | some metadata =>
    let raftMetadata0 := c.opts.RaftMetadata
    let changes : Option MembershipChanges :=
      metadata.map (fun m => u.ComputeMembershipChanges raftMetadata0.Consenters m.Consenters)
    let updated := u.UpdateRaftMetadataAndConfChange changes raftMetadata0
    let raftMetadata := { updated.1 with RaftIndex := index }
    let c1 : Chain :=
      { c with
        ledger := c.ledger ++
          [{ kind := WriteKind.WriteConfigBlock, block := block,
             encodedMetadataValue := some raftMetadata }]
        configInflight := false }
    match updated.2 with
    | none => some c1
    | some confChange =>
      let c2 : Chain :=
        { c1 with
          confChangeProposals := c1.confChangeProposals ++ [confChange]
          confChangeInProgress := some confChange
          opts := { c1.opts with RaftMetadata := raftMetadata } }
      match confChange.Typ with
      | ConfChangeType.ConfChangeAddNode => some { c2 with configInflight := true }
      | ConfChangeType.ConfChangeRemoveNode => some { c2 with configInflight := true }
      | _ => none

/-- Go `Chain.writeBlock`. -/
def Chain.writeBlock (u : Utils) (c : Chain) (block : Block) (index : Nat) : Option Chain :=
  let c1 : Chain :=
    { c with
      blockInflight := if c.blockInflight > 0 then c.blockInflight - 1 else c.blockInflight }
  if u.IsConfigBlock block then
    c1.writeConfigBlock u block index
  else
    let m := { c1.opts.RaftMetadata with RaftIndex := index }
    some { c1 with
      opts := { c1.opts with RaftMetadata := m }
      ledger := c1.ledger ++
        [{ kind := WriteKind.WriteBlock, block := block, encodedMetadataValue := some m }] }

/-- The three results of Go `Chain.ordered`. -/
structure orderedResult where
  batches : List (List Envelope)
  pending : Bool
  err : Option String
deriving DecidableEq, Repr

/-- Go `Chain.ordered`: the results and the block cutter afterwards. -/
def Chain.ordered (u : Utils) (o : Oracle) (cutter : receiver) (msg : SubmitRequest) :
    Option (orderedResult × receiver) :=
  let seq := o.Sequence
  match Chain.isConfig u msg.Payload with
  | none => none
  | some true =>
    -- ConfigMsg
    let revalidated : Option Envelope :=
      if msg.LastValidationSeq < seq then o.ProcessConfigMsg msg.Payload else some msg.Payload
    match revalidated with
    | none => some ({ batches := [], pending := true, err := some "bad config message" }, cutter)
    | some payload =>
      let batch := (cutter.Cut).1
      let batches : List (List Envelope) := if batch.length != 0 then [batch] else []
      some ({ batches := batches ++ [[payload]], pending := false, err := none }, (cutter.Cut).2)
  | some false =>
    -- it is a normal message
    if msg.LastValidationSeq < seq && !o.ProcessNormalMsg msg.Payload then
      some ({ batches := [], pending := true, err := some "bad normal message" }, cutter)
    else
      let out := cutter.Ordered o.BatchSize msg.Payload
      some ({ batches := out.1.1, pending := out.1.2, err := none }, out.2)

/-- Go `Chain.propose`: the chain and the block creator afterwards.  A nil block
creator is dereferenced by `createNextBlock`. -/
def Chain.propose (u : Utils) (o : Oracle) (c : Chain) (bc : Option blockCreator) :
    List (List Envelope) → Option (Chain × Option blockCreator)
  | [] => some (c, bc)
  | batch :: rest =>
    match bc with
    | none => none
    | some creator =>
      let b := u.createNextBlock creator batch
      let data := u.MarshalBlock b.1
      let c1 : Chain := { c with proposals := c.proposals ++ [data] }
      if o.Propose data then
        -- if it is config block, then we should wait for the commit of the block
        let c2 : Chain :=
          { c1 with configInflight := if u.IsConfigBlock b.1 then true else c1.configInflight }
        Chain.propose u o { c2 with blockInflight := c2.blockInflight + 1 } (some b.2) rest
      else
        -- don't bother continue proposing next batch
        some (c1, some b.2)

/-- The `for next <= b.Header.Number` loop of Go `Chain.catchUp`; the first
argument is `b.Header.Number + 1 - next`, the number of iterations left before
`next` passes the target.  The result is the returned error (if any) and the chain. -/
def Chain.catchUpLoop (u : Utils) (o : Oracle) :
    Nat → Nat → Chain → Option String × Chain
  | 0, _, c => (none, c)
  | fuel + 1, next, c =>
    let c1 : Chain := { c with pullCalls := c.pullCalls ++ [next] }
    match o.PullBlock next with
    | none => (some ("failed to fetch block " ++ toString next ++ " from cluster"), c1)
    | some block =>
      let kind :=
        if u.IsConfigBlock block then WriteKind.WriteConfigBlock else WriteKind.WriteBlock
      Chain.catchUpLoop u o fuel (next + 1)
        { c1 with
          ledger := c1.ledger ++ [{ kind := kind, block := block, encodedMetadataValue := none }] }

/-- Go `Chain.catchUp`: the returned error (if any) and the chain. -/
def Chain.catchUp (u : Utils) (o : Oracle) (c : Chain) (snap : Snapshot) :
    Option String × Chain :=
  match u.UnmarshalBlock snap.Data with
  | none => (some "failed to unmarshal snapshot data to block", c)
  | some b =>
    let next := c.Height
    if next > b.Number then
      (none, c)
    else if !o.createPuller then
      (some "failed to create block puller", c)
    else
      let out := Chain.catchUpLoop u o (b.Number + 1 - next) next
        { c with pullersCreated := c.pullersCreated + 1 }
      -- defer puller.Close()
      (out.1, { out.2 with pullersClosed := out.2.pullersClosed + 1 })

/-- The variables of Go `Chain.apply` that live across loop iterations. -/
structure applyLocals where
  c : Chain
  appliedb : Nat
  position : Nat
deriving DecidableEq, Repr

/-- The statement that ends each iteration of the loop of Go `Chain.apply`:
`if ents[i].Index > c.appliedIndex { c.appliedIndex = ents[i].Index }`. -/
def applyLocals.advance (l : applyLocals) (index : Nat) : applyLocals :=
  { l with
    c := { l.c with appliedIndex := if index > l.c.appliedIndex then index else l.c.appliedIndex } }

/-- One iteration of the loop of Go `Chain.apply`, for entry `ent` at position `i`. -/
def Chain.applyEntry (u : Utils) (o : Oracle) (l : applyLocals) (i : Nat) (ent : Entry) :
    Option applyLocals :=
  match ent.Typ with
  | EntryType.EntryNormal =>
    if ent.Data.length == 0 then
      some (l.advance ent.Index)
    else if ent.Index ≤ l.c.appliedIndex then
      -- replay guard: the block of this entry has been written already
      some (l.advance ent.Index)
    else
      match u.UnmarshalBlock ent.Data with
      | none => none
      | some block =>
        match l.c.writeBlock u block ent.Index with
        | none => none
        | some c1 =>
          let l1 : applyLocals :=
            { c := { c1 with accDataSize := (c1.accDataSize + ent.Data.length % 2 ^ 32) % 2 ^ 32 }
              appliedb := block.Number
              position := i }
          some (l1.advance ent.Index)
  | EntryType.EntryConfChange =>
    match u.UnmarshalConfChange ent.Data with
    | none => some l
    | some cc =>
      let c1 : Chain := { l.c with confState := o.ApplyConfChange cc }
      if cc.Typ != ConfChangeType.ConfChangeAddNode
          && cc.Typ != ConfChangeType.ConfChangeRemoveNode then
        none
      else
        let matched : Bool :=
          match c1.confChangeInProgress with
          | none => false
          | some inProgress => inProgress.NodeID == cc.NodeID && inProgress.Typ == cc.Typ
        let c2 : Option Chain :=
          if matched then
            match c1.configureComm u with
            | none => none
            | some c' => some { c' with confChangeInProgress := none, configInflight := false }
          else some c1
        match c2 with
        | none => none
        | some c3 =>
          let c4 : Chain :=
            { c3 with
              haltSpawned :=
                if cc.Typ == ConfChangeType.ConfChangeRemoveNode && cc.NodeID == c3.raftID then
                  true
                else c3.haltSpawned }
          some (applyLocals.advance { l with c := c4 } ent.Index)
  | EntryType.EntryOther => some (l.advance ent.Index)

/-- The loop of Go `Chain.apply` over the entries from position `i` on. -/
def Chain.applyLoop (u : Utils) (o : Oracle) :
    applyLocals → Nat → List Entry → Option applyLocals
  | l, _, [] => some l
  | l, i, ent :: rest =>
    match Chain.applyEntry u o l i ent with
    | none => none
    | some l1 => Chain.applyLoop u o l1 (i + 1) rest

/-- Go `Chain.apply`. -/
def Chain.apply (u : Utils) (o : Oracle) (c : Chain) (ents : List Entry) : Option Chain :=
  match ents with
  | [] => some c
  | first :: _ =>
    if first.Index > c.appliedIndex + 1 then
      none
    else
      match Chain.applyLoop u o { c := c, appliedb := 0, position := 0 } 0 ents with
      | none => none
      | some l =>
        if l.appliedb == 0 then
          -- no block has been written in this round
          some l.c
        else if l.c.accDataSize ≥ l.c.sizeLimit && o.gcReady then
          some { l.c with
            gcRequests := l.c.gcRequests ++
              [{ index := l.c.appliedIndex, state := l.c.confState,
                 data := (ents.getD l.position first).Data }]
            accDataSize := 0
            lastSnapBlockNum := l.appliedb }
        else
          some l.c

/-- Go `Chain.getInFlightConfChange`. -/
def Chain.getInFlightConfChange (u : Utils) (o : Oracle) (c : Chain) :
    Option (Option ConfChange) :=
  match c.confChangeInProgress with
  | some cc => some (some cc)
  | none =>
    if c.Height ≤ 1 then
      some none
    else
      match c.lastBlock with
      | none => none
      | some lastBlock =>
        if !u.IsConfigBlock lastBlock then
          some none
        else
          match u.BlockRaftMetadata lastBlock with
          | none => none
          | some raftMetadata =>
            let confState := o.ApplyConfChange
              { Typ := ConfChangeType.ConfChangeAddNode, NodeID := 0 }
            if confState.Nodes.length == raftMetadata.Consenters.length then
              some none
            else
              some (u.ConfChange raftMetadata confState)

/-! ## The event loop (`Chain.serveRequest`) -/

/-- The local variables of Go `Chain.serveRequest`, with the chain itself. -/
structure serveRequestState where
  c : Chain
  ticking : Bool
  soft : SoftState
  /-- The local variable `submitC`: `true` when it is `c.submitC`, `false` when nil. -/
  submitC : Bool
  bc : Option blockCreator
  /-- Values sent on the `leader` channel of the submissions, oldest first. -/
  leaderReplies : List Nat
  /-- The loop has returned. -/
  returned : Bool
deriving DecidableEq, Repr

/-- What the `select` of the event loop can receive. -/
inductive Event where
  /-- A value on `submitC`; `none` is the nil sent by `WaitReady`. -/
  | submitC (s : Option SubmitRequest)
  | applyC (app : apply)
  /-- The batch timer fired. -/
  | timer
  | snapC (sn : Snapshot)
  /-- The channel `doneC` is closed. -/
  | doneC
deriving DecidableEq, Repr

/-- Go `MEGABYTE`. -/
def MEGABYTE : Nat := 2 ^ 20

/-- Go `DefaultSnapshotInterval`. -/
def DefaultSnapshotInterval : Nat := 100 * MEGABYTE

/-- Go `NewChain`, for a channel `channelID` whose support holds `ledger` and a
new block cutter, and whose last snapshot (if any) is at block `snapBlkNum`. -/
def NewChain (channelID : String) (ledger : List LedgerWrite) (opts : Options)
    (snapBlkNum : Nat) : Chain :=
  { raftID := opts.RaftID
    channelID := channelID
    opts := opts
    confChangeInProgress := none
    justElected := false
    configInflight := false
    blockInflight := 0
    appliedIndex := opts.RaftMetadata.RaftIndex
    sizeLimit := if opts.SnapInterval == 0 then DefaultSnapshotInterval else opts.SnapInterval
    accDataSize := 0
    lastSnapBlockNum := snapBlkNum
    confState := { Nodes := [] }
    errorC := false
    cutter := NewReceiverImpl
    ledger := ledger
    proposals := []
    confChangeProposals := []
    configureCalls := []
    gcRequests := []
    haltSpawned := false
    pullCalls := []
    pullersCreated := 0
    pullersClosed := 0 }

/-- Go `Chain.Start` up to the spawning of the event loop: the state in which
`serveRequest` begins, or `none` when `configureComm` fails and the chain aborts. -/
def Chain.Start (u : Utils) (c : Chain) : Option serveRequestState :=
  match c.configureComm u with
  | none => none
  | some c1 =>
    some { c := { c1 with errorC := true }
           ticking := false
           soft := { Lead := 0, RaftState := StateType.StateFollower }
           submitC := true
           bc := none
           leaderReplies := []
           returned := false }

/-- The closure `becomeLeader` of Go `Chain.serveRequest`. -/
def serveRequestState.becomeLeader (u : Utils) (o : Oracle) (st : serveRequestState) :
    Option serveRequestState :=
  let c1 : Chain := { st.c with blockInflight := 0, justElected := true }
  match c1.getInFlightConfChange u o with
  | none => none
  | some none => some { st with c := c1, submitC := false }
  | some (some cc) =>
    some { st with
      c := { c1 with
        confChangeProposals := c1.confChangeProposals ++ [cc]
        confChangeInProgress := some cc
        configInflight := true }
      submitC := false }

/-- The closure `becomeFollower` of Go `Chain.serveRequest`. -/
def serveRequestState.becomeFollower (st : serveRequestState) : serveRequestState :=
  { st with
    c := { st.c with blockInflight := 0, cutter := (st.c.cutter.Cut).2 }
    ticking := false
    submitC := true
    bc := none }

/-- The `case s := <-submitC` branch of the event loop. -/
def serveRequestState.submitCase (u : Utils) (o : Oracle) (st : serveRequestState)
    (s : Option SubmitRequest) : Option serveRequestState :=
  match s with
  | none => some st
  | some req =>
    if st.soft.RaftState == StateType.StatePreCandidate
        || st.soft.RaftState == StateType.StateCandidate then
      some { st with leaderReplies := st.leaderReplies ++ [raft.None] }
    else
      let st1 : serveRequestState := { st with leaderReplies := st.leaderReplies ++ [st.soft.Lead] }
      if st1.soft.Lead != st1.c.raftID then
        some st1
      else
        match Chain.ordered u o st1.c.cutter req with
        | none => none
        | some (res, cutter) =>
          -- `start()` when pending, `stop()` otherwise
          match Chain.propose u o { st1.c with cutter := cutter } st1.bc res.batches with
          | none => none
          | some (c2, bc2) =>
            let submitC : Bool :=
              if c2.configInflight then false
              else if c2.blockInflight ≥ c2.opts.MaxInflightMsgs then false
              else st1.submitC
            some { st1 with c := c2, ticking := res.pending, bc := bc2, submitC := submitC }

/-- The block `if app.soft != nil { ... }` of the `applyC` branch, for the soft
state `appSoft` carried by the event. -/
def serveRequestState.applyCaseSoft (u : Utils) (o : Oracle) (st : serveRequestState)
    (appSoft : SoftState) : Option serveRequestState :=
  let newLeader := appSoft.Lead
  let changed : Option serveRequestState :=
    if newLeader != st.soft.Lead then
      let led : Option serveRequestState :=
        if newLeader == st.c.raftID then st.becomeLeader u o else some st
      match led with
      | none => none
      | some st1 => some (if st.soft.Lead == st.c.raftID then st1.becomeFollower else st1)
    else some st
  match changed with
  | none => none
  | some st2 =>
    let foundLeader := st.soft.Lead == raft.None && newLeader != raft.None
    let quitCandidate := isCandidate st.soft.RaftState && !isCandidate appSoft.RaftState
    let errorC1 : Bool := if foundLeader || quitCandidate then false else st2.c.errorC
    let errorC2 : Bool :=
      if isCandidate appSoft.RaftState || newLeader == raft.None then true else errorC1
    some { st2 with
      c := { st2.c with errorC := errorC2 }
      soft := { Lead := newLeader, RaftState := appSoft.RaftState } }

/-- The statements of the `applyC` branch that follow `c.apply(app.entries)`. -/
def serveRequestState.applyCaseResume (u : Utils) (o : Oracle) (st : serveRequestState) :
    Option serveRequestState :=
  if st.c.justElected then
    let msgInflight := decide (o.lastIndex > st.c.appliedIndex)
    if msgInflight || st.c.configInflight then
      some st
    else
      match st.c.lastBlock with
      | none => none
      | some lastBlock =>
        some { st with
          c := { st.c with justElected := false }
          bc := some { hash := u.HeaderHash lastBlock, number := lastBlock.Number }
          submitC := true }
  else if st.c.configInflight then
    some { st with submitC := false }
  else if st.c.blockInflight < st.c.opts.MaxInflightMsgs then
    some { st with submitC := true }
  else
    some st

/-- The `case app := <-c.applyC` branch of the event loop. -/
def serveRequestState.applyCase (u : Utils) (o : Oracle) (st : serveRequestState)
    (app : apply) : Option serveRequestState :=
  let afterSoft : Option serveRequestState :=
    match app.soft with
    | none => some st
    | some appSoft => st.applyCaseSoft u o appSoft
  match afterSoft with
  | none => none
  | some st1 =>
    match st1.c.apply u o app.entries with
    | none => none
    | some c2 => serveRequestState.applyCaseResume u o { st1 with c := c2 }

/-- The `case <-timer.C()` branch of the event loop. -/
def serveRequestState.timerCase (u : Utils) (o : Oracle) (st : serveRequestState) :
    Option serveRequestState :=
  let batch := (st.c.cutter.Cut).1
  let st1 : serveRequestState :=
    { st with ticking := false, c := { st.c with cutter := (st.c.cutter.Cut).2 } }
  if batch.length == 0 then
    some st1
  else
    match Chain.propose u o st1.c st1.bc [batch] with
    | none => none
    | some (c2, bc2) => some { st1 with c := c2, bc := bc2 }

/-- The `case sn := <-c.snapC` branch of the event loop. -/
def serveRequestState.snapCase (u : Utils) (o : Oracle) (st : serveRequestState)
    (sn : Snapshot) : Option serveRequestState :=
  if sn.Index ≤ st.c.appliedIndex then
    some st
  else
    match u.UnmarshalBlock sn.Data with
    | none => none
    | some b =>
      let c1 : Chain :=
        { st.c with lastSnapBlockNum := b.Number, confState := sn.ConfState,
                    appliedIndex := sn.Index }
      some { st with c := (c1.catchUp u o sn).2 }

/-- One iteration of the `for { select { ... } }` of Go `Chain.serveRequest`
receiving `ev`.  A case whose channel cannot deliver (the nil `submitC`, the
stopped timer, anything after the loop has returned) leaves the state as it is.
`none` is a panic. -/
def serveRequestState.step (u : Utils) (o : Oracle) (st : serveRequestState) :
    Event → Option serveRequestState
  | Event.submitC s =>
    if st.returned || !st.submitC then some st else st.submitCase u o s
  | Event.applyC app =>
    if st.returned then some st else st.applyCase u o app
  | Event.timer =>
    if st.returned || !st.ticking then some st else st.timerCase u o
  | Event.snapC sn =>
    if st.returned then some st else st.snapCase u o sn
  | Event.doneC =>
    if st.returned then some st
    else some { st with c := { st.c with errorC := true }, returned := true }

/-- The event loop run on a sequence of events, each with the answers the
collaborators give while it is handled. -/
def serveRequestState.run (u : Utils) :
    serveRequestState → List (Oracle × Event) → Option serveRequestState
  | st, [] => some st
  | st, (o, ev) :: rest =>
    match st.step u o ev with
    | none => none
    | some st1 => serveRequestState.run u st1 rest

/-! ## `Chain.Configure` and the check of the consenter set -/

/-- Go `common.Header`. -/
structure Header where
  ChannelHeader : Bytes
  SignatureHeader : Bytes
deriving DecidableEq, Repr

/-- Go `common.Payload`; `Header` is a pointer and may be nil. -/
structure Payload where
  Header : Option Header
  Data : Bytes
deriving DecidableEq, Repr

/-- Go `common.ConfigValue`. -/
structure ConfigValue where
  Value : Bytes
deriving DecidableEq, Repr

/-- Go `common.ConfigGroup`; its two maps are association lists. -/
inductive ConfigGroup where
  | mk (Groups : List (String × ConfigGroup)) (Values : List (String × ConfigValue))

/-- The map `Groups` of a configuration group. -/
def ConfigGroup.Groups : ConfigGroup → List (String × ConfigGroup)
  | ConfigGroup.mk groups _ => groups

/-- The map `Values` of a configuration group. -/
def ConfigGroup.Values : ConfigGroup → List (String × ConfigValue)
  | ConfigGroup.mk _ values => values

/-- Go `common.ConfigUpdate`; `WriteSet` is a pointer and may be nil. -/
structure ConfigUpdate where
  WriteSet : Option ConfigGroup

/-- Decoders called by `checkConfigUpdateValidity` and `checkConsentersSet`
(`protos/utils`, `common/configtx`, `util.go`), taken as parameters. -/
structure ConfigUtils where
  UnmarshalPayload : Bytes → Except String Payload
  /-- The field `Type` of the decoded channel header. -/
  UnmarshalChannelHeader : Bytes → Except String Int
  UnmarshalConfigUpdateFromPayload : Payload → Except String ConfigUpdate
  MetadataFromConfigValue : ConfigValue → Except String Metadata

/-- Go `Chain.checkConsentersSet`; the result is the returned error, if any. -/
def Chain.checkConsentersSet (u : Utils) (k : ConfigUtils) (c : Chain)
    (configValue : ConfigValue) : Option String :=
  match k.MetadataFromConfigValue configValue with
  | Except.error err => some err
  | Except.ok updatedMetadata =>
    let changes :=
      u.ComputeMembershipChanges c.opts.RaftMetadata.Consenters updatedMetadata.Consenters
    if changes.TotalChanges > 1 then
      some "update of more than one consenters at a time is not supported"
    else
      none

/-- Go `Chain.checkConfigUpdateValidity`; `none` is a panic, `some none` is a
nil error. -/
def Chain.checkConfigUpdateValidity (u : Utils) (k : ConfigUtils) (c : Chain)
    (ctx : Envelope) : Option (Option String) :=
  match k.UnmarshalPayload ctx.Payload with
  | Except.error err => some (some err)
  | Except.ok payload =>
    match payload.Header with
    | none => none
    | some header =>
      match k.UnmarshalChannelHeader header.ChannelHeader with
      | Except.error err => some (some err)
      | Except.ok chdrType =>
        if chdrType == HeaderType_ORDERER_TRANSACTION then
          some none
        else if chdrType == HeaderType_CONFIG then
          match k.UnmarshalConfigUpdateFromPayload payload with
          | Except.error err => some (some err)
          | Except.ok configUpdate =>
            match configUpdate.WriteSet with
            | none => none
            | some writeSet =>
              -- Check that only the ConsensusType is updated in the write-set
              match writeSet.Groups.lookup "Orderer" with
              | none => some none
              | some ordererConfigGroup =>
                match ordererConfigGroup.Values.lookup "ConsensusType" with
                | none => some none
                | some val => some (c.checkConsentersSet u k val)
        else
          some (some "config transaction has unknown header type")

/-- How Go `Chain.Configure` ends: it returns an error without calling
`Submit`, or it returns whatever `c.Submit(req, 0)` returns. -/
inductive ConfigureResult where
  | rejected (err : String)
  | submitted (req : SubmitRequest)
deriving DecidableEq, Repr

/-- Go `Chain.Configure`; `none` is a panic. -/
def Chain.Configure (u : Utils) (k : ConfigUtils) (c : Chain) (env : Envelope)
    (configSeq : Nat) : Option ConfigureResult :=
  match c.checkConfigUpdateValidity u k env with
  | none => none
  | some (some err) => some (ConfigureResult.rejected err)
  | some none =>
    some (ConfigureResult.submitted
      { LastValidationSeq := configSeq, Payload := env, Channel := c.channelID })

/-! ## Auxiliary notions used in the statements -/

/-- The raft log indices recorded with the ledger writes: `Chain.apply` passes
the index of the entry in the metadata of every block it writes, catch-up
writes carry nil metadata. -/
def writtenIndices (ws : List LedgerWrite) : List Nat :=
  ws.filterMap (fun w => w.encodedMetadataValue.map (fun m => m.RaftIndex))

/-- A normal entry that carries a block (non-empty data). -/
def Entry.carriesBlock (e : Entry) : Bool :=
  e.Typ == EntryType.EntryNormal && e.Data.length != 0

/-- The entry reaches the statement that ends an iteration of the loop of
`Chain.apply` (every entry but a ConfChange whose data cannot be decoded). -/
def Entry.advances (u : Utils) (e : Entry) : Bool :=
  e.Typ != EntryType.EntryConfChange || (u.UnmarshalConfChange e.Data).isSome

/-- The fields of the chain that `Chain.apply` never assigns. -/
def Chain.applyFrame (c : Chain) :=
  (c.raftID, c.channelID, c.opts.RaftID, c.opts.SnapInterval, c.opts.MaxInflightMsgs,
    c.sizeLimit, c.justElected, c.errorC, c.cutter, c.proposals, c.pullCalls,
    c.pullersCreated, c.pullersClosed)

/-- What handling events may do to the applied index and the ledger between
two states of the chain: the applied index does not decrease, blocks are only
appended, and the log indices recorded with the appended blocks increase
strictly, all of them above the earlier applied index and none above the
later one. -/
def Chain.ledgerProgress (c c' : Chain) : Prop :=
  c.appliedIndex ≤ c'.appliedIndex
  ∧ ∃ ws, c'.ledger = c.ledger ++ ws
      ∧ (writtenIndices ws).Pairwise (· < ·)
      ∧ ∀ j ∈ writtenIndices ws, c.appliedIndex < j ∧ j ≤ c'.appliedIndex

/-- The invariant of the event loop behind the bound on the blocks in flight,
for a configured `MaxInflightMsgs` of at least one: a node that is not the
leader has no block in flight and a stopped timer; the counter may pass the
limit by one only while the submission channel is disabled and the timer is
stopped; a just-elected node has no block in flight, a stopped timer and, while
it is the leader, a disabled submission channel. -/
def serveRequestState.inflightInv (st : serveRequestState) : Prop :=
  1 ≤ st.c.opts.MaxInflightMsgs
  ∧ (st.soft.Lead ≠ st.c.raftID → st.c.blockInflight = 0 ∧ st.ticking = false)
  ∧ 0 ≤ st.c.blockInflight
  ∧ st.c.blockInflight ≤ st.c.opts.MaxInflightMsgs + 1
  ∧ (st.ticking = true → st.c.blockInflight ≤ st.c.opts.MaxInflightMsgs)
  ∧ (st.submitC = true →
      st.c.blockInflight ≤ st.c.opts.MaxInflightMsgs
      ∧ (st.c.blockInflight = st.c.opts.MaxInflightMsgs →
          st.ticking = false ∧ st.c.cutter = NewReceiverImpl))
  ∧ (st.c.justElected = true → st.c.blockInflight = 0 ∧ st.ticking = false)
  ∧ (st.c.justElected = true → st.soft.Lead = st.c.raftID → st.submitC = false)

/-- The property of the block helpers that the timer branch relies on ("we are
certain this is normal block"): a block created from a non-empty batch of
envelopes none of which is a configuration transaction is not a configuration
block. -/
def Utils.normalBlocks (u : Utils) : Prop :=
  ∀ (bc : blockCreator) (batch : List Envelope), batch ≠ [] →
    (∀ e ∈ batch, Chain.isConfig u e = some false) →
    u.IsConfigBlock (u.createNextBlock bc batch).1 = false

/-- The invariant of the event loop behind the pause of submissions: a
just-elected leader and a leader with a configuration in flight have a disabled
submission channel, and the block cutter holds no configuration transaction. -/
def serveRequestState.configInv (u : Utils) (st : serveRequestState) : Prop :=
  (st.c.justElected = true → st.soft.Lead = st.c.raftID → st.submitC = false)
  ∧ (st.soft.Lead = st.c.raftID → st.c.configInflight = true → st.submitC = false)
  ∧ (∀ e ∈ st.c.cutter.pendingBatch, Chain.isConfig u e = some false)

/-! ## Concrete instances

A small instance of the helpers and collaborators, on which the definitions
above can be evaluated: the first byte of a payload is its header type, a
marshalled block is its number followed by its only transaction. -/

/-- Helpers of the instance. -/
def demoUtils : Utils :=
  { ChannelHeader := fun env =>
      match env.Payload with
      | [] => none
      | t :: _ => some (Int.ofNat t)
    MarshalBlock := fun b => b.Number :: b.Data.flatten
    UnmarshalBlock := fun data =>
      match data with
      | [] => none
      | n :: rest => some { Number := n, PreviousHash := [], DataHash := [], Data := [rest] }
    IsConfigBlock := fun b =>
      match b.Data with
      | (t :: _) :: _ => t == 1 || t == 4
      | _ => false
    HeaderHash := fun b => [b.Number]
    createNextBlock := fun bc batch =>
      ({ Number := bc.number + 1, PreviousHash := bc.hash, DataHash := [],
         Data := batch.map (fun e => e.Payload) },
       { hash := [bc.number + 1], number := bc.number + 1 })
    UnmarshalConfChange := fun data =>
      match data with
      | [0, n] => some { Typ := ConfChangeType.ConfChangeAddNode, NodeID := n }
      | [1, n] => some { Typ := ConfChangeType.ConfChangeRemoveNode, NodeID := n }
      | _ => none
    ConsensusMetadataFromConfigBlock := fun _ => some none
    ComputeMembershipChanges := fun oldConsenters newConsenters =>
      let added := newConsenters.filter (fun n => !(oldConsenters.map (fun p => p.2)).contains n)
      let removed := (oldConsenters.map (fun p => p.2)).filter (fun n => !newConsenters.contains n)
      { AddedNodes := added, RemovedNodes := removed,
        TotalChanges := added.length + removed.length }
    UpdateRaftMetadataAndConfChange := fun _ md => (md, none)
    BlockRaftMetadata := fun _ => none
    ConfChange := fun _ _ => none
    pemDecode := fun b => some b }

/-- Collaborators of the instance: batches of at most ten messages and ten
bytes, every proposal accepted, nothing in the raft log. -/
def demoOracle : Oracle :=
  { BatchSize := { MaxMessageCount := 10, PreferredMaxBytes := 10 }
    Sequence := 0
    ProcessNormalMsg := fun _ => true
    ProcessConfigMsg := fun e => some e
    Propose := fun _ => true
    lastIndex := 0
    ApplyConfChange := fun _ => { Nodes := [] }
    gcReady := false
    createPuller := true
    PullBlock := fun _ => none }

/-- The genesis block as the ledger holds it. -/
def genesis : LedgerWrite :=
  { kind := WriteKind.WriteConfigBlock
    block := { Number := 0, PreviousHash := [], DataHash := [], Data := [] }
    encodedMetadataValue := none }

/-- Options of node 1 with a single block allowed in flight. -/
def demoOptions : Options :=
  { RaftID := 1, SnapInterval := 0, MaxInflightMsgs := 1,
    RaftMetadata := { Consenters := [], NextConsenterId := 1, RaftIndex := 0 } }

/-- The chain of the instance, as `NewChain` builds it. -/
def demoChain : Chain := NewChain "ch" [genesis] demoOptions 0

/-- A normal envelope of five bytes. -/
def env5 : Envelope := { Payload := [0, 0, 0, 0, 0], Signature := [] }

/-- A normal envelope of twenty bytes, above the preferred size of a batch. -/
def env20 : Envelope := { Payload := List.replicate 20 0, Signature := [] }

/-- A configuration envelope (header type CONFIG) naming consenters 7 and 8. -/
def configEnvelope : Envelope := { Payload := [1, 7, 8], Signature := [] }

/-- The apply event by which node 1 learns that it is the leader. -/
def electedEvent : Event :=
  Event.applyC { entries := [], soft := some { Lead := 1, RaftState := StateType.StateLeader } }

/-- The apply event by which node 1 learns that node 2 is the leader. -/
def demotedApply : apply :=
  { entries := [], soft := some { Lead := 2, RaftState := StateType.StateFollower } }

/-- A submission of `env`, validated at the current configuration sequence. -/
def submitEvent (env : Envelope) : Event :=
  Event.submitC (some { LastValidationSeq := 0, Payload := env, Channel := "ch" })

/-- Node 1 becomes the leader, then receives a small and a large envelope. -/
def overflowEvents : List (Oracle × Event) :=
  [(demoOracle, electedEvent), (demoOracle, submitEvent env5), (demoOracle, submitEvent env20)]

/-- Node 1 becomes the leader, then receives a configuration envelope. -/
def configEvents : List (Oracle × Event) :=
  [(demoOracle, electedEvent), (demoOracle, submitEvent configEnvelope)]

/-- A committed normal entry carrying block 1. -/
def entry1 : Entry := { Typ := EntryType.EntryNormal, Index := 1, Data := [1, 0, 9] }

/-- Node 1 follows, then applies the entry of block 1. -/
def applyEvents : List (Oracle × Event) :=
  [(demoOracle, Event.applyC { entries := [entry1], soft := none })]

/-- A chain that has applied the raft log up to index 5. -/
def staleChain : Chain := { demoChain with appliedIndex := 5 }

/-- A committed normal entry carrying a block, at an index already applied. -/
def staleEntry : Entry := { Typ := EntryType.EntryNormal, Index := 3, Data := [1, 0, 9] }

/-- Decoders of the instance: the bytes after the header type of a CONFIG
payload are the consenters of the ConsensusType value of its write-set. -/
def demoConfigUtils : ConfigUtils :=
  { UnmarshalPayload := fun bytes =>
      match bytes with
      | [] => Except.error "empty payload"
      | t :: rest =>
        Except.ok { Header := some { ChannelHeader := [t], SignatureHeader := [] }, Data := rest }
    UnmarshalChannelHeader := fun bytes =>
      match bytes with
      | [t] => Except.ok (Int.ofNat t)
      | _ => Except.error "bad channel header"
    UnmarshalConfigUpdateFromPayload := fun payload =>
      Except.ok
        { WriteSet := some (ConfigGroup.mk
            [("Orderer", ConfigGroup.mk [] [("ConsensusType", { Value := payload.Data })])] []) }
    MetadataFromConfigValue := fun v =>
      Except.ok
        { Consenters := v.Value.map (fun n =>
            { Host := "orderer", Port := n, ClientTlsCert := [], ServerTlsCert := [] }) } }

/-- The event loop state of leader 1 with one envelope pending in the block
cutter and the batch timer running. -/
def leaderState : serveRequestState :=
  { c := { demoChain with
           cutter := { pendingBatch := [env5], pendingBatchSizeBytes := 5 }
           errorC := false }
    ticking := true
    soft := { Lead := 1, RaftState := StateType.StateLeader }
    submitC := true
    bc := some { hash := [0], number := 0 }
    leaderReplies := [1]
    returned := false }

/-- A batch-size configuration with a zero message count. -/
def zeroCountConfig : BatchSize := { MaxMessageCount := 0, PreferredMaxBytes := 10 }

/-- An envelope of four bytes. -/
def smallEnvelope : Envelope := { Payload := [1, 2, 3], Signature := [4] }

/-- At most two messages and a hundred bytes in a batch. -/
def pairConfig : BatchSize := { MaxMessageCount := 2, PreferredMaxBytes := 100 }

/-- At most three messages and 3,000,000,000 bytes in a batch. -/
def bigConfig : BatchSize := { MaxMessageCount := 3, PreferredMaxBytes := 3000000000 }

/-- A payload of 1,500,000,000 bytes. -/
def bigPayload : Bytes := List.replicate 1500000000 0

/-- An envelope of 1,500,000,000 bytes. -/
def bigEnvelope : Envelope := { Payload := bigPayload, Signature := [] }

/-- The state in which the event loop of `demoChain` starts. -/
def demoStart : serveRequestState :=
  { c := { demoChain with errorC := true, configureCalls := [[]] }
    ticking := false
    soft := { Lead := 0, RaftState := StateType.StateFollower }
    submitC := true
    bc := none
    leaderReplies := []
    returned := false }

/-- The state of the event loop after `overflowEvents`. -/
def overflowState : serveRequestState :=
  { c := { demoStart.c with
           blockInflight := 2
           errorC := false
           proposals := [1 :: env5.Payload, 2 :: env20.Payload] }
    ticking := false
    soft := { Lead := 1, RaftState := StateType.StateLeader }
    submitC := false
    bc := some { hash := [2], number := 2 }
    leaderReplies := [1, 1]
    returned := false }

/-- The state of the event loop after `configEvents`. -/
def configState : serveRequestState :=
  { c := { demoStart.c with
           configInflight := true
           blockInflight := 1
           errorC := false
           proposals := [1 :: configEnvelope.Payload] }
    ticking := false
    soft := { Lead := 1, RaftState := StateType.StateLeader }
    submitC := false
    bc := some { hash := [1], number := 1 }
    leaderReplies := [1]
    returned := false }

/-- The ledger write of block 1 for the entry `entry1`. -/
def block1Write : LedgerWrite :=
  { kind := WriteKind.WriteBlock
    block := { Number := 1, PreviousHash := [], DataHash := [], Data := [[0, 9]] }
    encodedMetadataValue := some { Consenters := [], NextConsenterId := 1, RaftIndex := 1 } }

/-- The chain `demoChain` after `entry1` has been applied. -/
def appliedChain : Chain :=
  { demoChain with
    opts := { demoOptions with
              RaftMetadata := { Consenters := [], NextConsenterId := 1, RaftIndex := 1 } }
    appliedIndex := 1
    accDataSize := 3
    ledger := [genesis, block1Write] }

/-- The state of the event loop after `applyEvents`. -/
def appliedState : serveRequestState :=
  { demoStart with c := { appliedChain with errorC := true, configureCalls := [[]] } }

/-- The state of the event loop after `leaderState` has handled `demotedApply`. -/
def demotedState : serveRequestState :=
  { c := { demoChain with errorC := false }
    ticking := false
    soft := { Lead := 2, RaftState := StateType.StateFollower }
    submitC := true
    bc := none
    leaderReplies := [1]
    returned := false }

/-! ## `Chain.isRunning` and `Chain.Submit` -/

/-- Go `Chain.isRunning`: the returned error, if any.  `startC` and `doneC` say
whether the channel of that name is closed when the `select` looks at it. -/
def Chain.isRunning (startC doneC : Bool) : Option String :=
  if !startC then
    some "chain is not started"
  else if doneC then
    some "chain is stopped"
  else
    none

/-- How the `select` of Go `Chain.Submit` ends: the event loop receives the
request and answers `lead` on the channel `leader` of the request, or `doneC`
is found closed. -/
inductive submitSelect where
  | received (lead : Nat)
  | doneC
deriving DecidableEq, Repr

/-- What a call of Go `Chain.Submit` has done when it returns: the returned
error, whether the request was sent on `submitC`, and the destination of the
call of `rpc.SendSubmit`, if there was one. -/
structure submitResult where
  err : Option String
  enqueued : Bool
  forwarded : Option Nat
deriving DecidableEq, Repr

/-- Go `Chain.Submit`.  `sel` is how the `select` ends, `none` when neither case
ever becomes ready; `SendSubmit` is the error returned by `c.rpc.SendSubmit`,
if any.  The result is `none` when the call never returns. -/
def Chain.Submit (c : Chain) (startC doneC : Bool)
    (SendSubmit : Nat → SubmitRequest → Option String) (req : SubmitRequest)
    (sel : Option submitSelect) : Option submitResult :=
  match Chain.isRunning startC doneC with
  | some err => some { err := some err, enqueued := false, forwarded := none }
  | none =>
    match sel with
    | none => none
    | some (submitSelect.received lead) =>
      if lead == raft.None then
        some { err := some "no Raft leader", enqueued := true, forwarded := none }
      else if lead != c.raftID then
        some { err := SendSubmit lead req, enqueued := true, forwarded := some lead }
      else
        some { err := none, enqueued := true, forwarded := none }
    | some submitSelect.doneC =>
      some { err := some "chain is stopped", enqueued := false, forwarded := none }

/-! ## `ReadRaftMetadata` (`consenter.go`) -/

/-- Go `common.Metadata`. -/
structure common.Metadata where
  Value : Bytes
  Signatures : List Bytes
deriving DecidableEq, Repr

/-- Go `ReadRaftMetadata`.  `Unmarshal` is `proto.Unmarshal` into a
`RaftMetadata` message; the map `Consenters` is an association list, an
assignment to a key replaces the entry of that key. -/
def ReadRaftMetadata (Unmarshal : Bytes → Except String RaftMetadata)
    (blockMetadata : Option common.Metadata) (configMetadata : Metadata) :
    Except String RaftMetadata :=
  let m : RaftMetadata := { Consenters := [], NextConsenterId := 1, RaftIndex := 0 }
  -- need to read consenters from the configuration
  let fromConfig : RaftMetadata :=
    configMetadata.Consenters.foldl
      (fun (m : RaftMetadata) consenter =>
        { m with
          Consenters :=
            m.Consenters.filter (fun p => p.1 != m.NextConsenterId)
              ++ [(m.NextConsenterId, consenter)]
          NextConsenterId := m.NextConsenterId + 1 })
      m
  match blockMetadata with
  | none => Except.ok fromConfig
  | some bm =>
    if bm.Value.length != 0 then
      -- we have consenters mapping from block
      match Unmarshal bm.Value with
      | Except.error err => Except.error ("failed to unmarshal block's metadata: " ++ err)
      | Except.ok decoded => Except.ok decoded
    else
      Except.ok fromConfig

/-! ## Auxiliary notions for catching up -/

/-- The ledger write that the loop of `Chain.catchUp` makes for a pulled block:
configuration blocks through `WriteConfigBlock`, the others through
`WriteBlock`, with nil metadata. -/
def catchUpWrite (u : Utils) (block : Block) : LedgerWrite :=
  { kind := if u.IsConfigBlock block then WriteKind.WriteConfigBlock else WriteKind.WriteBlock
    block := block
    encodedMetadataValue := none }

/-- The block numbers `next`, `next + 1`, ... (`count` of them at most) up to,
and without, the first one whose pull returns nothing. -/
def pulledNumbers (o : Oracle) (next count : Nat) : List Nat :=
  (List.range' next count).takeWhile (fun j => (o.PullBlock j).isSome)

/-! ## Further notions and instances -/

/-- The invariant of the block cutter under a configuration: an empty pending
batch has size zero, and a batch is pending only when the configuration allows
two messages in a batch. -/
def receiver.cutInv (cfg : BatchSize) (r : receiver) : Prop :=
  (r.pendingBatch = [] → r.pendingBatchSizeBytes = 0)
  ∧ (r.pendingBatch ≠ [] → 2 ≤ cfg.MaxMessageCount)

/-- Collaborators as in `demoOracle`, with five entries in the raft log. -/
def busyOracle : Oracle := { demoOracle with lastIndex := 5 }

/-- Collaborators as in `demoOracle`, with a block puller that finds the blocks
up to number 2. -/
def pullOracle : Oracle :=
  { demoOracle with
    PullBlock := fun n =>
      if n ≤ 2 then some { Number := n, PreviousHash := [], DataHash := [], Data := [[0, n]] }
      else none }

/-- The state of the event loop after the leader `configState`, with a
configuration in flight, has handled `demotedApply`. -/
def configDemotedState : serveRequestState :=
  { configState with
    c := { configState.c with blockInflight := 0 }
    soft := { Lead := 2, RaftState := StateType.StateFollower }
    bc := none }

/-- The state of the event loop after `demoStart` has handled `electedEvent`
while the raft log holds entries that are not applied. -/
def electedState : serveRequestState :=
  { demoStart with
    c := { demoStart.c with justElected := true, errorC := false }
    soft := { Lead := 1, RaftState := StateType.StateLeader }
    submitC := false }

/-- The state of the event loop after `electedState` has handled `demotedApply`. -/
def electedDemotedState : serveRequestState :=
  { electedState with
    soft := { Lead := 2, RaftState := StateType.StateFollower }
    submitC := true }

/-- The state of the event loop after `demoStart` has handled `electedEvent`
with nothing in the raft log. -/
def readyState : serveRequestState :=
  { demoStart with
    c := { demoStart.c with errorC := false }
    soft := { Lead := 1, RaftState := StateType.StateLeader }
    bc := some { hash := [0], number := 0 } }

/-- An apply event without entries and without a change of the soft state. -/
def idleApply : apply := { entries := [], soft := none }

/-- The event loop of node 1 during an election. -/
def candidateState : serveRequestState :=
  { demoStart with soft := { Lead := 0, RaftState := StateType.StateCandidate } }

/-- A submit request for `env5`. -/
def request5 : SubmitRequest := { LastValidationSeq := 0, Payload := env5, Channel := "ch" }

/-- A snapshot taken at block 0. -/
def snapshot0 : Snapshot := { Data := [0, 5], Index := 3, Term := 1, ConfState := { Nodes := [] } }

/-- A snapshot taken at block 1. -/
def snapshot1 : Snapshot := { Data := [1, 5], Index := 3, Term := 1, ConfState := { Nodes := [] } }

/-- A snapshot taken at block 3. -/
def snapshot3 : Snapshot := { Data := [3, 5], Index := 3, Term := 1, ConfState := { Nodes := [] } }

/-- A chain on which the addition of node 2 is in progress. -/
def busyChain : Chain :=
  { demoChain with
    confChangeInProgress := some { Typ := ConfChangeType.ConfChangeAddNode, NodeID := 2 }
    configInflight := true }

/-- A configuration envelope (header type CONFIG) naming consenter 7 alone. -/
def singleEnvelope : Envelope := { Payload := [1, 7], Signature := [] }

/-- A decoder of block metadata: the first byte is the next consenter ID. -/
def demoUnmarshal (bytes : Bytes) : Except String RaftMetadata :=
  match bytes with
  | [] => Except.error "unexpected EOF"
  | n :: _ => Except.ok { Consenters := [], NextConsenterId := n, RaftIndex := 0 }

/-! ## The reference procedure of the block cutter -/

/-- The size of an envelope as the specification measures it: the byte length
of the payload plus that of the signature. -/
def envelopeSize (msg : Envelope) : Nat :=
  msg.Payload.length + msg.Signature.length

/-- The step-by-step procedure that the specification gives for `Ordered`,
with sizes and counts as natural numbers.  Step 2: an envelope larger than
`PreferredMaxBytes` is emitted alone, after the pending batch if there is one,
and nothing is retained.  Step 3: when the pending size plus the size of the
envelope exceeds `PreferredMaxBytes` the pending batch is emitted first.  Step
4: the envelope is appended.  Step 5: when the pending count has reached
`MaxMessageCount` the pending batch is emitted. -/
def Ordered_reference (cfg : BatchSize) (r : receiver) (msg : Envelope) :
    (List (List Envelope) × Bool) × receiver :=
  let size := envelopeSize msg
  if size > cfg.PreferredMaxBytes then
    if r.pendingBatch.length > 0 then
      (([r.pendingBatch, [msg]], false), { pendingBatch := [], pendingBatchSizeBytes := 0 })
    else
      (([[msg]], false), { pendingBatch := [], pendingBatchSizeBytes := 0 })
  else
    let overflow := decide (r.pendingBatchSizeBytes + size > cfg.PreferredMaxBytes)
    let first : List (List Envelope) := if overflow then [r.pendingBatch] else []
    let r1 : receiver :=
      if overflow then { pendingBatch := [], pendingBatchSizeBytes := 0 } else r
    let r2 : receiver :=
      { pendingBatch := r1.pendingBatch ++ [msg]
        pendingBatchSizeBytes := r1.pendingBatchSizeBytes + size }
    if r2.pendingBatch.length ≥ cfg.MaxMessageCount then
      ((first ++ [r2.pendingBatch], false), { pendingBatch := [], pendingBatchSizeBytes := 0 })
    else
      ((first, true), r2)

/-- The states of a receiver reached from a new receiver by calls of `Ordered`
(under whatever configuration is in force at the call) and of `Cut`. -/
inductive receiver.Reachable : receiver → Prop where
  | fresh : receiver.Reachable NewReceiverImpl
  | ordered (cfg : BatchSize) (r : receiver) (msg : Envelope) :
      receiver.Reachable r → receiver.Reachable (r.Ordered cfg msg).2
  | cut (r : receiver) : receiver.Reachable r → receiver.Reachable (r.Cut).2

/-- An envelope with a payload of `n` zero bytes and no signature. -/
def envelopeOf (n : Nat) : Envelope := { Payload := List.replicate n 0, Signature := [] }

/-- At most two messages and a thousand bytes in a batch. -/
def countConfig : BatchSize := { MaxMessageCount := 2, PreferredMaxBytes := 1000 }

/-- At most ten messages and a hundred bytes in a batch. -/
def bytesConfig : BatchSize := { MaxMessageCount := 10, PreferredMaxBytes := 100 }

/-- A receiver that holds two envelopes of 1,500,000,000 bytes. -/
def bigPending : receiver :=
  { pendingBatch := [bigEnvelope, bigEnvelope], pendingBatchSizeBytes := 3000000000 }

/-! ## Further notions for `Chain.apply` and the channel `errorC` -/

/-- The largest index among the entries that reach the end of their iteration
of the loop of `Chain.apply`, and `low` if it is larger or there is none. -/
def maxAdvancedIndex (u : Utils) (low : Nat) (ents : List Entry) : Nat :=
  ents.foldl (fun m e => if e.advances u then max m e.Index else m) low

/-- While the event loop runs, the channel `errorC` is closed exactly when the
soft state is that of a candidate or pre-candidate or names no leader. -/
def serveRequestState.errorInv (st : serveRequestState) : Prop :=
  st.returned = false →
    (st.c.errorC = true ↔ (isCandidate st.soft.RaftState = true ∨ st.soft.Lead = raft.None))

/-- A committed ConfChange entry whose data cannot be decoded. -/
def badConfChangeEntry : Entry := { Typ := EntryType.EntryConfChange, Index := 1, Data := [9] }

/-- Collaborators as in `demoOracle`, with a newer configuration sequence and
a revalidation that rejects every normal message. -/
def rejectOracle : Oracle :=
  { demoOracle with Sequence := 1, ProcessNormalMsg := fun _ => false }

/-! ## The plain token verifier (`token/tms/plain/verifier.go`)

Strings are sequences of Unicode code points, so `utf8.ValidString` holds of
every string; the elements of the slices of a transaction are not nil; a run
time failure of Go (index out of range, nil pointer dereference) is the result
`none`. -/

/-- Go `token.TokenOwner`. -/
structure TokenOwner where
  Raw : Bytes
deriving DecidableEq, Repr

/-- Go `token.PlainOutput`; `Owner` is a pointer and may be nil, `Quantity` is a
`uint64`. -/
structure PlainOutput where
  Owner : Option TokenOwner
  Typ : String
  Quantity : Nat
deriving DecidableEq, Repr

/-- Go `token.TokenId`. -/
structure TokenId where
  TxId : String
  Index : Nat
deriving DecidableEq, Repr

/-- Go `token.PlainImport`. -/
structure PlainImport where
  Outputs : List PlainOutput
deriving DecidableEq, Repr

/-- Go `token.PlainTransfer`. -/
structure PlainTransfer where
  Inputs : List TokenId
  Outputs : List PlainOutput
deriving DecidableEq, Repr

/-- The field `Data` of Go `token.PlainTokenAction`: one of the three actions
that the verifier knows, or anything else (nil included), of which only the
name of the type matters. -/
inductive PlainTokenActionData where
  | PlainImport (importAction : Fabric.PlainImport)
  | PlainTransfer (transferAction : Fabric.PlainTransfer)
  | PlainRedeem (redeemAction : Fabric.PlainTransfer)
  | unknown (typeName : String)
deriving DecidableEq, Repr

/-- Go `token.TokenTransaction`, seen through `GetPlainAction()`: the field
`Data` of the plain action, or nil. -/
structure TokenTransaction where
  PlainAction : Option PlainTokenActionData
deriving DecidableEq, Repr

/-- An error value: a `customtx.InvalidTxError`, or an error of another kind
(those of the ledger and of the creation of keys). -/
inductive TxError where
  | InvalidTxError (Msg : String)
  | other (msg : String)
deriving DecidableEq, Repr

/-- The state of the ledger under the namespace `tokenNameSpace`: the value of
every key that has one. -/
abbrev LedgerState := List (String × Bytes)

/-- What the ledger simulator answers beyond the state: the error, if any, of
`GetState` and of `SetState` for a key. -/
structure LedgerFaults where
  GetState : String → Option String
  SetState : String → Option String

/-- Go `simulator.GetState(tokenNameSpace, key)`; the value is nil for a key
without a value. -/
def LedgerFaults.getState (f : LedgerFaults) (state : LedgerState) (key : String) :
    Except TxError (Option Bytes) :=
  match f.GetState key with
  | some err => Except.error (TxError.other err)
  | none => Except.ok (state.lookup key)

/-- Go `simulator.SetState(tokenNameSpace, key, value)`: the error, if any, and
the state afterwards. -/
def LedgerFaults.setState (f : LedgerFaults) (state : LedgerState) (key : String)
    (value : Bytes) : Option TxError × LedgerState :=
  match f.SetState key with
  | some err => (some (TxError.other err), state)
  | none => (none, (key, value) :: state.filter (fun p => p.1 != key))

/-- Go `Verifier` with what its methods call: the two validators (the error
they return, if any), `utils.MarshalOrPanic` and `proto.Unmarshal` on outputs. -/
structure Verifier where
  /-- Go `v.IssuingValidator.Validate(creator, tokenType)`. -/
  IssuingValidate : Bytes → String → Option String
  /-- Go `v.TokenOwnerValidator.Validate(owner)`. -/
  OwnerValidate : Option TokenOwner → Option String
  Marshal : PlainOutput → Bytes
  Unmarshal : Bytes → Except String PlainOutput

/-- The constant `minUnicodeRuneValue`. -/
def minUnicodeRuneValue : Nat := 0

/-- The constant `maxUnicodeRuneValue` (`utf8.MaxRune`). -/
def maxUnicodeRuneValue : Nat := 1114111

/-- The constant `tokenOutput`. -/
def tokenOutput : String := "tokenOutput"

/-- The constant `tokenRedeem`. -/
def tokenRedeem : String := "tokenRedeem"

/-- The constant `tokenInput`. -/
def tokenInput : String := "tokenInput"

/-- Go `%s` of a byte slice. -/
def bytesText (b : Bytes) : String := String.mk (b.map Char.ofNat)

/-- Go `strings.Contains`. -/
def stringsContains (s substr : String) : Bool :=
  s.data.tails.any (fun t => substr.data.isPrefixOf t)

/-- Go `validateCompositeKeyAttribute`: the error, if any (its text gives the
offending code point as a number). -/
def validateCompositeKeyAttribute (str : String) : Option String :=
  match str.data.find? (fun ch =>
      ch.toNat == minUnicodeRuneValue || ch.toNat == maxUnicodeRuneValue) with
  | some ch =>
    some ("input contain unicode " ++ toString ch.toNat
      ++ ", not allowed in the input attribute of a composite key")
  | none => none

/-- The loop of Go `createCompositeKey` over the attributes. -/
def createCompositeKeyLoop : String → List String → Except String String
  | ck, [] => Except.ok ck
  | ck, att :: rest =>
    match validateCompositeKeyAttribute att with
    | some err => Except.error err
    | none => createCompositeKeyLoop (ck ++ att ++ String.singleton (Char.ofNat 0)) rest

/-- Go `createCompositeKey`. -/
def createCompositeKey (objectType : String) (attributes : List String) :
    Except String String :=
  match validateCompositeKeyAttribute objectType with
  | some err => Except.error err
  | none =>
    createCompositeKeyLoop
      (String.singleton (Char.ofNat 0) ++ objectType ++ String.singleton (Char.ofNat 0))
      attributes

/-- Go `createOutputKey`. -/
def createOutputKey (txID : String) (index : Nat) : Except String String :=
  createCompositeKey tokenOutput [txID, toString index]

/-- Go `createRedeemKey`. -/
def createRedeemKey (txID : String) (index : Nat) : Except String String :=
  createCompositeKey tokenRedeem [txID, toString index]

/-- Go `createSpentKey`. -/
def createSpentKey (txID : String) (index : Nat) : Except String String :=
  createCompositeKey tokenInput [txID, toString index]

/-- Go `Verifier.checkOutputDoesNotExist`: the error, if any. -/
def Verifier.checkOutputDoesNotExist (f : LedgerFaults) (state : LedgerState) (index : Nat)
    (output : PlainOutput) (txID : String) : Option TxError :=
  let outputID :=
    if output.Owner.isSome then createOutputKey txID index else createRedeemKey txID index
  match outputID with
  | Except.error err =>
    some (TxError.InvalidTxError ("error creating output ID: " ++ err))
  | Except.ok outputID =>
    match f.getState state outputID with
    | Except.error err => some err
    | Except.ok existingOutputBytes =>
      if existingOutputBytes.isSome then
        some (TxError.InvalidTxError ("output already exists: " ++ outputID))
      else none

/-- The loop of Go `Verifier.checkOutputs` from output `i` on, with the values
of `tokenType` and `tokenSum` (a `uint64`) so far. -/
def Verifier.checkOutputsLoop (v : Verifier) (f : LedgerFaults) (state : LedgerState)
    (txID : String) (ownerRequired : Bool) :
    Nat → String → Nat → List PlainOutput → Except TxError (String × Nat)
  | _, tokenType, tokenSum, [] => Except.ok (tokenType, tokenSum)
  | i, tokenType, tokenSum, output :: rest =>
    match Verifier.checkOutputDoesNotExist f state i output txID with
    | some err => Except.error err
    | none =>
      if tokenType != "" && tokenType != output.Typ then
        Except.error (TxError.InvalidTxError
          ("multiple token types ('" ++ tokenType ++ "', '" ++ output.Typ
            ++ "') in output for txID '" ++ txID ++ "'"))
      else
        let tokenType1 := if tokenType == "" then output.Typ else tokenType
        let invalidOwner : Option String :=
          if ownerRequired then v.OwnerValidate output.Owner else none
        match invalidOwner with
        | some err =>
          Except.error (TxError.InvalidTxError
            ("invalid owner in output for txID '" ++ txID ++ "', err '" ++ err ++ "'"))
        | none =>
          Verifier.checkOutputsLoop v f state txID ownerRequired (i + 1) tokenType1
            ((tokenSum + output.Quantity) % 2 ^ 64) rest

/-- Go `Verifier.checkOutputs`. -/
def Verifier.checkOutputs (v : Verifier) (f : LedgerFaults) (state : LedgerState)
    (outputs : List PlainOutput) (txID : String) (ownerRequired : Bool) :
    Except TxError (String × Nat) :=
  Verifier.checkOutputsLoop v f state txID ownerRequired 0 "" 0 outputs

/-- Go `Verifier.getOutput`; the cases of a nil and of an empty value give the
same error. -/
def Verifier.getOutput (v : Verifier) (f : LedgerFaults) (state : LedgerState)
    (outputID : String) : Except TxError PlainOutput :=
  if !stringsContains outputID tokenOutput then
    Except.error (TxError.InvalidTxError
      ("input with ID " ++ outputID ++ " for transfer is not an output"))
  else
    match f.getState state outputID with
    | Except.error err => Except.error err
    | Except.ok none =>
      Except.error (TxError.InvalidTxError
        ("input with ID " ++ outputID ++ " for transfer does not exist"))
    | Except.ok (some outputBytes) =>
      if outputBytes.length == 0 then
        Except.error (TxError.InvalidTxError
          ("input with ID " ++ outputID ++ " for transfer does not exist"))
      else
        match v.Unmarshal outputBytes with
        | Except.error err =>
          Except.error (TxError.InvalidTxError ("unmarshaling error: " ++ err))
        | Except.ok output => Except.ok output

/-- Go `Verifier.isSpent`. -/
def Verifier.isSpent (f : LedgerFaults) (state : LedgerState) (spentKey : String) :
    Except TxError Bool :=
  match f.getState state spentKey with
  | Except.error err => Except.error err
  | Except.ok result => Except.ok result.isSome

/-- Go `Verifier.checkInputOwner`: the error, if any; `none` when the owner of
the input is nil. -/
def Verifier.checkInputOwner (creator : Bytes) (input : PlainOutput) (tokenId : String) :
    Option (Option TxError) :=
  match input.Owner with
  | none => none
  | some owner =>
    if creator != owner.Raw then
      some (some (TxError.InvalidTxError
        ("transfer input with ID " ++ tokenId ++ " not owned by creator")))
    else some none

/-- The loop of Go `Verifier.checkInputs`, with the values of `tokenType`,
`inputSum` (a `uint64`) and the keys of `processedIDs` so far. -/
def Verifier.checkInputsLoop (v : Verifier) (f : LedgerFaults) (state : LedgerState)
    (creator : Bytes) (txID : String) :
    String → Nat → List String → List TokenId → Option (Except TxError (String × Nat))
  | tokenType, inputSum, _, [] => some (Except.ok (tokenType, inputSum))
  | tokenType, inputSum, processedIDs, id :: rest =>
    match createOutputKey id.TxId id.Index with
    | Except.error err =>
      some (Except.error (TxError.InvalidTxError
        ("error creating output ID for transfer input: " ++ err)))
    | Except.ok inputKey =>
      match v.getOutput f state inputKey with
      | Except.error err => some (Except.error err)
      | Except.ok input =>
        match Verifier.checkInputOwner creator input inputKey with
        | none => none
        | some (some err) => some (Except.error err)
        | some none =>
          if tokenType != "" && tokenType != input.Typ then
            some (Except.error (TxError.InvalidTxError
              ("multiple token types in input for txID: " ++ txID ++ " (" ++ tokenType
                ++ ", " ++ input.Typ ++ ")")))
          else
            let tokenType1 := if tokenType == "" then input.Typ else tokenType
            if processedIDs.contains inputKey then
              some (Except.error (TxError.InvalidTxError
                ("token input '" ++ inputKey ++ "' spent more than once in transaction ID '"
                  ++ txID ++ "'")))
            else
              let inputSum1 := (inputSum + input.Quantity) % 2 ^ 64
              match createSpentKey id.TxId id.Index with
              | Except.error err => some (Except.error (TxError.other err))
              | Except.ok spentKey =>
                match Verifier.isSpent f state spentKey with
                | Except.error err => some (Except.error err)
                | Except.ok spent =>
                  if spent then
                    some (Except.error (TxError.InvalidTxError
                      ("input with ID " ++ inputKey ++ " for transfer has already been spent")))
                  else
                    Verifier.checkInputsLoop v f state creator txID tokenType1 inputSum1
                      (inputKey :: processedIDs) rest

/-- Go `Verifier.checkInputs`. -/
def Verifier.checkInputs (v : Verifier) (f : LedgerFaults) (state : LedgerState)
    (creator : Bytes) (tokenIds : List TokenId) (txID : String) :
    Option (Except TxError (String × Nat)) :=
  Verifier.checkInputsLoop v f state creator txID "" 0 [] tokenIds

/-- Go `Verifier.checkInputsAndOutputs`: the error, if any. -/
def Verifier.checkInputsAndOutputs (v : Verifier) (f : LedgerFaults) (state : LedgerState)
    (creator : Bytes) (tokenIds : List TokenId) (outputs : List PlainOutput) (txID : String)
    (ownerRequired : Bool) : Option (Option TxError) :=
  match v.checkOutputs f state outputs txID ownerRequired with
  | Except.error err => some (some err)
  | Except.ok (outputType, outputSum) =>
    match v.checkInputs f state creator tokenIds txID with
    | none => none
    | some (Except.error err) => some (some err)
    | some (Except.ok (inputType, inputSum)) =>
      if outputType != inputType then
        some (some (TxError.InvalidTxError
          ("token type mismatch in inputs and outputs for transaction ID " ++ txID
            ++ " (" ++ outputType ++ " vs " ++ inputType ++ ")")))
      else if outputSum != inputSum then
        some (some (TxError.InvalidTxError
          ("token sum mismatch in inputs and outputs for transaction ID " ++ txID
            ++ " (" ++ toString outputSum ++ " vs " ++ toString inputSum ++ ")")))
      else some none

/-- Go `Verifier.checkTransferAction`. -/
def Verifier.checkTransferAction (v : Verifier) (f : LedgerFaults) (state : LedgerState)
    (creator : Bytes) (transferAction : PlainTransfer) (txID : String) :
    Option (Option TxError) :=
  v.checkInputsAndOutputs f state creator transferAction.Inputs transferAction.Outputs txID true

/-- Go `Verifier.checkRedeemAction`. -/
def Verifier.checkRedeemAction (v : Verifier) (f : LedgerFaults) (state : LedgerState)
    (creator : Bytes) (redeemAction : PlainTransfer) (txID : String) :
    Option (Option TxError) :=
  match v.checkInputsAndOutputs f state creator redeemAction.Inputs redeemAction.Outputs txID
      false with
  | none => none
  | some (some err) => some (some err)
  | some none =>
    -- redeem transaction should not have more than 2 outputs.
    let outputs := redeemAction.Outputs
    if outputs.length > 2 then
      some (some (TxError.InvalidTxError
        ("too many outputs (" ++ toString outputs.length ++ ") in a redeem transaction")))
    else
      -- output[0] should always be a redeem output - i.e., owner should be nil
      match outputs[0]? with
      | none => none
      | some first =>
        if first.Owner.isSome then
          some (some (TxError.InvalidTxError "owner should be nil in a redeem output"))
        else if outputs.length == 2 then
          -- if output[1] presents, its owner must be same as the creator
          match outputs[1]? with
          | none => none
          | some second =>
            match second.Owner with
            | none => none
            | some owner =>
              if creator != owner.Raw then
                some (some (TxError.InvalidTxError
                  ("wrong owner for remaining tokens, should be original owner "
                    ++ bytesText creator ++ ", but got " ++ bytesText owner.Raw)))
              else some none
        else some none

/-- The loop of Go `Verifier.checkImportOutputs` from output `i` on. -/
def Verifier.checkImportOutputsLoop (f : LedgerFaults) (state : LedgerState) (txID : String) :
    Nat → List PlainOutput → Option TxError
  | _, [] => none
  | i, output :: rest =>
    match Verifier.checkOutputDoesNotExist f state i output txID with
    | some err => some err
    | none =>
      if output.Quantity == 0 then
        some (TxError.InvalidTxError
          ("output " ++ toString i ++ " quantity is 0 in transaction: " ++ txID))
      else if output.Owner.isNone then
        some (TxError.InvalidTxError ("missing owner in output for txID '" ++ txID ++ "'"))
      else Verifier.checkImportOutputsLoop f state txID (i + 1) rest

/-- Go `Verifier.checkImportOutputs`. -/
def Verifier.checkImportOutputs (f : LedgerFaults) (state : LedgerState)
    (outputs : List PlainOutput) (txID : String) : Option TxError :=
  if outputs.length == 0 then
    some (TxError.InvalidTxError ("no outputs in transaction: " ++ txID))
  else Verifier.checkImportOutputsLoop f state txID 0 outputs

/-- Go `Verifier.checkImportPolicy`. -/
def Verifier.checkImportPolicy (v : Verifier) (creator : Bytes) :
    List PlainOutput → Option TxError
  | [] => none
  | output :: rest =>
    match v.IssuingValidate creator output.Typ with
    | some err => some (TxError.InvalidTxError ("import policy check failed: " ++ err))
    | none => Verifier.checkImportPolicy v creator rest

/-- Go `Verifier.checkImportAction`. -/
def Verifier.checkImportAction (v : Verifier) (f : LedgerFaults) (state : LedgerState)
    (creator : Bytes) (importAction : PlainImport) (txID : String) : Option TxError :=
  match Verifier.checkImportOutputs f state importAction.Outputs txID with
  | some err => some err
  | none => v.checkImportPolicy creator importAction.Outputs

/-- Go `Verifier.checkAction`. -/
def Verifier.checkAction (v : Verifier) (f : LedgerFaults) (state : LedgerState)
    (creator : Bytes) (plainAction : PlainTokenActionData) (txID : String) :
    Option (Option TxError) :=
  match plainAction with
  | PlainTokenActionData.PlainImport action =>
    some (v.checkImportAction f state creator action txID)
  | PlainTokenActionData.PlainTransfer action =>
    v.checkTransferAction f state creator action txID
  | PlainTokenActionData.PlainRedeem action =>
    v.checkRedeemAction f state creator action txID
  | PlainTokenActionData.unknown typeName =>
    some (some (TxError.InvalidTxError ("unknown plain token action: " ++ typeName)))

/-- Go `Verifier.checkProcess`: it reads the ledger and cannot write to it. -/
def Verifier.checkProcess (v : Verifier) (f : LedgerFaults) (state : LedgerState)
    (txID : String) (creator : Bytes) (ttx : TokenTransaction) : Option (Option TxError) :=
  match ttx.PlainAction with
  | none =>
    some (some (TxError.InvalidTxError
      ("check process failed for transaction '" ++ txID ++ "': missing token action")))
  | some action => v.checkAction f state creator action txID

/-- Go `Verifier.addOutput`. -/
def Verifier.addOutput (v : Verifier) (f : LedgerFaults) (state : LedgerState)
    (outputID : String) (output : PlainOutput) : Option TxError × LedgerState :=
  f.setState state outputID (v.Marshal output)

/-- Go `Verifier.commitImportAction`, from output `i` on. -/
def Verifier.commitImportAction (v : Verifier) (f : LedgerFaults) (txID : String) :
    LedgerState → Nat → List PlainOutput → Option TxError × LedgerState
  | state, _, [] => (none, state)
  | state, i, output :: rest =>
    match createOutputKey txID i with
    | Except.error err =>
      (some (TxError.InvalidTxError ("error creating output ID: " ++ err)), state)
    | Except.ok outputID =>
      match v.addOutput f state outputID output with
      | (some err, state1) => (some err, state1)
      | (none, state1) => Verifier.commitImportAction v f txID state1 (i + 1) rest

/-- Go `Verifier.markInputsSpent`; the marker is the byte 1. -/
def Verifier.markInputsSpent (f : LedgerFaults) :
    LedgerState → List TokenId → Option TxError × LedgerState
  | state, [] => (none, state)
  | state, id :: rest =>
    match createSpentKey id.TxId id.Index with
    | Except.error err =>
      (some (TxError.InvalidTxError ("error creating spent key: " ++ err)), state)
    | Except.ok tokenId =>
      match f.setState state tokenId [1] with
      | (some err, state1) => (some err, state1)
      | (none, state1) => Verifier.markInputsSpent f state1 rest

/-- The loop of Go `Verifier.commitTransferAction` from output `i` on. -/
def Verifier.commitOutputs (v : Verifier) (f : LedgerFaults) (txID : String) :
    LedgerState → Nat → List PlainOutput → Option TxError × LedgerState
  | state, _, [] => (none, state)
  | state, i, output :: rest =>
    let outputID :=
      if output.Owner.isSome then createOutputKey txID i else createRedeemKey txID i
    match outputID with
    | Except.error err =>
      (some (TxError.InvalidTxError ("error creating output ID: " ++ err)), state)
    | Except.ok outputID =>
      match v.addOutput f state outputID output with
      | (some err, state1) => (some err, state1)
      | (none, state1) => Verifier.commitOutputs v f txID state1 (i + 1) rest

/-- Go `Verifier.commitTransferAction`, called for transfer and for redeem. -/
def Verifier.commitTransferAction (v : Verifier) (f : LedgerFaults) (state : LedgerState)
    (transferAction : PlainTransfer) (txID : String) : Option TxError × LedgerState :=
  match Verifier.commitOutputs v f txID state 0 transferAction.Outputs with
  | (some err, state1) => (some err, state1)
  | (none, state1) => Verifier.markInputsSpent f state1 transferAction.Inputs

/-- Go `Verifier.commitProcess` with `commitAction`; a nil action is
dereferenced. -/
def Verifier.commitProcess (v : Verifier) (f : LedgerFaults) (state : LedgerState)
    (txID : String) (ttx : TokenTransaction) : Option (Option TxError × LedgerState) :=
  match ttx.PlainAction with
  | none => none
  | some (PlainTokenActionData.PlainImport action) =>
    some (Verifier.commitImportAction v f txID state 0 action.Outputs)
  | some (PlainTokenActionData.PlainTransfer action) =>
    some (v.commitTransferAction f state action txID)
  | some (PlainTokenActionData.PlainRedeem action) =>
    some (v.commitTransferAction f state action txID)
  | some (PlainTokenActionData.unknown _) => some (none, state)

/-- Go `Verifier.ProcessTx`: the returned error, if any, and the state of the
ledger afterwards. -/
def Verifier.ProcessTx (v : Verifier) (f : LedgerFaults) (state : LedgerState)
    (txID : String) (creator : Bytes) (ttx : TokenTransaction) :
    Option (Option TxError × LedgerState) :=
  match v.checkProcess f state txID creator ttx with
  | none => none
  | some (some err) => some (some err, state)
  | some none => v.commitProcess f state txID ttx

/-! ## An instance of the token verifier -/

/-- A serialization of outputs: the owner, the type and the quantity in eight
bytes, least significant first. -/
def tokenMarshal (o : PlainOutput) : Bytes :=
  (match o.Owner with
    | none => [0]
    | some owner => 1 :: owner.Raw.length :: owner.Raw)
  ++ (o.Typ.data.length :: o.Typ.data.map Char.toNat)
  ++ (List.range 8).map (fun i => o.Quantity / 256 ^ i % 256)

/-- The quantity that eight bytes stand for, least significant first. -/
def tokenQuantity (bytes : Bytes) : Nat :=
  bytes.foldr (fun b q => b + 256 * q) 0

/-- The type and the quantity that follow the owner in a serialized output. -/
def tokenUnmarshalRest (owner : Option TokenOwner) (bytes : Bytes) : Except String PlainOutput :=
  match bytes with
  | [] => Except.error "unexpected EOF"
  | n :: rest =>
    if (rest.drop n).length != 8 then Except.error "unexpected EOF"
    else
      Except.ok
        { Owner := owner
          Typ := String.mk ((rest.take n).map Char.ofNat)
          Quantity := tokenQuantity (rest.drop n) }

/-- The inverse of `tokenMarshal`. -/
def tokenUnmarshal (bytes : Bytes) : Except String PlainOutput :=
  match bytes with
  | 0 :: rest => tokenUnmarshalRest none rest
  | 1 :: n :: rest => tokenUnmarshalRest (some { Raw := rest.take n }) (rest.drop n)
  | _ => Except.error "unexpected EOF"

/-- A verifier that lets everybody issue and wants every owner to be present. -/
def demoVerifier : Verifier :=
  { IssuingValidate := fun _ _ => none
    OwnerValidate := fun owner => if owner.isSome then none else some "owner is nil"
    Marshal := tokenMarshal
    Unmarshal := tokenUnmarshal }

/-- A ledger simulator whose reads and writes succeed. -/
def noFaults : LedgerFaults := { GetState := fun _ => none, SetState := fun _ => none }

/-- The key of output 0 of the transaction `0`. -/
def mintedKey : String :=
  match createOutputKey "0" 0 with
  | Except.ok key => key
  | Except.error _ => ""

/-- The creator of the transactions of the instance. -/
def alice : Bytes := [7]

/-- A ledger on which the creator owns a token of quantity `q` and type `A`,
output 0 of the transaction `0`. -/
def ledgerWith (q : Nat) : LedgerState :=
  [(mintedKey, tokenMarshal { Owner := some { Raw := alice }, Typ := "A", Quantity := q })]

/-- A transfer of the token of `ledgerWith` into two outputs of type `A`, of
quantities 2^63 and 2^63 + 1. -/
def overflowTransfer : TokenTransaction :=
  { PlainAction := some (PlainTokenActionData.PlainTransfer
      { Inputs := [{ TxId := "0", Index := 0 }]
        Outputs :=
          [{ Owner := some { Raw := [8] }, Typ := "A", Quantity := 9223372036854775808 },
           { Owner := some { Raw := [9] }, Typ := "A", Quantity := 9223372036854775809 }] }) }

/-- A transfer of the token of `ledgerWith` into an output of the empty type
followed by an output of type `A`. -/
def mixedTransfer : TokenTransaction :=
  { PlainAction := some (PlainTokenActionData.PlainTransfer
      { Inputs := [{ TxId := "0", Index := 0 }]
        Outputs :=
          [{ Owner := some { Raw := [8] }, Typ := "", Quantity := 1 },
           { Owner := some { Raw := [9] }, Typ := "A", Quantity := 1 }] }) }

/-- A redeem transaction without inputs and without outputs. -/
def emptyRedeem : TokenTransaction :=
  { PlainAction := some (PlainTokenActionData.PlainRedeem { Inputs := [], Outputs := [] }) }

/-- A redeem of the token of `ledgerWith` into two outputs without owner. -/
def ownerlessRedeem : TokenTransaction :=
  { PlainAction := some (PlainTokenActionData.PlainRedeem
      { Inputs := [{ TxId := "0", Index := 0 }]
        Outputs :=
          [{ Owner := none, Typ := "A", Quantity := 1 },
           { Owner := none, Typ := "A", Quantity := 1 }] }) }

/-- A transfer of the token of `ledgerWith` into outputs of the types `A` and `B`. -/
def twoTypeTransfer : TokenTransaction :=
  { PlainAction := some (PlainTokenActionData.PlainTransfer
      { Inputs := [{ TxId := "0", Index := 0 }]
        Outputs :=
          [{ Owner := some { Raw := [8] }, Typ := "A", Quantity := 1 },
           { Owner := some { Raw := [9] }, Typ := "B", Quantity := 1 }] }) }

/-! ## Lemmas on the block cutter -/

theorem orderedAll_concat (cfg : BatchSize) (msgs : List Envelope) (r : receiver) :
    (receiver.orderedAll cfg r msgs).1.flatten ++ ((receiver.orderedAll cfg r msgs).2.Cut).1
      = r.pendingBatch ++ msgs := by
  induction msgs generalizing r with
  | nil => simp [receiver.orderedAll, receiver.Cut]
  | cons m ms ih =>
    simp only [receiver.orderedAll, List.flatten_append, List.append_assoc]
    rw [ih]
    unfold receiver.Ordered
    simp only [receiver.Cut]
    split_ifs with h1 h2 h3 h4 h5 <;> simp
    have : r.pendingBatch = [] := by
      cases hp : r.pendingBatch with
      | nil => rfl
      | cons a l => simp [hp] at h2
    simp [this]

theorem Ordered_count (cfg : BatchSize) (hM : 1 ≤ cfg.MaxMessageCount)
    (hw : cfg.MaxMessageCount < 2 ^ 32) (r : receiver) (msg : Envelope)
    (hr : r.pendingBatch.length < cfg.MaxMessageCount) :
    (∀ b ∈ (r.Ordered cfg msg).1.1, b.length ≤ cfg.MaxMessageCount)
    ∧ (r.Ordered cfg msg).2.pendingBatch.length < cfg.MaxMessageCount := by
  unfold receiver.Ordered
  simp only [receiver.Cut]
  have hlen : (r.pendingBatch.length + 1) % 2 ^ 32 = r.pendingBatch.length + 1 :=
    Nat.mod_eq_of_lt (by omega)
  split_ifs with h1 h2 h3 h4 h5
  all_goals simp only [List.mem_cons, List.mem_singleton, List.not_mem_nil, or_false,
    List.nil_append, List.length_append, List.length_singleton, List.length_nil,
    List.length_cons, List.singleton_append, forall_eq_or_imp, forall_eq, false_or,
    decide_eq_true_eq, if_true, if_false, List.append_nil] at *
  all_goals first | omega | (refine ⟨fun _ h => h.elim, ?_⟩; omega)

theorem orderedAll_count (cfg : BatchSize) (hM : 1 ≤ cfg.MaxMessageCount)
    (hw : cfg.MaxMessageCount < 2 ^ 32) (msgs : List Envelope) (r : receiver)
    (hr : r.pendingBatch.length < cfg.MaxMessageCount) :
    ∀ b ∈ (receiver.orderedAll cfg r msgs).1, b.length ≤ cfg.MaxMessageCount := by
  induction msgs generalizing r with
  | nil => simp [receiver.orderedAll]
  | cons m ms ih =>
    have h := Ordered_count cfg hM hw r m hr
    intro b hb
    simp only [receiver.orderedAll, List.mem_append] at hb
    rcases hb with hb | hb
    · exact h.1 b hb
    · exact ih _ h.2 b hb

theorem Ordered_enqueue (cfg : BatchSize) (pb : List Envelope) (sz m n : Nat) (msg : Envelope)
    (hm : messageSizeBytes msg = m)
    (hn : (sz + m) % 2 ^ 32 = n)
    (h1 : m ≤ cfg.PreferredMaxBytes)
    (h2 : n ≤ cfg.PreferredMaxBytes)
    (h3 : (pb.length + 1) % 2 ^ 32 < cfg.MaxMessageCount) :
    receiver.Ordered cfg { pendingBatch := pb, pendingBatchSizeBytes := sz } msg
      = (([], true), { pendingBatch := pb ++ [msg], pendingBatchSizeBytes := n }) := by
  subst hm hn
  unfold receiver.Ordered
  have h1' : ¬ messageSizeBytes msg > cfg.PreferredMaxBytes := by omega
  have h2' : ¬ (sz + messageSizeBytes msg) % 2 ^ 32 > cfg.PreferredMaxBytes := by
    omega
  have h3' : ¬ (pb ++ [msg]).length % 2 ^ 32 ≥ cfg.MaxMessageCount := by
    rw [List.length_append, List.length_singleton]; omega
  simp only [h1', h2', h3', if_false, decide_False, Bool.false_eq_true]

theorem Ordered_count_cut (cfg : BatchSize) (pb : List Envelope) (sz m n : Nat) (msg : Envelope)
    (hm : messageSizeBytes msg = m)
    (hn : (sz + m) % 2 ^ 32 = n)
    (h1 : m ≤ cfg.PreferredMaxBytes)
    (h2 : n ≤ cfg.PreferredMaxBytes)
    (h3 : cfg.MaxMessageCount ≤ (pb.length + 1) % 2 ^ 32) :
    receiver.Ordered cfg { pendingBatch := pb, pendingBatchSizeBytes := sz } msg
      = (([pb ++ [msg]], false), { pendingBatch := [], pendingBatchSizeBytes := 0 }) := by
  subst hm hn
  unfold receiver.Ordered
  have h1' : ¬ messageSizeBytes msg > cfg.PreferredMaxBytes := by omega
  have h2' : ¬ (sz + messageSizeBytes msg) % 2 ^ 32 > cfg.PreferredMaxBytes := by
    omega
  have h3' : (pb ++ [msg]).length % 2 ^ 32 ≥ cfg.MaxMessageCount := by
    rw [List.length_append, List.length_singleton]; omega
  simp only [h1', h2', h3', if_false, if_true, decide_False, Bool.false_eq_true, receiver.Cut,
    List.nil_append]

theorem three_big (e : Envelope) (h : e.Payload.length + e.Signature.length = 1500000000) :
    (receiver.orderedAll bigConfig NewReceiverImpl [e, e, e]).1 = [[e, e, e]]
    ∧ batchBytes [e, e, e] = 4500000000 := by
  have hs : messageSizeBytes e = 1500000000 := by
    unfold messageSizeBytes; rw [h]; norm_num
  have hP : bigConfig.PreferredMaxBytes = 3000000000 := rfl
  have hM : bigConfig.MaxMessageCount = 3 := rfl
  constructor
  · have s1 := Ordered_enqueue bigConfig [] 0 1500000000 1500000000 e hs
      (by norm_num) (by rw [hP]; norm_num) (by rw [hP]; norm_num) (by rw [hM]; norm_num)
    have s2 := Ordered_enqueue bigConfig [e] 1500000000 1500000000 3000000000 e hs
      (by norm_num) (by rw [hP]; norm_num) (by rw [hP]) (by rw [hM]; norm_num)
    have s3 := Ordered_count_cut bigConfig [e, e] 3000000000 1500000000 205032704 e hs
      (by norm_num) (by rw [hP]; norm_num) (by rw [hP]; norm_num) (by rw [hM]; norm_num)
    unfold NewReceiverImpl
    simp only [receiver.orderedAll, s1, List.nil_append, s2, List.cons_append, s3,
      List.append_nil]
  · simp only [batchBytes, List.map, List.sum_cons, List.sum_nil, h]
    norm_num

theorem bigPayload_length : bigPayload.length = 1500000000 :=
  List.length_replicate 1500000000 0

theorem bigEnvelope_bytes :
    bigEnvelope.Payload.length + bigEnvelope.Signature.length = 1500000000 := by
  have h1 : bigEnvelope.Payload = bigPayload := rfl
  have h2 : bigEnvelope.Signature = [] := rfl
  rw [h1, h2, bigPayload_length]
  rfl

/-! ## Lemmas on writing blocks and on one iteration of `Chain.apply` -/

theorem writeConfigBlock_spec (u : Utils) (c c' : Chain) (block : Block) (index : Nat)
    (h : c.writeConfigBlock u block index = some c') :
    c'.applyFrame = c.applyFrame ∧ c'.appliedIndex = c.appliedIndex
      ∧ c'.blockInflight = c.blockInflight
      ∧ ∃ w, c'.ledger = c.ledger ++ [w] ∧ w.block = block
          ∧ writtenIndices [w] = [index] := by
  unfold Chain.writeConfigBlock at h
  split at h
  · cases h
  · simp only at h
    split at h
    · cases h
      refine ⟨rfl, rfl, rfl, _, rfl, rfl, ?_⟩
      simp [writtenIndices]
    · split at h
      · cases h
        refine ⟨rfl, rfl, rfl, _, rfl, rfl, ?_⟩
        simp [writtenIndices]
      · cases h
        refine ⟨rfl, rfl, rfl, _, rfl, rfl, ?_⟩
        simp [writtenIndices]
      · cases h

theorem writeBlock_spec (u : Utils) (c c' : Chain) (block : Block) (index : Nat)
    (h : c.writeBlock u block index = some c') :
    c'.applyFrame = c.applyFrame ∧ c'.appliedIndex = c.appliedIndex
      ∧ c'.blockInflight = (if c.blockInflight > 0 then c.blockInflight - 1 else c.blockInflight)
      ∧ ∃ w, c'.ledger = c.ledger ++ [w] ∧ w.block = block
          ∧ writtenIndices [w] = [index] := by
  unfold Chain.writeBlock at h
  simp only at h
  split at h
  · exact writeConfigBlock_spec u _ c' block index h
  · cases h
    exact ⟨rfl, rfl, rfl, _, rfl, rfl, by simp [writtenIndices]⟩



theorem advance_c (l : applyLocals) (index : Nat) :
    (l.advance index).c.applyFrame = l.c.applyFrame
    ∧ (l.advance index).c.appliedIndex = max l.c.appliedIndex index
    ∧ (l.advance index).c.ledger = l.c.ledger
    ∧ (l.advance index).c.blockInflight = l.c.blockInflight
    ∧ (l.advance index).appliedb = l.appliedb := by
  unfold applyLocals.advance
  refine ⟨rfl, ?_, rfl, rfl, rfl⟩
  simp only
  split <;> omega

theorem applyEntry_spec (u : Utils) (o : Oracle) (l l' : applyLocals) (i : Nat) (ent : Entry)
    (h : Chain.applyEntry u o l i ent = some l') :
    l'.c.applyFrame = l.c.applyFrame
    ∧ l'.c.appliedIndex
        = (if ent.advances u then max l.c.appliedIndex ent.Index else l.c.appliedIndex)
    ∧ (if ent.carriesBlock = true ∧ l.c.appliedIndex < ent.Index then
        (∃ w block, u.UnmarshalBlock ent.Data = some block ∧ w.block = block
            ∧ writtenIndices [w] = [ent.Index] ∧ l'.c.ledger = l.c.ledger ++ [w])
          ∧ l'.c.blockInflight
              = (if l.c.blockInflight > 0 then l.c.blockInflight - 1 else l.c.blockInflight)
       else
        l'.c.ledger = l.c.ledger ∧ l'.c.blockInflight = l.c.blockInflight
          ∧ l'.appliedb = l.appliedb) := by
  unfold Chain.applyEntry at h
  split at h
  · -- EntryNormal
    rename_i hT
    have hadv : ent.advances u = true := by simp [Entry.advances, hT]
    split at h
    · rename_i hD
      cases h
      have hc : ¬ (ent.carriesBlock = true ∧ l.c.appliedIndex < ent.Index) := by
        simp only [beq_iff_eq] at hD
        simp [Entry.carriesBlock, hD]
      obtain ⟨a1, a2, a3, a4, a5⟩ := advance_c l ent.Index
      rw [if_neg hc, hadv]
      exact ⟨a1, by simpa using a2, a3, a4, a5⟩
    · rename_i hD
      split at h
      · rename_i hI
        cases h
        have hc : ¬ (ent.carriesBlock = true ∧ l.c.appliedIndex < ent.Index) := by
          intro hh; omega
        obtain ⟨a1, a2, a3, a4, a5⟩ := advance_c l ent.Index
        rw [if_neg hc, hadv]
        exact ⟨a1, by simpa using a2, a3, a4, a5⟩
      · rename_i hI
        have hc : ent.carriesBlock = true ∧ l.c.appliedIndex < ent.Index := by
          refine ⟨?_, by omega⟩
          simp only [beq_iff_eq] at hD
          simp [Entry.carriesBlock, hT, hD]
        split at h
        · cases h
        · rename_i block hU
          split at h
          · cases h
          · rename_i c1 hW
            cases h
            obtain ⟨w1, w2, w3, w, w4, w5, w6⟩ := writeBlock_spec u _ _ _ _ hW
            obtain ⟨a1, a2, a3, a4, a5⟩ := advance_c
              { c := { c1 with accDataSize := (c1.accDataSize + ent.Data.length % 2 ^ 32) % 2 ^ 32 }
                appliedb := block.Number, position := i } ent.Index
            rw [if_pos hc, hadv]
            refine ⟨?_, ?_, ⟨w, block, hU, w5, w6, ?_⟩, ?_⟩
            · rw [a1]; exact w1
            · rw [a2]; simp only [if_true]; rw [w2]
            · rw [a3]; exact w4
            · rw [a4]; exact w3
  · -- EntryConfChange
    rename_i hT
    have hc : ¬ (ent.carriesBlock = true ∧ l.c.appliedIndex < ent.Index) := by
      simp [Entry.carriesBlock, hT]
    rw [if_neg hc]
    split at h
    · rename_i hU
      cases h
      have hadv : ent.advances u = false := by simp [Entry.advances, hT, hU]
      rw [hadv]
      exact ⟨rfl, by simp, rfl, rfl, rfl⟩
    · rename_i cc hU
      have hadv : ent.advances u = true := by simp [Entry.advances, hT, hU]
      rw [hadv]
      simp only at h
      split at h
      · cases h
      · split at h
        · cases h
        · rename_i c3 hc3
          cases h
          have hc3' : c3.applyFrame = l.c.applyFrame ∧ c3.appliedIndex = l.c.appliedIndex
              ∧ c3.ledger = l.c.ledger ∧ c3.blockInflight = l.c.blockInflight := by
            split at hc3
            · split at hc3
              · cases hc3
              · rename_i c' hcc
                cases hc3
                unfold Chain.configureComm at hcc
                split at hcc
                · cases hcc
                · cases hcc
                  exact ⟨rfl, rfl, rfl, rfl⟩
            · cases hc3
              exact ⟨rfl, rfl, rfl, rfl⟩
          obtain ⟨b1, b2, b3, b4⟩ := hc3'
          obtain ⟨a1, a2, a3, a4, a5⟩ := advance_c
            { l with c := { c3 with
                haltSpawned :=
                  if (cc.Typ == ConfChangeType.ConfChangeRemoveNode
                    && cc.NodeID == c3.raftID) = true then true else c3.haltSpawned } }
            ent.Index
          refine ⟨?_, ?_, ?_, ?_, ?_⟩
          · rw [a1]; exact b1
          · rw [a2]; simp only [if_true]; rw [b2]
          · rw [a3]; exact b3
          · rw [a4]; exact b4
          · rw [a5]
  · -- EntryOther
    rename_i hT
    cases h
    have hadv : ent.advances u = true := by simp [Entry.advances, hT]
    have hc : ¬ (ent.carriesBlock = true ∧ l.c.appliedIndex < ent.Index) := by
      simp [Entry.carriesBlock, hT]
    obtain ⟨a1, a2, a3, a4, a5⟩ := advance_c l ent.Index
    rw [if_neg hc, hadv]
    exact ⟨a1, by simpa using a2, a3, a4, a5⟩

/-! ## Lemmas on the loop of `Chain.apply` -/

theorem writtenIndices_append (a b : List LedgerWrite) :
    writtenIndices (a ++ b) = writtenIndices a ++ writtenIndices b := by
  simp [writtenIndices, List.filterMap_append]

theorem carriesBlock_advances (u : Utils) (e : Entry) (h : e.carriesBlock = true) :
    e.advances u = true := by
  simp only [Entry.carriesBlock, Bool.and_eq_true, beq_iff_eq] at h
  simp [Entry.advances, h.1]

theorem applyLoop_spec (u : Utils) (o : Oracle) (ents : List Entry) :
    ∀ (l l' : applyLocals) (i : Nat), Chain.applyLoop u o l i ents = some l' →
      l'.c.applyFrame = l.c.applyFrame
      ∧ l.c.appliedIndex ≤ l'.c.appliedIndex
      ∧ l'.c.blockInflight ≤ l.c.blockInflight
      ∧ min l.c.blockInflight 0 ≤ l'.c.blockInflight
      ∧ (∀ e ∈ ents, e.advances u = true → e.Index ≤ l'.c.appliedIndex)
      ∧ ∃ ws, l'.c.ledger = l.c.ledger ++ ws
          ∧ (writtenIndices ws).Pairwise (· < ·)
          ∧ (∀ j ∈ writtenIndices ws, l.c.appliedIndex < j ∧ j ≤ l'.c.appliedIndex)
          ∧ (∀ w ∈ ws, ∃ e ∈ ents, u.UnmarshalBlock e.Data = some w.block) := by
  induction ents with
  | nil =>
    intro l l' i h
    simp only [Chain.applyLoop, Option.some.injEq] at h
    subst h
    refine ⟨rfl, le_refl _, le_refl _, min_le_left _ _, by simp, [], by simp, by simp [writtenIndices], by simp [writtenIndices], by simp⟩
  | cons ent rest ih =>
    intro l l' i h
    simp only [Chain.applyLoop] at h
    split at h
    · cases h
    · rename_i l1 h1
      obtain ⟨f1, i1, w1⟩ := applyEntry_spec u o l l1 i ent h1
      obtain ⟨f2, i2, b2, m2, a2, ws2, l2, p2, r2, d2⟩ := ih l1 l' (i + 1) h
      have hmono : l.c.appliedIndex ≤ l1.c.appliedIndex := by
        rw [i1]; split
        · exact le_max_left _ _
        · exact le_refl _
      have hb1 : l1.c.blockInflight ≤ l.c.blockInflight
          ∧ min l.c.blockInflight 0 ≤ l1.c.blockInflight := by
        split at w1
        · rw [w1.2]; split <;> omega
        · rw [w1.2.1]; omega
      refine ⟨f2.trans f1, le_trans hmono i2, le_trans b2 hb1.1, ?_, ?_, ?_⟩
      · have := hb1.2; omega
      · intro e he hadv
        rcases List.mem_cons.mp he with rfl | he
        · rw [hadv] at i1
          have : e.Index ≤ l1.c.appliedIndex := by rw [i1]; exact le_max_right _ _
          omega
        · exact a2 e he hadv
      · split at w1
        · rename_i hc
          obtain ⟨⟨w, block, hU, hwb, hwi, hl⟩, _⟩ := w1
          have hadv := carriesBlock_advances u ent hc.1
          rw [hadv] at i1
          have hi1 : l1.c.appliedIndex = ent.Index := by
            rw [i1]; exact max_eq_right (le_of_lt hc.2)
          refine ⟨w :: ws2, ?_, ?_, ?_, ?_⟩
          · rw [l2, hl]; simp
          · have : writtenIndices (w :: ws2) = ent.Index :: writtenIndices ws2 := by
              have := writtenIndices_append [w] ws2
              simpa [hwi] using this
            rw [this, List.pairwise_cons]
            refine ⟨?_, p2⟩
            intro j hj
            have := (r2 j hj).1
            omega
          · intro j hj
            have : writtenIndices (w :: ws2) = ent.Index :: writtenIndices ws2 := by
              have := writtenIndices_append [w] ws2
              simpa [hwi] using this
            rw [this] at hj
            rcases List.mem_cons.mp hj with rfl | hj
            · exact ⟨hc.2, by omega⟩
            · have := r2 j hj
              omega
          · intro w' hw'
            rcases List.mem_cons.mp hw' with rfl | hw'
            · exact ⟨ent, List.mem_cons_self _ _, by rw [hU, hwb]⟩
            · obtain ⟨e, he, hd⟩ := d2 w' hw'
              exact ⟨e, List.mem_cons_of_mem _ he, hd⟩
        · refine ⟨ws2, ?_, p2, ?_, ?_⟩
          · rw [l2, w1.1]
          · intro j hj
            have := r2 j hj
            omega
          · intro w' hw'
            obtain ⟨e, he, hd⟩ := d2 w' hw'
            exact ⟨e, List.mem_cons_of_mem _ he, hd⟩

theorem applyLoop_replay (u : Utils) (o : Oracle) (ents : List Entry) :
    ∀ (l l' : applyLocals) (i : Nat),
      (∀ e ∈ ents, e.advances u = true → e.Index ≤ l.c.appliedIndex) →
      Chain.applyLoop u o l i ents = some l' →
      l'.c.ledger = l.c.ledger ∧ l'.c.appliedIndex = l.c.appliedIndex
      ∧ l'.c.blockInflight = l.c.blockInflight ∧ l'.appliedb = l.appliedb := by
  induction ents with
  | nil =>
    intro l l' i _ h
    simp only [Chain.applyLoop, Option.some.injEq] at h
    subst h
    exact ⟨rfl, rfl, rfl, rfl⟩
  | cons ent rest ih =>
    intro l l' i hall h
    simp only [Chain.applyLoop] at h
    split at h
    · cases h
    · rename_i l1 h1
      obtain ⟨f1, i1, w1⟩ := applyEntry_spec u o l l1 i ent h1
      have hi : l1.c.appliedIndex = l.c.appliedIndex := by
        rw [i1]; split
        · rename_i hadv
          exact max_eq_left (hall ent (List.mem_cons_self _ _) hadv)
        · rfl
      have hc : ¬ (ent.carriesBlock = true ∧ l.c.appliedIndex < ent.Index) := by
        intro hh
        have := hall ent (List.mem_cons_self _ _) (carriesBlock_advances u ent hh.1)
        omega
      rw [if_neg hc] at w1
      have hall' : ∀ e ∈ rest, e.advances u = true → e.Index ≤ l1.c.appliedIndex := by
        intro e he hadv
        rw [hi]; exact hall e (List.mem_cons_of_mem _ he) hadv
      obtain ⟨r1, r2, r3, r4⟩ := ih l1 l' (i + 1) hall' h
      exact ⟨r1.trans w1.1, r2.trans hi, r3.trans w1.2.1, r4.trans w1.2.2⟩

theorem applyLoop_fresh (u : Utils) (o : Oracle) (ents : List Entry) :
    ∀ (l l' : applyLocals) (i : Nat),
      (ents.map (fun e => e.Index)).Pairwise (· < ·) →
      (∀ e ∈ ents, l.c.appliedIndex < e.Index) →
      Chain.applyLoop u o l i ents = some l' →
      ∃ ws, l'.c.ledger = l.c.ledger ++ ws
        ∧ writtenIndices ws
            = (ents.filter (fun e => e.carriesBlock)).map (fun e => e.Index) := by
  induction ents with
  | nil =>
    intro l l' i _ _ h
    simp only [Chain.applyLoop, Option.some.injEq] at h
    subst h
    exact ⟨[], by simp, by simp [writtenIndices]⟩
  | cons ent rest ih =>
    intro l l' i hsorted hfresh h
    simp only [Chain.applyLoop] at h
    split at h
    · cases h
    · rename_i l1 h1
      obtain ⟨f1, i1, w1⟩ := applyEntry_spec u o l l1 i ent h1
      simp only [List.map_cons, List.pairwise_cons, List.mem_map, forall_exists_index,
        and_imp, forall_apply_eq_imp_iff₂] at hsorted
      have hent := hfresh ent (List.mem_cons_self _ _)
      have hi1 : l1.c.appliedIndex ≤ ent.Index := by
        rw [i1]; split
        · exact max_le (le_of_lt hent) (le_refl _)
        · exact le_of_lt hent
      have hfresh' : ∀ e ∈ rest, l1.c.appliedIndex < e.Index := by
        intro e he
        have := hsorted.1 e he
        omega
      obtain ⟨ws2, l2, x2⟩ := ih l1 l' (i + 1) hsorted.2 hfresh' h
      by_cases hcb : ent.carriesBlock = true
      · rw [if_pos ⟨hcb, hent⟩] at w1
        obtain ⟨⟨w, block, hU, hwb, hwi, hl⟩, _⟩ := w1
        refine ⟨w :: ws2, ?_, ?_⟩
        · rw [l2, hl]; simp
        · have := writtenIndices_append [w] ws2
          simp only [List.singleton_append] at this
          rw [this, hwi, x2]
          simp [List.filter_cons, hcb]
      · have hc : ¬ (ent.carriesBlock = true ∧ l.c.appliedIndex < ent.Index) := fun hh => hcb hh.1
        rw [if_neg hc] at w1
        refine ⟨ws2, ?_, ?_⟩
        · rw [l2, w1.1]
        · rw [x2]; simp [List.filter_cons, hcb]

/-! ## Lemmas on `Chain.apply`, `Chain.propose` and catching up -/

theorem apply_spec (u : Utils) (o : Oracle) (c c' : Chain) (ents : List Entry)
    (h : Chain.apply u o c ents = some c') :
    c'.applyFrame = c.applyFrame
    ∧ c.appliedIndex ≤ c'.appliedIndex
    ∧ c'.blockInflight ≤ c.blockInflight
    ∧ min c.blockInflight 0 ≤ c'.blockInflight
    ∧ (∀ e ∈ ents, e.advances u = true → e.Index ≤ c'.appliedIndex)
    ∧ ∃ ws, c'.ledger = c.ledger ++ ws
        ∧ (writtenIndices ws).Pairwise (· < ·)
        ∧ (∀ j ∈ writtenIndices ws, c.appliedIndex < j ∧ j ≤ c'.appliedIndex)
        ∧ (∀ w ∈ ws, ∃ e ∈ ents, u.UnmarshalBlock e.Data = some w.block) := by
  unfold Chain.apply at h
  split at h
  · cases h
    exact ⟨rfl, le_refl _, le_refl _, min_le_left _ _, by simp, [], by simp,
      by simp [writtenIndices], by simp [writtenIndices], by simp⟩
  · rename_i first rest
    split at h
    · cases h
    · split at h
      · cases h
      · rename_i l hl
        have hs := applyLoop_spec u o (first :: rest) _ l 0 hl
        split at h
        · cases h; exact hs
        · split at h
          · cases h; exact hs
          · cases h; exact hs

theorem apply_replay (u : Utils) (o : Oracle) (c c' : Chain) (ents : List Entry)
    (hall : ∀ e ∈ ents, e.advances u = true → e.Index ≤ c.appliedIndex)
    (h : Chain.apply u o c ents = some c') :
    c'.ledger = c.ledger ∧ c'.appliedIndex = c.appliedIndex
      ∧ c'.blockInflight = c.blockInflight := by
  unfold Chain.apply at h
  split at h
  · cases h; exact ⟨rfl, rfl, rfl⟩
  · rename_i first rest
    split at h
    · cases h
    · split at h
      · cases h
      · rename_i l hl
        obtain ⟨r1, r2, r3, r4⟩ := applyLoop_replay u o (first :: rest) _ l 0 hall hl
        have hb : (l.appliedb == 0) = true := by simp [r4]
        rw [if_pos hb] at h
        cases h
        exact ⟨r1, r2, r3⟩

theorem apply_fresh (u : Utils) (o : Oracle) (c c' : Chain) (ents : List Entry)
    (hsorted : (ents.map (fun e => e.Index)).Pairwise (· < ·))
    (hfresh : ∀ e ∈ ents, c.appliedIndex < e.Index)
    (h : Chain.apply u o c ents = some c') :
    ∃ ws, c'.ledger = c.ledger ++ ws
      ∧ writtenIndices ws = (ents.filter (fun e => e.carriesBlock)).map (fun e => e.Index) := by
  unfold Chain.apply at h
  split at h
  · cases h; exact ⟨[], by simp, by simp [writtenIndices]⟩
  · rename_i first rest
    split at h
    · cases h
    · split at h
      · cases h
      · rename_i l hl
        have hs := applyLoop_fresh u o (first :: rest) _ l 0 hsorted hfresh hl
        split at h
        · cases h; exact hs
        · split at h
          · cases h; exact hs
          · cases h; exact hs

theorem propose_spec (u : Utils) (o : Oracle) (batches : List (List Envelope)) :
    ∀ (c c' : Chain) (bc bc' : Option blockCreator),
      Chain.propose u o c bc batches = some (c', bc') →
      ∃ (ds : List Bytes) (n : Nat) (f : Bool),
        c' = { c with proposals := c.proposals ++ ds
                      configInflight := c.configInflight || f
                      blockInflight := c.blockInflight + (n : Int) }
        ∧ n ≤ batches.length
        ∧ ((∀ batch ∈ batches, ∀ b, u.IsConfigBlock (u.createNextBlock b batch).1 = false) →
            f = false) := by
  induction batches with
  | nil =>
    intro c c' bc bc' h
    simp only [Chain.propose, Option.some.injEq, Prod.mk.injEq] at h
    obtain ⟨rfl, rfl⟩ := h
    exact ⟨[], 0, false, by simp, by simp, fun _ => rfl⟩
  | cons batch rest ih =>
    intro c c' bc bc' h
    unfold Chain.propose at h
    split at h
    · cases h
    · rename_i creator
      simp only at h
      split at h
      · rename_i hP
        obtain ⟨ds, n, f, e1, e2, e3⟩ := ih _ _ _ _ h
        refine ⟨u.MarshalBlock (u.createNextBlock creator batch).1 :: ds, n + 1,
          (u.IsConfigBlock (u.createNextBlock creator batch).1 || f), ?_, ?_, ?_⟩
        · rw [e1]
          simp only [Chain.mk.injEq, List.append_assoc, List.singleton_append, true_and, and_true]
          refine ⟨?_, ?_⟩
          · cases u.IsConfigBlock (u.createNextBlock creator batch).1 <;> simp
          · push_cast; omega
        · simp only [List.length_cons]; omega
        · intro hall
          have h1 := hall batch (List.mem_cons_self _ _) creator
          have h2 := e3 (fun b hb => hall b (List.mem_cons_of_mem _ hb))
          rw [h1, h2]; rfl
      · simp only [Option.some.injEq, Prod.mk.injEq] at h
        obtain ⟨rfl, rfl⟩ := h
        exact ⟨[u.MarshalBlock (u.createNextBlock creator batch).1], 0, false, by simp, by simp,
          fun _ => rfl⟩

theorem catchUpLoop_spec (u : Utils) (o : Oracle) (fuel : Nat) :
    ∀ (next : Nat) (c : Chain),
      ∃ (ws : List LedgerWrite) (ps : List Nat),
        (Chain.catchUpLoop u o fuel next c).2
          = { c with ledger := c.ledger ++ ws, pullCalls := c.pullCalls ++ ps }
        ∧ writtenIndices ws = [] := by
  induction fuel with
  | zero =>
    intro next c
    exact ⟨[], [], by simp [Chain.catchUpLoop], by simp [writtenIndices]⟩
  | succ fuel ih =>
    intro next c
    unfold Chain.catchUpLoop
    simp only
    split
    · exact ⟨[], [next], by simp, by simp [writtenIndices]⟩
    · rename_i block hb
      obtain ⟨ws, ps, e1, e2⟩ := ih (next + 1)
        { c with
          pullCalls := c.pullCalls ++ [next]
          ledger := c.ledger ++
            [{ kind := if u.IsConfigBlock block = true then WriteKind.WriteConfigBlock
                         else WriteKind.WriteBlock,
               block := block, encodedMetadataValue := none }] }
      refine ⟨{ kind := if u.IsConfigBlock block = true then WriteKind.WriteConfigBlock
                         else WriteKind.WriteBlock,
                block := block, encodedMetadataValue := none } :: ws, next :: ps, ?_, ?_⟩
      · rw [e1]; simp
      · have := writtenIndices_append
          [{ kind := if u.IsConfigBlock block = true then WriteKind.WriteConfigBlock
                       else WriteKind.WriteBlock,
             block := block, encodedMetadataValue := none }] ws
        simp only [List.singleton_append] at this
        rw [this, e2]; simp [writtenIndices]

theorem catchUp_spec (u : Utils) (o : Oracle) (c : Chain) (sn : Snapshot) :
    ∃ (ws : List LedgerWrite) (ps : List Nat) (k : Nat),
      (c.catchUp u o sn).2
        = { c with ledger := c.ledger ++ ws, pullCalls := c.pullCalls ++ ps
                   pullersCreated := c.pullersCreated + k
                   pullersClosed := c.pullersClosed + k }
      ∧ writtenIndices ws = [] := by
  unfold Chain.catchUp
  split
  · exact ⟨[], [], 0, by simp, by simp [writtenIndices]⟩
  · rename_i b hb
    simp only
    split
    · exact ⟨[], [], 0, by simp, by simp [writtenIndices]⟩
    · split
      · exact ⟨[], [], 0, by simp, by simp [writtenIndices]⟩
      · obtain ⟨ws, ps, e1, e2⟩ := catchUpLoop_spec u o (b.Number + 1 - c.Height) c.Height
          { c with pullersCreated := c.pullersCreated + 1 }
        refine ⟨ws, ps, 1, ?_, e2⟩
        rw [e1]

/-! ## Lemmas on `Chain.ordered` -/

theorem Ordered_batches (cfg : BatchSize) (r : receiver) (msg : Envelope) :
    (r.Ordered cfg msg).1.1.length ≤ 2
    ∧ ((r.Ordered cfg msg).1.1.length = 2 → (r.Ordered cfg msg).1.2 = false) := by
  unfold receiver.Ordered
  simp only [receiver.Cut]
  split_ifs <;> simp

theorem messageSizeBytes_lt (msg : Envelope) : messageSizeBytes msg < 2 ^ 32 :=
  Nat.mod_lt _ (by norm_num)

theorem Ordered_empty (cfg : BatchSize) (msg : Envelope) :
    (NewReceiverImpl.Ordered cfg msg).1.1.length ≤ 1
    ∧ ((NewReceiverImpl.Ordered cfg msg).1.1.length = 1
        → (NewReceiverImpl.Ordered cfg msg).1.2 = false) := by
  have hlt := messageSizeBytes_lt msg
  unfold receiver.Ordered
  simp only [receiver.Cut, NewReceiverImpl, Nat.zero_add, List.length_nil, gt_iff_lt,
    lt_self_iff_false, if_false, List.nil_append]
  by_cases h1 : cfg.PreferredMaxBytes < messageSizeBytes msg
  · simp [h1]
  · have h2 : ¬ cfg.PreferredMaxBytes < messageSizeBytes msg % 2 ^ 32 := by
      rw [Nat.mod_eq_of_lt hlt]; exact h1
    simp only [h1, h2, if_false, decide_False, Bool.false_eq_true, List.nil_append]
    split_ifs <;> simp

theorem Ordered_mem (cfg : BatchSize) (r : receiver) (msg : Envelope) :
    ∀ e ∈ (r.Ordered cfg msg).2.pendingBatch, e ∈ r.pendingBatch ∨ e = msg := by
  unfold receiver.Ordered
  simp only [receiver.Cut]
  split_ifs <;> (simp; try tauto)

theorem ordered_batches (u : Utils) (o : Oracle) (cutter cutter' : receiver)
    (req : SubmitRequest) (res : orderedResult)
    (h : Chain.ordered u o cutter req = some (res, cutter')) :
    res.batches.length ≤ 2 ∧ (res.batches.length = 2 → res.pending = false) := by
  unfold Chain.ordered at h
  simp only at h
  split at h
  · cases h
  · split at h
    · cases h; simp
    · cases h
      simp only [receiver.Cut]
      split <;> simp
  · split at h
    · cases h; simp
    · cases h
      exact Ordered_batches _ _ _

theorem ordered_empty (u : Utils) (o : Oracle) (cutter' : receiver)
    (req : SubmitRequest) (res : orderedResult)
    (h : Chain.ordered u o NewReceiverImpl req = some (res, cutter')) :
    res.batches.length ≤ 1 ∧ (res.batches.length = 1 → res.pending = false) := by
  unfold Chain.ordered at h
  simp only at h
  split at h
  · cases h
  · split at h
    · cases h; simp
    · cases h
      simp [receiver.Cut, NewReceiverImpl]
  · split at h
    · cases h; simp
    · cases h
      exact Ordered_empty _ _

theorem ordered_mem (u : Utils) (o : Oracle) (cutter cutter' : receiver)
    (req : SubmitRequest) (res : orderedResult)
    (hall : ∀ e ∈ cutter.pendingBatch, Chain.isConfig u e = some false)
    (h : Chain.ordered u o cutter req = some (res, cutter')) :
    ∀ e ∈ cutter'.pendingBatch, Chain.isConfig u e = some false := by
  unfold Chain.ordered at h
  simp only at h
  split at h
  · cases h
  · split at h
    · cases h; exact hall
    · cases h
      simp [receiver.Cut]
  · rename_i hcfg
    split at h
    · cases h; exact hall
    · cases h
      intro e he
      rcases Ordered_mem _ _ _ e he with h1 | h1
      · exact hall e h1
      · rw [h1]; exact hcfg


/-! ## The ledger along the event loop -/

theorem ledgerProgress_of_eq (c c' : Chain) (h1 : c'.ledger = c.ledger)
    (h2 : c'.appliedIndex = c.appliedIndex) : c.ledgerProgress c' :=
  ⟨by rw [h2], [], by simp [h1], by simp [writtenIndices], by simp [writtenIndices]⟩

theorem ledgerProgress_refl (c : Chain) : c.ledgerProgress c :=
  ledgerProgress_of_eq c c rfl rfl

theorem ledgerProgress_trans (a b c : Chain) (h1 : a.ledgerProgress b)
    (h2 : b.ledgerProgress c) : a.ledgerProgress c := by
  obtain ⟨i1, ws1, l1, p1, r1⟩ := h1
  obtain ⟨i2, ws2, l2, p2, r2⟩ := h2
  refine ⟨le_trans i1 i2, ws1 ++ ws2, by rw [l2, l1, List.append_assoc], ?_, ?_⟩
  · rw [writtenIndices_append, List.pairwise_append]
    refine ⟨p1, p2, ?_⟩
    intro x hx y hy
    have := (r1 x hx).2
    have := (r2 y hy).1
    omega
  · intro j hj
    rw [writtenIndices_append, List.mem_append] at hj
    rcases hj with hj | hj
    · have := r1 j hj; omega
    · have := r2 j hj; omega

theorem apply_ledgerProgress (u : Utils) (o : Oracle) (c c' : Chain) (ents : List Entry)
    (h : Chain.apply u o c ents = some c') : c.ledgerProgress c' := by
  obtain ⟨_, i1, _, _, _, ws, l1, p1, r1, _⟩ := apply_spec u o c c' ents h
  exact ⟨i1, ws, l1, p1, r1⟩

theorem becomeLeader_spec (u : Utils) (o : Oracle) (st st' : serveRequestState)
    (h : st.becomeLeader u o = some st') :
    st'.ticking = st.ticking ∧ st'.soft = st.soft ∧ st'.submitC = false ∧ st'.bc = st.bc
    ∧ st'.returned = st.returned ∧ st'.leaderReplies = st.leaderReplies
    ∧ st'.c.blockInflight = 0 ∧ st'.c.justElected = true
    ∧ st'.c.raftID = st.c.raftID ∧ st'.c.opts = st.c.opts ∧ st'.c.cutter = st.c.cutter
    ∧ st'.c.ledger = st.c.ledger ∧ st'.c.appliedIndex = st.c.appliedIndex
    ∧ st'.c.proposals = st.c.proposals := by
  unfold serveRequestState.becomeLeader at h
  simp only at h
  split at h
  · cases h
  · cases h
    exact ⟨rfl, rfl, rfl, rfl, rfl, rfl, rfl, rfl, rfl, rfl, rfl, rfl, rfl, rfl⟩
  · cases h
    exact ⟨rfl, rfl, rfl, rfl, rfl, rfl, rfl, rfl, rfl, rfl, rfl, rfl, rfl, rfl⟩

theorem applyCaseSoft_ledger (u : Utils) (o : Oracle) (st st' : serveRequestState)
    (appSoft : SoftState) (h : st.applyCaseSoft u o appSoft = some st') :
    st'.c.ledger = st.c.ledger ∧ st'.c.appliedIndex = st.c.appliedIndex
    ∧ st'.c.proposals = st.c.proposals ∧ st'.returned = st.returned := by
  unfold serveRequestState.applyCaseSoft at h
  simp only at h
  split at h
  · cases h
  · rename_i st2 h2
    cases h
    simp only
    split at h2
    · split at h2
      · cases h2
      · rename_i st1 h1
        cases h2
        have hl : st1.c.ledger = st.c.ledger ∧ st1.c.appliedIndex = st.c.appliedIndex
            ∧ st1.c.proposals = st.c.proposals ∧ st1.returned = st.returned := by
          split at h1
          · have := becomeLeader_spec u o st st1 h1
            exact ⟨this.2.2.2.2.2.2.2.2.2.2.2.1, this.2.2.2.2.2.2.2.2.2.2.2.2.1,
              this.2.2.2.2.2.2.2.2.2.2.2.2.2, this.2.2.2.2.1⟩
          · cases h1; exact ⟨rfl, rfl, rfl, rfl⟩
        split
        · exact hl
        · exact hl
    · cases h2
      exact ⟨rfl, rfl, rfl, rfl⟩

theorem applyCaseResume_ledger (u : Utils) (o : Oracle) (st st' : serveRequestState)
    (h : st.applyCaseResume u o = some st') :
    st'.c.ledger = st.c.ledger ∧ st'.c.appliedIndex = st.c.appliedIndex
    ∧ st'.c.proposals = st.c.proposals ∧ st'.c.cutter = st.c.cutter
    ∧ st'.c.blockInflight = st.c.blockInflight ∧ st'.ticking = st.ticking
    ∧ st'.soft = st.soft ∧ st'.c.raftID = st.c.raftID ∧ st'.c.opts = st.c.opts
    ∧ st'.c.configInflight = st.c.configInflight ∧ st'.returned = st.returned := by
  unfold serveRequestState.applyCaseResume at h
  split at h
  · simp only at h
    split at h
    · cases h; exact ⟨rfl, rfl, rfl, rfl, rfl, rfl, rfl, rfl, rfl, rfl, rfl⟩
    · split at h
      · cases h
      · cases h; exact ⟨rfl, rfl, rfl, rfl, rfl, rfl, rfl, rfl, rfl, rfl, rfl⟩
  · split at h
    · cases h; exact ⟨rfl, rfl, rfl, rfl, rfl, rfl, rfl, rfl, rfl, rfl, rfl⟩
    · split at h
      · cases h; exact ⟨rfl, rfl, rfl, rfl, rfl, rfl, rfl, rfl, rfl, rfl, rfl⟩
      · cases h; exact ⟨rfl, rfl, rfl, rfl, rfl, rfl, rfl, rfl, rfl, rfl, rfl⟩

theorem step_ledgerProgress (u : Utils) (o : Oracle) (st st' : serveRequestState) (ev : Event)
    (h : st.step u o ev = some st') : st.c.ledgerProgress st'.c := by
  cases ev with
  | submitC s =>
    simp only [serveRequestState.step] at h
    split at h
    · cases h; exact ledgerProgress_refl _
    · unfold serveRequestState.submitCase at h
      split at h
      · cases h; exact ledgerProgress_refl _
      · split at h
        · cases h; exact ledgerProgress_refl _
        · simp only at h
          split at h
          · cases h; exact ledgerProgress_refl _
          · split at h
            · cases h
            · rename_i res cutter hord
              split at h
              · cases h
              · rename_i c2 bc2 hprop
                cases h
                obtain ⟨ds, n, f, e1, _, _⟩ := propose_spec u o _ _ _ _ _ hprop
                apply ledgerProgress_of_eq
                · simp only; rw [e1]
                · simp only; rw [e1]
  | applyC app =>
    simp only [serveRequestState.step] at h
    split at h
    · cases h; exact ledgerProgress_refl _
    · unfold serveRequestState.applyCase at h
      simp only at h
      split at h
      · cases h
      · rename_i st1 h1
        split at h
        · cases h
        · rename_i c2 h2
          have hr := applyCaseResume_ledger u o _ st' h
          have ha := apply_ledgerProgress u o _ _ _ h2
          have hs : st.c.ledgerProgress st1.c := by
            split at h1
            · cases h1; exact ledgerProgress_refl _
            · have := applyCaseSoft_ledger u o st st1 _ h1
              exact ledgerProgress_of_eq _ _ this.1 this.2.1
          exact ledgerProgress_trans _ _ _ hs
            (ledgerProgress_trans _ _ _ ha (ledgerProgress_of_eq _ _ hr.1 hr.2.1))
  | timer =>
    simp only [serveRequestState.step] at h
    split at h
    · cases h; exact ledgerProgress_refl _
    · unfold serveRequestState.timerCase at h
      simp only at h
      split at h
      · cases h; exact ledgerProgress_of_eq _ _ rfl rfl
      · split at h
        · cases h
        · rename_i c2 bc2 hprop
          cases h
          obtain ⟨ds, n, f, e1, _, _⟩ := propose_spec u o _ _ _ _ _ hprop
          apply ledgerProgress_of_eq
          · simp only; rw [e1]
          · simp only; rw [e1]
  | snapC sn =>
    simp only [serveRequestState.step] at h
    split at h
    · cases h; exact ledgerProgress_refl _
    · unfold serveRequestState.snapCase at h
      split at h
      · cases h; exact ledgerProgress_refl _
      · rename_i hidx
        split at h
        · cases h
        · rename_i b hb
          cases h
          obtain ⟨ws, ps, k, e1, e2⟩ := catchUp_spec u o
            { st.c with lastSnapBlockNum := b.Number, confState := sn.ConfState,
                        appliedIndex := sn.Index } sn
          simp only
          rw [e1]
          refine ⟨?_, ws, rfl, ?_, ?_⟩
          · simp only; omega
          · rw [e2]; exact List.Pairwise.nil
          · rw [e2]; simp
  | doneC =>
    simp only [serveRequestState.step] at h
    split at h
    · cases h; exact ledgerProgress_refl _
    · cases h; exact ledgerProgress_of_eq _ _ rfl rfl

theorem run_ledgerProgress (u : Utils) (evs : List (Oracle × Event)) :
    ∀ (st st' : serveRequestState), serveRequestState.run u st evs = some st' →
      st.c.ledgerProgress st'.c := by
  induction evs with
  | nil =>
    intro st st' h
    simp only [serveRequestState.run, Option.some.injEq] at h
    subst h
    exact ledgerProgress_refl _
  | cons ev rest ih =>
    intro st st' h
    obtain ⟨o, e⟩ := ev
    simp only [serveRequestState.run] at h
    split at h
    · cases h
    · rename_i st1 h1
      exact ledgerProgress_trans _ _ _ (step_ledgerProgress u o st st1 e h1) (ih st1 st' h)

/-! ## The in-flight bound: the apply case -/

theorem applyFrame_fields (c c' : Chain) (h : c'.applyFrame = c.applyFrame) :
    c'.raftID = c.raftID ∧ c'.opts.MaxInflightMsgs = c.opts.MaxInflightMsgs
    ∧ c'.justElected = c.justElected ∧ c'.cutter = c.cutter ∧ c'.proposals = c.proposals
    ∧ c'.errorC = c.errorC := by
  simp only [Chain.applyFrame, Prod.mk.injEq] at h
  obtain ⟨h1, _, _, _, h5, _, h7, h8, h9, h10, _⟩ := h
  exact ⟨h1, h5, h7, h9, h10, h8⟩

theorem applyCaseSoft_inflightInv (u : Utils) (o : Oracle) (st st' : serveRequestState)
    (appSoft : SoftState) (hinv : st.inflightInv)
    (h : st.applyCaseSoft u o appSoft = some st') : st'.inflightInv := by
  obtain ⟨h0, ha, hb0, hb, hc, hd, hf, hg⟩ := hinv
  unfold serveRequestState.applyCaseSoft at h
  simp only at h
  split at h
  · cases h
  · rename_i st2 h2
    cases h
    unfold serveRequestState.inflightInv
    simp only
    split at h2
    · rename_i hne
      simp only [bne_iff_ne, ne_eq] at hne
      split at h2
      · cases h2
      · rename_i st1 h1
        cases h2
        split at h1
        · rename_i hlead
          simp only [beq_iff_eq] at hlead
          obtain ⟨l1, l2, l3, l4, l5, l6, l7, l8, l9, l10, l11, l12, l13, l14⟩ :=
            becomeLeader_spec u o st st1 h1
          have hnl : st.soft.Lead ≠ st.c.raftID := fun hh => hne (by rw [hlead, hh])
          have hfalse : (st.soft.Lead == st.c.raftID) = false := by simpa using hnl
          rw [hfalse]
          simp only [Bool.false_eq_true, if_false]
          have ht := (ha hnl).2
          rw [l10, l7, l9, l1, l3, l8, l11, ht]
          refine ⟨h0, fun hh => absurd hlead hh, le_refl _, (by omega), fun _ => (by omega),
            ?_, fun _ => ⟨rfl, rfl⟩, fun _ _ => rfl⟩
          intro hh; cases hh
        · rename_i hlead
          simp only [beq_iff_eq] at hlead
          cases h1
          by_cases hold : st.soft.Lead = st.c.raftID
          · have htrue : (st.soft.Lead == st.c.raftID) = true := by simpa using hold
            rw [htrue]
            rw [if_pos rfl]
            unfold serveRequestState.becomeFollower
            refine ⟨h0, fun _ => ⟨rfl, rfl⟩, le_refl _,
              (by show (0 : Int) ≤ st.c.opts.MaxInflightMsgs + 1; omega), ?_,
              fun _ => ⟨(by show (0 : Int) ≤ st.c.opts.MaxInflightMsgs; omega), ?_⟩,
              fun _ => ⟨rfl, rfl⟩, fun _ hh => absurd hh hlead⟩
            · intro hh; cases hh
            · intro hh
              have : (0 : Int) = st.c.opts.MaxInflightMsgs := hh
              omega
          · have hfalse : (st.soft.Lead == st.c.raftID) = false := by simpa using hold
            rw [hfalse]
            simp only [Bool.false_eq_true, if_false]
            exact ⟨h0, fun _ => ha hold, hb0, hb, hc, hd, hf, fun _ hh => absurd hh hlead⟩
    · rename_i heq
      simp only [bne_iff_ne, ne_eq, not_not] at heq
      cases h2
      rw [heq]
      exact ⟨h0, ha, hb0, hb, hc, hd, hf, hg⟩

theorem apply_inflightInv (u : Utils) (o : Oracle) (st : serveRequestState) (c2 : Chain)
    (ents : List Entry) (hinv : st.inflightInv)
    (h : st.c.apply u o ents = some c2) :
    serveRequestState.inflightInv { st with c := c2 } := by
  obtain ⟨h0, ha, hb0, hb, hc, hd, hf, hg⟩ := hinv
  obtain ⟨fr, _, b1, b2, _, _⟩ := apply_spec u o st.c c2 ents h
  obtain ⟨f1, f2, f3, f4, _, _⟩ := applyFrame_fields _ _ fr
  unfold serveRequestState.inflightInv
  simp only
  rw [f1, f2, f3, f4]
  have hmin : min st.c.blockInflight 0 = 0 := min_eq_right hb0
  rw [hmin] at b2
  refine ⟨h0, ?_, b2, by omega, ?_, ?_, ?_, hg⟩
  · intro hh
    have := ha hh
    exact ⟨by omega, this.2⟩
  · intro hh
    have := hc hh
    omega
  · intro hh
    have := hd hh
    refine ⟨by omega, fun he => this.2 (by omega)⟩
  · intro hh
    have := hf hh
    exact ⟨by omega, this.2⟩

theorem applyCaseResume_inflightInv (u : Utils) (o : Oracle) (st st' : serveRequestState)
    (hinv : st.inflightInv) (h : st.applyCaseResume u o = some st') : st'.inflightInv := by
  obtain ⟨h0, ha, hb0, hb, hc, hd, hf, hg⟩ := hinv
  unfold serveRequestState.applyCaseResume at h
  split at h
  · rename_i hje
    simp only at h
    split at h
    · cases h
      exact ⟨h0, ha, hb0, hb, hc, hd, hf, hg⟩
    · split at h
      · cases h
      · cases h
        have := hf hje
        refine ⟨h0, ha, hb0, hb, hc, fun _ => ⟨?_, ?_⟩, ?_, ?_⟩
        · show st.c.blockInflight ≤ st.c.opts.MaxInflightMsgs; omega
        · intro hh
          have : st.c.blockInflight = st.c.opts.MaxInflightMsgs := hh
          omega
        · intro hh; cases hh
        · intro hh; cases hh
  · rename_i hje
    split at h
    · cases h
      refine ⟨h0, ha, hb0, hb, hc, ?_, hf, fun _ _ => rfl⟩
      intro hh; cases hh
    · split at h
      · rename_i hlt
        cases h
        refine ⟨h0, ha, hb0, hb, hc, fun _ => ⟨?_, ?_⟩, hf, fun hh => absurd hh hje⟩
        · show st.c.blockInflight ≤ st.c.opts.MaxInflightMsgs; omega
        · intro hh
          have : st.c.blockInflight = st.c.opts.MaxInflightMsgs := hh
          omega
      · cases h
        exact ⟨h0, ha, hb0, hb, hc, hd, hf, hg⟩

/-! ## The in-flight bound: the other cases and the run -/

theorem submitCase_inflightInv (u : Utils) (o : Oracle) (st st' : serveRequestState)
    (s : Option SubmitRequest) (hinv : st.inflightInv) (hsub : st.submitC = true)
    (h : st.submitCase u o s = some st') : st'.inflightInv := by
  obtain ⟨h0, ha, hb0, hb, hc, hd, hf, hg⟩ := hinv
  unfold serveRequestState.submitCase at h
  split at h
  · cases h; exact ⟨h0, ha, hb0, hb, hc, hd, hf, hg⟩
  · split at h
    · cases h; exact ⟨h0, ha, hb0, hb, hc, hd, hf, hg⟩
    · simp only at h
      split at h
      · cases h; exact ⟨h0, ha, hb0, hb, hc, hd, hf, hg⟩
      · rename_i hlead
        simp only [bne_iff_ne, ne_eq, not_not] at hlead
        split at h
        · cases h
        · rename_i res cutter hord
          split at h
          · cases h
          · rename_i c2 bc2 hprop
            cases h
            obtain ⟨ds, n, f, e1, e2, _⟩ := propose_spec u o _ _ _ _ _ hprop
            have hlen := ordered_batches u o _ _ _ _ hord
            have hdd := hd hsub
            have hje : st.c.justElected = false := by
              cases hj : st.c.justElected
              · rfl
              · have := hg hj hlead
                rw [hsub] at this; cases this
            subst e1
            unfold serveRequestState.inflightInv
            simp only
            have hbound : st.c.blockInflight + (n : Int) ≤ st.c.opts.MaxInflightMsgs + 1
                ∧ (res.pending = true →
                    st.c.blockInflight + (n : Int) ≤ st.c.opts.MaxInflightMsgs) := by
              by_cases hM : st.c.blockInflight = st.c.opts.MaxInflightMsgs
              · have hcut := (hdd.2 hM).2
                rw [hcut] at hord
                have hemp := ordered_empty u o _ _ _ hord
                refine ⟨by omega, fun hp => ?_⟩
                have : res.batches.length ≠ 1 := fun h1 => by
                  have := hemp.2 h1
                  rw [hp] at this; cases this
                omega
              · refine ⟨by omega, fun hp => ?_⟩
                have : res.batches.length ≠ 2 := fun h1 => by
                  have := hlen.2 h1
                  rw [hp] at this; cases this
                omega
            refine ⟨h0, fun hh => absurd hlead hh, by omega, hbound.1, hbound.2, ?_, ?_, ?_⟩
            · intro hs
              split at hs
              · cases hs
              · split at hs
                · cases hs
                · rename_i hlt
                  simp only [ge_iff_le, not_le] at hlt
                  exact ⟨by omega, fun hh => by omega⟩
            · intro hh; rw [hje] at hh; cases hh
            · intro hh; rw [hje] at hh; cases hh

theorem timerCase_inflightInv (u : Utils) (o : Oracle) (st st' : serveRequestState)
    (hinv : st.inflightInv) (htick : st.ticking = true)
    (h : st.timerCase u o = some st') : st'.inflightInv := by
  obtain ⟨h0, ha, hb0, hb, hc, hd, hf, hg⟩ := hinv
  have hcc := hc htick
  have hlead : st.soft.Lead = st.c.raftID := by
    by_contra hne
    have := (ha hne).2
    rw [htick] at this; cases this
  have hje : st.c.justElected = false := by
    cases hj : st.c.justElected
    · rfl
    · have := (hf hj).2
      rw [htick] at this; cases this
  have hsub : st.submitC = true → st.c.blockInflight < st.c.opts.MaxInflightMsgs := by
    intro hs
    have := hd hs
    by_contra hnot
    have hM : st.c.blockInflight = st.c.opts.MaxInflightMsgs := by omega
    have := (this.2 hM).1
    rw [htick] at this; cases this
  unfold serveRequestState.timerCase at h
  simp only at h
  split at h
  · cases h
    unfold serveRequestState.inflightInv
    simp only
    refine ⟨h0, fun hh => absurd hlead hh, hb0, hb, ?_, ?_, ?_, ?_⟩
    · intro hh; cases hh
    · intro hs
      exact ⟨by have := hsub hs; omega, fun _ => by simp [receiver.Cut, NewReceiverImpl]⟩
    · intro hh; rw [hje] at hh; cases hh
    · intro hh; rw [hje] at hh; cases hh
  · split at h
    · cases h
    · rename_i c2 bc2 hprop
      cases h
      obtain ⟨ds, n, f, e1, e2, _⟩ := propose_spec u o _ _ _ _ _ hprop
      subst e1
      simp only [List.length_singleton] at e2
      unfold serveRequestState.inflightInv
      simp only
      refine ⟨h0, fun hh => absurd hlead hh, by omega, by omega, ?_, ?_, ?_, ?_⟩
      · intro hh; cases hh
      · intro hs
        exact ⟨by have := hsub hs; omega, fun _ => by simp [receiver.Cut, NewReceiverImpl]⟩
      · intro hh; rw [hje] at hh; cases hh
      · intro hh; rw [hje] at hh; cases hh

theorem snapCase_fields (u : Utils) (o : Oracle) (st st' : serveRequestState) (sn : Snapshot)
    (h : st.snapCase u o sn = some st') :
    st'.ticking = st.ticking ∧ st'.soft = st.soft ∧ st'.submitC = st.submitC
    ∧ st'.bc = st.bc ∧ st'.returned = st.returned
    ∧ st'.c.raftID = st.c.raftID ∧ st'.c.opts = st.c.opts
    ∧ st'.c.blockInflight = st.c.blockInflight ∧ st'.c.justElected = st.c.justElected
    ∧ st'.c.configInflight = st.c.configInflight ∧ st'.c.cutter = st.c.cutter
    ∧ st'.c.proposals = st.c.proposals := by
  unfold serveRequestState.snapCase at h
  split at h
  · cases h; exact ⟨rfl, rfl, rfl, rfl, rfl, rfl, rfl, rfl, rfl, rfl, rfl, rfl⟩
  · split at h
    · cases h
    · rename_i b hb
      cases h
      obtain ⟨ws, ps, k, e1, e2⟩ := catchUp_spec u o
        { st.c with lastSnapBlockNum := b.Number, confState := sn.ConfState,
                    appliedIndex := sn.Index } sn
      simp only
      rw [e1]
      simp

theorem step_inflightInv (u : Utils) (o : Oracle) (st st' : serveRequestState) (ev : Event)
    (hinv : st.inflightInv) (h : st.step u o ev = some st') : st'.inflightInv := by
  cases ev with
  | submitC s =>
    simp only [serveRequestState.step] at h
    split at h
    · cases h; exact hinv
    · rename_i hg
      simp only [Bool.or_eq_true, Bool.not_eq_true', not_or, Bool.not_eq_true,
        Bool.not_eq_false] at hg
      exact submitCase_inflightInv u o st st' s hinv hg.2 h
  | applyC app =>
    simp only [serveRequestState.step] at h
    split at h
    · cases h; exact hinv
    · unfold serveRequestState.applyCase at h
      simp only at h
      split at h
      · cases h
      · rename_i st1 h1
        have hinv1 : st1.inflightInv := by
          split at h1
          · cases h1; exact hinv
          · exact applyCaseSoft_inflightInv u o st st1 _ hinv h1
        split at h
        · cases h
        · rename_i c2 h2
          exact applyCaseResume_inflightInv u o _ st'
            (apply_inflightInv u o st1 c2 _ hinv1 h2) h
  | timer =>
    simp only [serveRequestState.step] at h
    split at h
    · cases h; exact hinv
    · rename_i hg
      simp only [Bool.or_eq_true, Bool.not_eq_true', not_or, Bool.not_eq_true,
        Bool.not_eq_false] at hg
      exact timerCase_inflightInv u o st st' hinv hg.2 h
  | snapC sn =>
    simp only [serveRequestState.step] at h
    split at h
    · cases h; exact hinv
    · obtain ⟨f1, f2, f3, f4, f5, f6, f7, f8, f9, f10, f11, f12⟩ :=
        snapCase_fields u o st st' sn h
      unfold serveRequestState.inflightInv
      rw [f1, f2, f3, f6, f7, f8, f9, f11]
      exact hinv
  | doneC =>
    simp only [serveRequestState.step] at h
    split at h
    · cases h; exact hinv
    · cases h; exact hinv

theorem run_inflightInv (u : Utils) (evs : List (Oracle × Event)) :
    ∀ (st st' : serveRequestState), st.inflightInv →
      serveRequestState.run u st evs = some st' → st'.inflightInv := by
  induction evs with
  | nil =>
    intro st st' hinv h
    simp only [serveRequestState.run, Option.some.injEq] at h
    subst h
    exact hinv
  | cons ev rest ih =>
    intro st st' hinv h
    obtain ⟨o, e⟩ := ev
    simp only [serveRequestState.run] at h
    split at h
    · cases h
    · rename_i st1 h1
      exact ih st1 st' (step_inflightInv u o st st1 e hinv h1) h

theorem Start_fields (u : Utils) (c : Chain) (st : serveRequestState)
    (h : c.Start u = some st) :
    st.ticking = false ∧ st.soft = { Lead := 0, RaftState := StateType.StateFollower }
    ∧ st.submitC = true ∧ st.bc = none ∧ st.returned = false
    ∧ st.c.raftID = c.raftID ∧ st.c.opts = c.opts ∧ st.c.blockInflight = c.blockInflight
    ∧ st.c.justElected = c.justElected ∧ st.c.configInflight = c.configInflight
    ∧ st.c.cutter = c.cutter ∧ st.c.errorC = true ∧ st.c.appliedIndex = c.appliedIndex
    ∧ st.c.ledger = c.ledger ∧ st.c.proposals = c.proposals := by
  unfold Chain.Start at h
  split at h
  · cases h
  · rename_i c1 hc
    cases h
    unfold Chain.configureComm at hc
    split at hc
    · cases hc
    · cases hc
      exact ⟨rfl, rfl, rfl, rfl, rfl, rfl, rfl, rfl, rfl, rfl, rfl, rfl, rfl, rfl, rfl⟩

theorem Start_inflightInv (u : Utils) (channelID : String) (ledger : List LedgerWrite)
    (opts : Options) (snapBlkNum : Nat) (st : serveRequestState)
    (hM : 1 ≤ opts.MaxInflightMsgs)
    (h : (NewChain channelID ledger opts snapBlkNum).Start u = some st) :
    st.inflightInv := by
  obtain ⟨f1, f2, f3, f4, f5, f6, f7, f8, f9, f10, f11, _⟩ := Start_fields u _ st h
  unfold serveRequestState.inflightInv
  rw [f1, f3, f7, f8, f9]
  simp only [NewChain]
  refine ⟨hM, fun _ => by simp, le_refl _, by omega, ?_, fun _ => ⟨by omega, ?_⟩, ?_, ?_⟩
  · intro hh; cases hh
  · intro hh; omega
  · intro hh; cases hh
  · intro hh; cases hh

/-! ## Submissions paused while a configuration is in flight -/

theorem applyCaseSoft_configInv (u : Utils) (o : Oracle) (st st' : serveRequestState)
    (appSoft : SoftState) (hinv : st.configInv u)
    (h : st.applyCaseSoft u o appSoft = some st') :
    (st'.c.justElected = true → st'.soft.Lead = st'.c.raftID → st'.submitC = false)
    ∧ (∀ e ∈ st'.c.cutter.pendingBatch, Chain.isConfig u e = some false) := by
  obtain ⟨hg, hJ, hh⟩ := hinv
  unfold serveRequestState.applyCaseSoft at h
  simp only at h
  split at h
  · cases h
  · rename_i st2 h2
    cases h
    simp only
    split at h2
    · rename_i hne
      simp only [bne_iff_ne, ne_eq] at hne
      split at h2
      · cases h2
      · rename_i st1 h1
        cases h2
        split at h1
        · rename_i hlead
          simp only [beq_iff_eq] at hlead
          obtain ⟨l1, l2, l3, l4, l5, l6, l7, l8, l9, l10, l11, l12, l13, l14⟩ :=
            becomeLeader_spec u o st st1 h1
          have hnl : st.soft.Lead ≠ st.c.raftID := fun hx => hne (by rw [hlead, hx])
          have hfalse : (st.soft.Lead == st.c.raftID) = false := by simpa using hnl
          rw [hfalse]
          simp only [Bool.false_eq_true, if_false]
          rw [l3, l11]
          exact ⟨fun _ _ => rfl, hh⟩
        · rename_i hlead
          simp only [beq_iff_eq] at hlead
          cases h1
          by_cases hold : st.soft.Lead = st.c.raftID
          · have htrue : (st.soft.Lead == st.c.raftID) = true := by simpa using hold
            rw [htrue, if_pos rfl]
            unfold serveRequestState.becomeFollower
            refine ⟨fun _ hx => absurd hx hlead, ?_⟩
            intro e he
            simp [receiver.Cut] at he
          · have hfalse : (st.soft.Lead == st.c.raftID) = false := by simpa using hold
            rw [hfalse]
            simp only [Bool.false_eq_true, if_false]
            exact ⟨fun _ hx => absurd hx hlead, hh⟩
    · rename_i heq
      simp only [bne_iff_ne, ne_eq, not_not] at heq
      cases h2
      rw [heq]
      exact ⟨hg, hh⟩

theorem applyCaseResume_configInv (u : Utils) (o : Oracle) (st st' : serveRequestState)
    (hg : st.c.justElected = true → st.soft.Lead = st.c.raftID → st.submitC = false)
    (hh : ∀ e ∈ st.c.cutter.pendingBatch, Chain.isConfig u e = some false)
    (h : st.applyCaseResume u o = some st') : st'.configInv u := by
  unfold serveRequestState.applyCaseResume at h
  split at h
  · rename_i hje
    simp only at h
    split at h
    · cases h
      exact ⟨hg, fun hl _ => hg hje hl, hh⟩
    · rename_i hno
      simp only [Bool.or_eq_true, decide_eq_true_eq, not_or, Bool.not_eq_true] at hno
      split at h
      · cases h
      · cases h
        refine ⟨?_, ?_, hh⟩
        · intro hx; cases hx
        · intro _ hx
          have : st.c.configInflight = true := hx
          rw [hno.2] at this; cases this
  · rename_i hje
    split at h
    · cases h
      exact ⟨fun _ _ => rfl, fun _ _ => rfl, hh⟩
    · rename_i hcfg
      split at h
      · cases h
        refine ⟨fun hx => absurd hx hje, fun _ hx => absurd hx hcfg, hh⟩
      · cases h
        exact ⟨fun hx => absurd hx hje, fun _ hx => absurd hx hcfg, hh⟩

theorem submitCase_configInv (u : Utils) (o : Oracle) (st st' : serveRequestState)
    (s : Option SubmitRequest) (hinv : st.configInv u) (hsub : st.submitC = true)
    (h : st.submitCase u o s = some st') : st'.configInv u := by
  obtain ⟨hg, hJ, hh⟩ := hinv
  unfold serveRequestState.submitCase at h
  split at h
  · cases h; exact ⟨hg, hJ, hh⟩
  · split at h
    · cases h; exact ⟨hg, hJ, hh⟩
    · simp only at h
      split at h
      · cases h; exact ⟨hg, hJ, hh⟩
      · rename_i hlead
        simp only [bne_iff_ne, ne_eq, not_not] at hlead
        split at h
        · cases h
        · rename_i res cutter hord
          split at h
          · cases h
          · rename_i c2 bc2 hprop
            cases h
            obtain ⟨ds, n, f, e1, e2, _⟩ := propose_spec u o _ _ _ _ _ hprop
            have hmem := ordered_mem u o _ _ _ _ hh hord
            have hje : st.c.justElected = false := by
              cases hj : st.c.justElected
              · rfl
              · have := hg hj hlead
                rw [hsub] at this; cases this
            subst e1
            unfold serveRequestState.configInv
            simp only
            refine ⟨?_, ?_, hmem⟩
            · intro hx; rw [hje] at hx; cases hx
            · intro _ hx
              rw [if_pos hx]

theorem timerCase_configInv (u : Utils) (o : Oracle) (st st' : serveRequestState)
    (hu : u.normalBlocks) (hinv : st.configInv u)
    (h : st.timerCase u o = some st') : st'.configInv u := by
  obtain ⟨hg, hJ, hh⟩ := hinv
  unfold serveRequestState.timerCase at h
  simp only at h
  split at h
  · cases h
    refine ⟨hg, hJ, ?_⟩
    intro e he
    simp [receiver.Cut] at he
  · rename_i hlen
    split at h
    · cases h
    · rename_i c2 bc2 hprop
      cases h
      obtain ⟨ds, n, f, e1, e2, e3⟩ := propose_spec u o _ _ _ _ _ hprop
      have hne : (st.c.cutter.Cut).1 ≠ [] := by
        intro hx
        rw [hx] at hlen
        simp at hlen
      have hf : f = false := by
        apply e3
        intro batch hb b
        simp only [List.mem_singleton] at hb
        subst hb
        exact hu b _ hne hh
      subst e1 hf
      unfold serveRequestState.configInv
      simp only [Bool.or_false]
      refine ⟨hg, hJ, ?_⟩
      intro e he
      simp [receiver.Cut] at he

theorem step_configInv (u : Utils) (o : Oracle) (st st' : serveRequestState) (ev : Event)
    (hu : u.normalBlocks) (hinv : st.configInv u) (h : st.step u o ev = some st') :
    st'.configInv u := by
  cases ev with
  | submitC s =>
    simp only [serveRequestState.step] at h
    split at h
    · cases h; exact hinv
    · rename_i hg
      simp only [Bool.or_eq_true, Bool.not_eq_true', not_or, Bool.not_eq_true,
        Bool.not_eq_false] at hg
      exact submitCase_configInv u o st st' s hinv hg.2 h
  | applyC app =>
    simp only [serveRequestState.step] at h
    split at h
    · cases h; exact hinv
    · unfold serveRequestState.applyCase at h
      simp only at h
      split at h
      · cases h
      · rename_i st1 h1
        have hinv1 : (st1.c.justElected = true → st1.soft.Lead = st1.c.raftID →
              st1.submitC = false)
            ∧ (∀ e ∈ st1.c.cutter.pendingBatch, Chain.isConfig u e = some false) := by
          split at h1
          · cases h1; exact ⟨hinv.1, hinv.2.2⟩
          · exact applyCaseSoft_configInv u o st st1 _ hinv h1
        split at h
        · cases h
        · rename_i c2 h2
          obtain ⟨fr, _⟩ := apply_spec u o st1.c c2 _ h2
          obtain ⟨f1, f2, f3, f4, _, _⟩ := applyFrame_fields _ _ fr
          apply applyCaseResume_configInv u o _ st' ?_ ?_ h
          · simp only; rw [f1, f3]; exact hinv1.1
          · simp only; rw [f4]; exact hinv1.2
  | timer =>
    simp only [serveRequestState.step] at h
    split at h
    · cases h; exact hinv
    · exact timerCase_configInv u o st st' hu hinv h
  | snapC sn =>
    simp only [serveRequestState.step] at h
    split at h
    · cases h; exact hinv
    · obtain ⟨f1, f2, f3, f4, f5, f6, f7, f8, f9, f10, f11, f12⟩ :=
        snapCase_fields u o st st' sn h
      unfold serveRequestState.configInv
      rw [f2, f3, f6, f9, f10, f11]
      exact hinv
  | doneC =>
    simp only [serveRequestState.step] at h
    split at h
    · cases h; exact hinv
    · cases h; exact hinv

theorem run_configInv (u : Utils) (hu : u.normalBlocks) (evs : List (Oracle × Event)) :
    ∀ (st st' : serveRequestState), st.configInv u →
      serveRequestState.run u st evs = some st' → st'.configInv u := by
  induction evs with
  | nil =>
    intro st st' hinv h
    simp only [serveRequestState.run, Option.some.injEq] at h
    subst h
    exact hinv
  | cons ev rest ih =>
    intro st st' hinv h
    obtain ⟨o, e⟩ := ev
    simp only [serveRequestState.run] at h
    split at h
    · cases h
    · rename_i st1 h1
      exact ih st1 st' (step_configInv u o st st1 e hu hinv h1) h

theorem Start_configInv (u : Utils) (channelID : String) (ledger : List LedgerWrite)
    (opts : Options) (snapBlkNum : Nat) (st : serveRequestState)
    (h : (NewChain channelID ledger opts snapBlkNum).Start u = some st) :
    st.configInv u := by
  obtain ⟨f1, f2, f3, f4, f5, f6, f7, f8, f9, f10, f11, _⟩ := Start_fields u _ st h
  unfold serveRequestState.configInv
  rw [f9, f10, f11]
  simp [NewChain, NewReceiverImpl]

/-! ## Losing leadership -/

/-- The soft-state block of the apply case when the local node stops leading:
its result does not depend on what the block cutter holds. -/
theorem applyCaseSoft_demote (u : Utils) (o : Oracle) (st : serveRequestState)
    (appSoft : SoftState) (hlead : st.soft.Lead = st.c.raftID)
    (hnew : appSoft.Lead ≠ st.c.raftID) :
    ∃ e : Bool, ∀ r : receiver,
      serveRequestState.applyCaseSoft u o { st with c := { st.c with cutter := r } } appSoft
        = some { st with
            c := { st.c with blockInflight := 0, cutter := NewReceiverImpl, errorC := e }
            ticking := false
            submitC := true
            bc := none
            soft := { Lead := appSoft.Lead, RaftState := appSoft.RaftState } } := by
  have h1 : (appSoft.Lead != st.soft.Lead) = true := by
    rw [hlead]; simpa using hnew
  have h2 : (appSoft.Lead == st.c.raftID) = false := by simpa using hnew
  have h3 : (st.soft.Lead == st.c.raftID) = true := by simpa using hlead
  refine ⟨if isCandidate appSoft.RaftState || appSoft.Lead == raft.None then true
      else (if (st.soft.Lead == raft.None && appSoft.Lead != raft.None)
              || (isCandidate st.soft.RaftState && !isCandidate appSoft.RaftState)
            then false else st.c.errorC), fun r => ?_⟩
  unfold serveRequestState.applyCaseSoft
  simp only [h1, h2, h3, if_true, Bool.false_eq_true, if_false,
    serveRequestState.becomeFollower, receiver.Cut, NewReceiverImpl]

theorem step_applyC_soft (u : Utils) (o : Oracle) (s : serveRequestState) (app : apply)
    (appSoft : SoftState) (hret : s.returned = false) (hsoft : app.soft = some appSoft) :
    s.step u o (Event.applyC app)
      = (s.applyCaseSoft u o appSoft).bind (fun st1 =>
          (st1.c.apply u o app.entries).bind (fun c2 =>
            serveRequestState.applyCaseResume u o { st1 with c := c2 })) := by
  simp only [serveRequestState.step, hret, Bool.false_eq_true, if_false,
    serveRequestState.applyCase, hsoft]
  cases s.applyCaseSoft u o appSoft with
  | none => rfl
  | some st1 =>
    simp only [Option.bind]
    cases st1.c.apply u o app.entries <;> rfl


/-! ## `MaxInflightMsgs` along the event loop -/

theorem applyCaseSoft_maxInflight (u : Utils) (o : Oracle) (st st' : serveRequestState)
    (appSoft : SoftState) (h : st.applyCaseSoft u o appSoft = some st') :
    st'.c.opts.MaxInflightMsgs = st.c.opts.MaxInflightMsgs := by
  unfold serveRequestState.applyCaseSoft at h
  simp only at h
  split at h
  · cases h
  · rename_i st2 h2
    cases h
    simp only
    split at h2
    · split at h2
      · cases h2
      · rename_i st1 h1
        cases h2
        have hl : st1.c.opts = st.c.opts := by
          split at h1
          · exact (becomeLeader_spec u o st st1 h1).2.2.2.2.2.2.2.2.2.1
          · cases h1; rfl
        split
        · simp only [serveRequestState.becomeFollower]; rw [hl]
        · rw [hl]
    · cases h2
      rfl

theorem step_maxInflight (u : Utils) (o : Oracle) (st st' : serveRequestState) (ev : Event)
    (h : st.step u o ev = some st') :
    st'.c.opts.MaxInflightMsgs = st.c.opts.MaxInflightMsgs := by
  cases ev with
  | submitC s =>
    simp only [serveRequestState.step] at h
    split at h
    · cases h; rfl
    · unfold serveRequestState.submitCase at h
      split at h
      · cases h; rfl
      · split at h
        · cases h; rfl
        · simp only at h
          split at h
          · cases h; rfl
          · split at h
            · cases h
            · split at h
              · cases h
              · rename_i c2 bc2 hprop
                cases h
                obtain ⟨ds, n, f, e1, _, _⟩ := propose_spec u o _ _ _ _ _ hprop
                simp only; rw [e1]
  | applyC app =>
    simp only [serveRequestState.step] at h
    split at h
    · cases h; rfl
    · unfold serveRequestState.applyCase at h
      simp only at h
      split at h
      · cases h
      · rename_i st1 h1
        split at h
        · cases h
        · rename_i c2 h2
          have hr := (applyCaseResume_ledger u o _ st' h).2.2.2.2.2.2.2.2.1
          obtain ⟨fr, _⟩ := apply_spec u o _ _ _ h2
          have hf := (applyFrame_fields _ _ fr).2.1
          have hs : st1.c.opts.MaxInflightMsgs = st.c.opts.MaxInflightMsgs := by
            split at h1
            · cases h1; rfl
            · exact applyCaseSoft_maxInflight u o st st1 _ h1
          simp only at hr
          rw [hr, hf, hs]
  | timer =>
    simp only [serveRequestState.step] at h
    split at h
    · cases h; rfl
    · unfold serveRequestState.timerCase at h
      simp only at h
      split at h
      · cases h; rfl
      · split at h
        · cases h
        · rename_i c2 bc2 hprop
          cases h
          obtain ⟨ds, n, f, e1, _, _⟩ := propose_spec u o _ _ _ _ _ hprop
          simp only; rw [e1]
  | snapC sn =>
    simp only [serveRequestState.step] at h
    split at h
    · cases h; rfl
    · have := (snapCase_fields u o st st' sn h).2.2.2.2.2.2.1
      rw [this]
  | doneC =>
    simp only [serveRequestState.step] at h
    split at h
    · cases h; rfl
    · cases h; rfl

theorem run_maxInflight (u : Utils) (evs : List (Oracle × Event)) :
    ∀ (st st' : serveRequestState), serveRequestState.run u st evs = some st' →
      st'.c.opts.MaxInflightMsgs = st.c.opts.MaxInflightMsgs := by
  induction evs with
  | nil =>
    intro st st' h
    simp only [serveRequestState.run, Option.some.injEq] at h
    subst h
    rfl
  | cons ev rest ih =>
    intro st st' h
    obtain ⟨o, e⟩ := ev
    simp only [serveRequestState.run] at h
    split at h
    · cases h
    · rename_i st1 h1
      rw [ih st1 st' h, step_maxInflight u o st st1 e h1]

/-! ## Example instance -/

theorem demoUtils_normalBlocks : demoUtils.normalBlocks := by
  intro bc batch hne hall
  cases batch with
  | nil => exact absurd rfl hne
  | cons e rest =>
    have h := hall e (List.mem_cons_self e rest)
    obtain ⟨payload, signature⟩ := e
    cases payload with
    | nil => simp [Chain.isConfig, demoUtils] at h
    | cons t tail =>
      simp only [Chain.isConfig, demoUtils, HeaderType_CONFIG, HeaderType_ORDERER_TRANSACTION,
        Option.some.injEq, Bool.or_eq_false_iff, beq_eq_false_iff_ne, ne_eq] at h
      simp only [demoUtils, List.map_cons, Bool.or_eq_false_iff, beq_eq_false_iff_ne, ne_eq]
      constructor
      · intro ht; apply h.1; rw [ht]; rfl
      · intro ht; apply h.2; rw [ht]; rfl

/-! ## The block cutter -/

/-- C1: for every batch-size configuration and every sequence of envelopes given
one by one to `Ordered` on a new receiver, the batches emitted, concatenated in
the order of emission and followed by the batch of a final `Cut`, are the input
sequence. -/
theorem Ordered_preserves_input_sequence (cfg : BatchSize) (msgs : List Envelope) :
    (receiver.orderedAll cfg NewReceiverImpl msgs).1.flatten
        ++ ((receiver.orderedAll cfg NewReceiverImpl msgs).2.Cut).1 = msgs := by
  have h := orderedAll_concat cfg msgs NewReceiverImpl
  simpa [NewReceiverImpl] using h

/-- C2: with at most three messages and 3,000,000,000 bytes preferred in a batch,
three envelopes of 1,500,000,000 bytes given to `Ordered` on a new receiver are
emitted as one batch of 4,500,000,000 bytes: the 32-bit sum of the pending size
and the size of the third envelope wraps around, so the batch is not cut before
the third envelope joins it. -/
theorem Ordered_batch_bytes_wrap :
    (receiver.orderedAll bigConfig NewReceiverImpl [bigEnvelope, bigEnvelope, bigEnvelope]).1
      = [[bigEnvelope, bigEnvelope, bigEnvelope]]
    ∧ batchBytes [bigEnvelope, bigEnvelope, bigEnvelope] = 4500000000
    ∧ bigConfig.PreferredMaxBytes < 4500000000 :=
  ⟨(three_big bigEnvelope bigEnvelope_bytes).1, (three_big bigEnvelope bigEnvelope_bytes).2,
    by show (3000000000 : Nat) < 4500000000; norm_num⟩

/-- C3, as stated, fails: with `MaxMessageCount = 0` the only envelope given to
`Ordered` on a new receiver is emitted in a batch of one message. -/
theorem Ordered_zero_count_batch :
    ¬ (∀ b ∈ (receiver.orderedAll zeroCountConfig NewReceiverImpl [smallEnvelope]).1,
        b.length ≤ zeroCountConfig.MaxMessageCount) := by
  decide

/-- C3, amended: for every `MaxMessageCount` from 1 up to the largest 32-bit
value and every sequence of envelopes given to `Ordered` on a new receiver,
every batch emitted holds at most `MaxMessageCount` envelopes. -/
theorem Ordered_respects_message_count (cfg : BatchSize) (hM : 1 ≤ cfg.MaxMessageCount)
    (hw : cfg.MaxMessageCount < 2 ^ 32) (msgs : List Envelope) :
    ∀ b ∈ (receiver.orderedAll cfg NewReceiverImpl msgs).1, b.length ≤ cfg.MaxMessageCount :=
  orderedAll_count cfg hM hw msgs NewReceiverImpl (by simpa [NewReceiverImpl] using hM)

/-- Three envelopes under a limit of two messages: the batches hold at most two. -/
theorem Ordered_respects_message_count_witness :
    1 ≤ pairConfig.MaxMessageCount ∧ pairConfig.MaxMessageCount < 2 ^ 32
    ∧ ∀ b ∈ (receiver.orderedAll pairConfig NewReceiverImpl
              [smallEnvelope, smallEnvelope, smallEnvelope]).1,
        b.length ≤ pairConfig.MaxMessageCount :=
  ⟨by decide, by decide,
    Ordered_respects_message_count pairConfig (by decide) (by decide)
      [smallEnvelope, smallEnvelope, smallEnvelope]⟩

/-! ## `Chain.apply` -/

/-- C4, as stated, fails: a committed normal entry that carries a block, at an
index the chain has applied already, is accepted by `apply` and leaves the chain
as it is, however often it is applied; the ledger holds no write for it. -/
theorem apply_stale_entry_never_written :
    Chain.apply demoUtils demoOracle staleChain [staleEntry] = some staleChain
    ∧ staleEntry.carriesBlock = true
    ∧ staleEntry.Index ∉ writtenIndices staleChain.ledger := by
  decide

/-- C4, amended: when `apply` accepts a list of committed entries and accepts it
again on the resulting chain, the second application leaves the ledger, the
applied index and the in-flight block counter unchanged; over the two
applications only blocks of entries of the list are written, under strictly
increasing log indices (no entry twice); and when the indices of the list
increase strictly and lie above the applied index, the blocks written are
exactly those of its normal entries that carry a block, one write each. -/
theorem apply_second_time_writes_nothing (u : Utils) (o1 o2 : Oracle) (c c1 c2 : Chain)
    (ents : List Entry)
    (h1 : Chain.apply u o1 c ents = some c1) (h2 : Chain.apply u o2 c1 ents = some c2) :
    c2.ledger = c1.ledger ∧ c2.appliedIndex = c1.appliedIndex
    ∧ c2.blockInflight = c1.blockInflight
    ∧ ∃ ws, c2.ledger = c.ledger ++ ws
        ∧ (writtenIndices ws).Pairwise (· < ·)
        ∧ (∀ w ∈ ws, ∃ e ∈ ents, u.UnmarshalBlock e.Data = some w.block)
        ∧ ((ents.map (fun e => e.Index)).Pairwise (· < ·) →
            (∀ e ∈ ents, c.appliedIndex < e.Index) →
            writtenIndices ws
              = (ents.filter (fun e => e.carriesBlock)).map (fun e => e.Index)) := by
  obtain ⟨_, _, _, _, hall, ws, l1, p1, _, l4⟩ := apply_spec u o1 c c1 ents h1
  obtain ⟨r1, r2, r3⟩ := apply_replay u o2 c1 c2 ents hall h2
  refine ⟨r1, r2, r3, ws, by rw [r1, l1], p1, l4, ?_⟩
  intro hs hf
  obtain ⟨ws', l1', e'⟩ := apply_fresh u o1 c c1 ents hs hf h1
  have : ws = ws' := List.append_cancel_left (l1.symm.trans l1')
  rw [this]
  exact e'

/-- The entry of block 1 applied twice to the new chain: one write. -/
theorem apply_second_time_writes_nothing_witness :
    Chain.apply demoUtils demoOracle demoChain [entry1] = some appliedChain
    ∧ Chain.apply demoUtils demoOracle appliedChain [entry1] = some appliedChain
    ∧ appliedChain.ledger = appliedChain.ledger
    ∧ appliedChain.appliedIndex = appliedChain.appliedIndex
    ∧ appliedChain.blockInflight = appliedChain.blockInflight
    ∧ ∃ ws, appliedChain.ledger = demoChain.ledger ++ ws
        ∧ (writtenIndices ws).Pairwise (· < ·)
        ∧ (∀ w ∈ ws, ∃ e ∈ [entry1], demoUtils.UnmarshalBlock e.Data = some w.block)
        ∧ (([entry1].map (fun e => e.Index)).Pairwise (· < ·) →
            (∀ e ∈ [entry1], demoChain.appliedIndex < e.Index) →
            writtenIndices ws
              = ([entry1].filter (fun e => e.carriesBlock)).map (fun e => e.Index)) :=
  ⟨by decide, by decide,
    apply_second_time_writes_nothing demoUtils demoOracle demoOracle demoChain appliedChain
      appliedChain [entry1] (by decide) (by decide)⟩

/-! ## The event loop -/

/-- C5: over every sequence of events handled by the event loop the applied
index does not decrease, blocks are only appended to the ledger, and the log
indices recorded with the appended blocks increase strictly, so that no log
entry is written twice; they lie above the applied index at the start and not
above the applied index at the end. -/
theorem serveRequest_applies_in_order (u : Utils) (st st' : serveRequestState)
    (evs : List (Oracle × Event)) (h : serveRequestState.run u st evs = some st') :
    st.c.appliedIndex ≤ st'.c.appliedIndex
    ∧ ∃ ws, st'.c.ledger = st.c.ledger ++ ws
        ∧ (writtenIndices ws).Pairwise (· < ·)
        ∧ (writtenIndices ws).Nodup
        ∧ ∀ j ∈ writtenIndices ws, st.c.appliedIndex < j ∧ j ≤ st'.c.appliedIndex := by
  obtain ⟨hi, ws, hl, hp, hr⟩ := run_ledgerProgress u evs st st' h
  exact ⟨hi, ws, hl, hp, hp.imp (fun hlt => Nat.ne_of_lt hlt), hr⟩

/-- The new chain handling the apply event that carries the entry of block 1. -/
theorem serveRequest_applies_in_order_witness :
    serveRequestState.run demoUtils demoStart applyEvents = some appliedState
    ∧ demoStart.c.appliedIndex ≤ appliedState.c.appliedIndex
    ∧ ∃ ws, appliedState.c.ledger = demoStart.c.ledger ++ ws
        ∧ (writtenIndices ws).Pairwise (· < ·)
        ∧ (writtenIndices ws).Nodup
        ∧ ∀ j ∈ writtenIndices ws,
            demoStart.c.appliedIndex < j ∧ j ≤ appliedState.c.appliedIndex :=
  ⟨by decide,
    serveRequest_applies_in_order demoUtils demoStart appliedState applyEvents (by decide)⟩

/-- C6: for a submit request whose envelope has header type CONFIG or
ORDERER_TRANSACTION and passes revalidation, `ordered` returns the pending
batch, when there is one, followed by a batch holding the configuration
envelope alone, reports that nothing is pending and leaves the block cutter
empty. -/
theorem ordered_isolates_config (u : Utils) (o : Oracle) (cutter : receiver)
    (msg : SubmitRequest) (t : Int) (payload : Envelope)
    (hdr : u.ChannelHeader msg.Payload = some t)
    (hcfg : t = HeaderType_CONFIG ∨ t = HeaderType_ORDERER_TRANSACTION)
    (hval : (if msg.LastValidationSeq < o.Sequence then o.ProcessConfigMsg msg.Payload
              else some msg.Payload) = some payload) :
    Chain.ordered u o cutter msg
      = some ({ batches := (if cutter.pendingBatch = [] then [] else [cutter.pendingBatch])
                              ++ [[payload]]
                pending := false
                err := none },
              { pendingBatch := [], pendingBatchSizeBytes := 0 }) := by
  have hc : Chain.isConfig u msg.Payload = some true := by
    unfold Chain.isConfig
    rw [hdr]
    rcases hcfg with h | h <;> simp [h]
  unfold Chain.ordered
  simp only [hc, hval, receiver.Cut]
  cases hp : cutter.pendingBatch <;> simp

/-- A configuration envelope submitted while one normal envelope is pending. -/
theorem ordered_isolates_config_witness :
    Chain.ordered demoUtils demoOracle leaderState.c.cutter
        { LastValidationSeq := 0, Payload := configEnvelope, Channel := "ch" }
      = some ({ batches := (if leaderState.c.cutter.pendingBatch = [] then []
                            else [leaderState.c.cutter.pendingBatch]) ++ [[configEnvelope]]
                pending := false
                err := none },
              { pendingBatch := [], pendingBatchSizeBytes := 0 }) :=
  ordered_isolates_config demoUtils demoOracle leaderState.c.cutter
    { LastValidationSeq := 0, Payload := configEnvelope, Channel := "ch" } 1 configEnvelope
    rfl (Or.inl rfl) rfl

/-- C7: for a CONFIG envelope whose write-set carries a ConsensusType value whose
consenters differ from those of the chain by more than one addition or removal,
`Configure` returns the error "update of more than one consenters at a time is
not supported" and does not call `Submit`. -/
theorem Configure_rejects_multiple_changes (u : Utils) (k : ConfigUtils) (c : Chain)
    (env : Envelope) (configSeq : Nat) (payload : Payload) (header : Header)
    (configUpdate : ConfigUpdate) (writeSet ordererConfigGroup : ConfigGroup)
    (val : ConfigValue) (updatedMetadata : Metadata)
    (h1 : k.UnmarshalPayload env.Payload = Except.ok payload)
    (h2 : payload.Header = some header)
    (h3 : k.UnmarshalChannelHeader header.ChannelHeader = Except.ok HeaderType_CONFIG)
    (h4 : k.UnmarshalConfigUpdateFromPayload payload = Except.ok configUpdate)
    (h5 : configUpdate.WriteSet = some writeSet)
    (h6 : writeSet.Groups.lookup "Orderer" = some ordererConfigGroup)
    (h7 : ordererConfigGroup.Values.lookup "ConsensusType" = some val)
    (h8 : k.MetadataFromConfigValue val = Except.ok updatedMetadata)
    (h9 : 1 < (u.ComputeMembershipChanges c.opts.RaftMetadata.Consenters
                updatedMetadata.Consenters).TotalChanges) :
    Chain.Configure u k c env configSeq
      = some (ConfigureResult.rejected
          "update of more than one consenters at a time is not supported") := by
  have hc : c.checkConsentersSet u k val
      = some "update of more than one consenters at a time is not supported" := by
    unfold Chain.checkConsentersSet
    rw [h8]
    simp only
    rw [if_pos h9]
  have hv : c.checkConfigUpdateValidity u k env
      = some (some "update of more than one consenters at a time is not supported") := by
    unfold Chain.checkConfigUpdateValidity
    rw [h1]
    simp only
    rw [h2]
    simp only
    rw [h3]
    simp only
    have hne : (HeaderType_CONFIG == HeaderType_ORDERER_TRANSACTION) = false := by decide
    have heq : (HeaderType_CONFIG == HeaderType_CONFIG) = true := by decide
    rw [hne, heq]
    simp only [Bool.false_eq_true, if_false, if_true]
    rw [h4]
    simp only
    rw [h5]
    simp only
    rw [h6]
    simp only
    rw [h7]
    simp only
    rw [hc]
  unfold Chain.Configure
  rw [hv]

/-- A CONFIG envelope that adds consenters 7 and 8 to a chain without consenters. -/
theorem Configure_rejects_multiple_changes_witness :
    1 < (demoUtils.ComputeMembershipChanges demoChain.opts.RaftMetadata.Consenters
          [{ Host := "orderer", Port := 7, ClientTlsCert := [], ServerTlsCert := [] },
           { Host := "orderer", Port := 8, ClientTlsCert := [], ServerTlsCert := [] }]).TotalChanges
    ∧ Chain.Configure demoUtils demoConfigUtils demoChain configEnvelope 0
      = some (ConfigureResult.rejected
          "update of more than one consenters at a time is not supported") :=
  ⟨by decide,
    Configure_rejects_multiple_changes demoUtils demoConfigUtils demoChain configEnvelope 0
      { Header := some { ChannelHeader := [1], SignatureHeader := [] }, Data := [7, 8] }
      { ChannelHeader := [1], SignatureHeader := [] }
      { WriteSet := some (ConfigGroup.mk
          [("Orderer", ConfigGroup.mk [] [("ConsensusType", { Value := [7, 8] })])] []) }
      (ConfigGroup.mk [("Orderer", ConfigGroup.mk [] [("ConsensusType", { Value := [7, 8] })])] [])
      (ConfigGroup.mk [] [("ConsensusType", { Value := [7, 8] })])
      { Value := [7, 8] }
      { Consenters :=
          [{ Host := "orderer", Port := 7, ClientTlsCert := [], ServerTlsCert := [] },
           { Host := "orderer", Port := 8, ClientTlsCert := [], ServerTlsCert := [] }] }
      rfl rfl rfl rfl rfl rfl rfl rfl (by decide)⟩

/-- C8, as stated, fails: with `MaxInflightMsgs = 1`, a leader that receives a
small envelope and then an envelope above the preferred batch size proposes the
pending batch and the large envelope together, and two blocks are in flight. -/
theorem blockInflight_exceeds_max :
    (NewChain "ch" [genesis] demoOptions 0).Start demoUtils = some demoStart
    ∧ serveRequestState.run demoUtils demoStart overflowEvents = some overflowState
    ∧ ¬ (overflowState.c.blockInflight ≤ demoOptions.MaxInflightMsgs) := by
  decide

/-- C8, amended: when `MaxInflightMsgs` is at least 1, in every state the event
loop reaches from the start of a new chain the number of blocks in flight is
between 0 and `MaxInflightMsgs + 1`, and it is at most `MaxInflightMsgs`
whenever the submission channel is enabled. -/
theorem blockInflight_bounded (u : Utils) (channelID : String) (ledger : List LedgerWrite)
    (opts : Options) (snapBlkNum : Nat) (st0 st : serveRequestState)
    (evs : List (Oracle × Event)) (hM : 1 ≤ opts.MaxInflightMsgs)
    (h0 : (NewChain channelID ledger opts snapBlkNum).Start u = some st0)
    (h : serveRequestState.run u st0 evs = some st) :
    0 ≤ st.c.blockInflight ∧ st.c.blockInflight ≤ opts.MaxInflightMsgs + 1
    ∧ (st.submitC = true → st.c.blockInflight ≤ opts.MaxInflightMsgs) := by
  have hinv0 := Start_inflightInv u channelID ledger opts snapBlkNum st0 hM h0
  obtain ⟨_, _, hlo, hhi, _, hsub, _⟩ := run_inflightInv u evs st0 st hinv0 h
  have hopts : st.c.opts.MaxInflightMsgs = opts.MaxInflightMsgs := by
    rw [run_maxInflight u evs st0 st h, (Start_fields u _ st0 h0).2.2.2.2.2.2.1]
    rfl
  rw [hopts] at hhi hsub
  exact ⟨hlo, hhi, fun hs => (hsub hs).1⟩

/-- The run of `overflowEvents`: two blocks in flight with `MaxInflightMsgs = 1`. -/
theorem blockInflight_bounded_witness :
    1 ≤ demoOptions.MaxInflightMsgs
    ∧ (NewChain "ch" [genesis] demoOptions 0).Start demoUtils = some demoStart
    ∧ serveRequestState.run demoUtils demoStart overflowEvents = some overflowState
    ∧ 0 ≤ overflowState.c.blockInflight
    ∧ overflowState.c.blockInflight ≤ demoOptions.MaxInflightMsgs + 1
    ∧ (overflowState.submitC = true →
        overflowState.c.blockInflight ≤ demoOptions.MaxInflightMsgs) :=
  ⟨by decide, by decide, by decide,
    blockInflight_bounded demoUtils "ch" [genesis] demoOptions 0 demoStart overflowState
      overflowEvents (by decide) (by decide) (by decide)⟩

/-- C9: provided that a block created from normal envelopes is not a
configuration block, in every state the event loop reaches from the start of a
new chain in which the local node is the leader and `configInflight` is set, the
submission channel is disabled, so that a submission is not received and leaves
the state, the block cutter included, as it is. -/
theorem configInflight_disables_submissions (u : Utils) (hu : u.normalBlocks)
    (channelID : String) (ledger : List LedgerWrite) (opts : Options) (snapBlkNum : Nat)
    (st0 st : serveRequestState) (evs : List (Oracle × Event))
    (h0 : (NewChain channelID ledger opts snapBlkNum).Start u = some st0)
    (h : serveRequestState.run u st0 evs = some st)
    (hlead : st.soft.Lead = st.c.raftID) (hcfg : st.c.configInflight = true) :
    st.submitC = false
    ∧ ∀ (o : Oracle) (s : Option SubmitRequest), st.step u o (Event.submitC s) = some st := by
  have hinv0 := Start_configInv u channelID ledger opts snapBlkNum st0 h0
  obtain ⟨_, hJ, _⟩ := run_configInv u hu evs st0 st hinv0 h
  have hs : st.submitC = false := hJ hlead hcfg
  refine ⟨hs, fun o s => ?_⟩
  simp [serveRequestState.step, hs]

/-- The leader after it has proposed the block of a configuration envelope. -/
theorem configInflight_disables_submissions_witness :
    (NewChain "ch" [genesis] demoOptions 0).Start demoUtils = some demoStart
    ∧ serveRequestState.run demoUtils demoStart configEvents = some configState
    ∧ configState.soft.Lead = configState.c.raftID
    ∧ configState.c.configInflight = true
    ∧ configState.submitC = false
    ∧ ∀ (o : Oracle) (s : Option SubmitRequest),
        configState.step demoUtils o (Event.submitC s) = some configState :=
  ⟨by decide, by decide, by decide, by decide,
    configInflight_disables_submissions demoUtils demoUtils_normalBlocks "ch" [genesis]
      demoOptions 0 demoStart configState configEvents (by decide) (by decide) (by decide)
      (by decide)⟩

/-- C10: when the local node is the leader and an apply event reports another
leader or none, then, once the event has been handled, the pending batch of the
block cutter is empty, the batch timer is stopped and no block is in flight;
handling the event proposes nothing, writes only blocks of the committed
entries that the event carries, and ends in the same state whatever the block
cutter held before. -/
theorem leadership_loss_discards_batch (u : Utils) (o : Oracle) (st st' : serveRequestState)
    (app : apply) (appSoft : SoftState)
    (hret : st.returned = false) (hsoft : app.soft = some appSoft)
    (hlead : st.soft.Lead = st.c.raftID) (hnew : appSoft.Lead ≠ st.c.raftID)
    (h : st.step u o (Event.applyC app) = some st') :
    st'.c.cutter.pendingBatch = [] ∧ st'.ticking = false ∧ st'.c.blockInflight = 0
    ∧ st'.c.proposals = st.c.proposals
    ∧ (∃ ws, st'.c.ledger = st.c.ledger ++ ws
        ∧ ∀ w ∈ ws, ∃ e ∈ app.entries, u.UnmarshalBlock e.Data = some w.block)
    ∧ ∀ r : receiver,
        serveRequestState.step u o { st with c := { st.c with cutter := r } }
          (Event.applyC app) = some st' := by
  obtain ⟨e, hsoftEq⟩ := applyCaseSoft_demote u o st appSoft hlead hnew
  have hself : serveRequestState.applyCaseSoft u o st appSoft = _ := hsoftEq st.c.cutter
  have hstep : ∀ r : receiver,
      serveRequestState.step u o { st with c := { st.c with cutter := r } }
          (Event.applyC app) = st.step u o (Event.applyC app) := by
    intro r
    have e1 := step_applyC_soft u o { st with c := { st.c with cutter := r } } app appSoft
      hret hsoft
    have e2 := step_applyC_soft u o st app appSoft hret hsoft
    rw [hsoftEq r] at e1
    rw [hself] at e2
    exact e1.trans e2.symm
  have h0 := h
  rw [step_applyC_soft u o st app appSoft hret hsoft, hself] at h
  simp only [Option.bind] at h
  split at h
  · cases h
  rename_i c2 h2
  simp only at h
  obtain ⟨fr, _, b1, b2, _, ws, l1, _, _, l4⟩ := apply_spec u o _ c2 _ h2
  obtain ⟨_, _, _, f4, f5, _⟩ := applyFrame_fields _ _ fr
  obtain ⟨r1, _, r3, r4, r5, r6, _⟩ := applyCaseResume_ledger u o _ st' h
  simp only at b1 b2 f4 f5 l1 r1 r3 r4 r5 r6
  refine ⟨?_, ?_, ?_, ?_, ?_, fun r => (hstep r).trans h0⟩
  · rw [r4, f4]; rfl
  · rw [r6]
  · rw [r5]
    have : min (0 : Int) 0 = 0 := rfl
    rw [this] at b2
    omega
  · rw [r3, f5]
  · exact ⟨ws, by rw [r1, l1], l4⟩

/-- The leader with one envelope pending learns that node 2 leads. -/
theorem leadership_loss_discards_batch_witness :
    leaderState.returned = false
    ∧ leaderState.soft.Lead = leaderState.c.raftID
    ∧ (2 : Nat) ≠ leaderState.c.raftID
    ∧ leaderState.step demoUtils demoOracle (Event.applyC demotedApply) = some demotedState
    ∧ demotedState.c.cutter.pendingBatch = [] ∧ demotedState.ticking = false
    ∧ demotedState.c.blockInflight = 0
    ∧ demotedState.c.proposals = leaderState.c.proposals
    ∧ (∃ ws, demotedState.c.ledger = leaderState.c.ledger ++ ws
        ∧ ∀ w ∈ ws, ∃ e ∈ demotedApply.entries, demoUtils.UnmarshalBlock e.Data = some w.block)
    ∧ ∀ r : receiver,
        serveRequestState.step demoUtils demoOracle
          { leaderState with c := { leaderState.c with cutter := r } }
          (Event.applyC demotedApply) = some demotedState :=
  ⟨by decide, by decide, by decide, by decide,
    leadership_loss_discards_batch demoUtils demoOracle leaderState demotedState demotedApply
      { Lead := 2, RaftState := StateType.StateFollower } (by decide) rfl (by decide)
      (by decide) (by decide)⟩

/-! ## More lemmas on the block cutter -/

theorem Ordered_cutInv (cfg : BatchSize) (r : receiver) (msg : Envelope)
    (hinv : r.cutInv cfg) : (r.Ordered cfg msg).2.cutInv cfg := by
  obtain ⟨h1, h2⟩ := hinv
  unfold receiver.Ordered
  simp only [receiver.Cut]
  by_cases hp : r.pendingBatch = []
  · split_ifs <;> simp_all [receiver.cutInv] <;> omega
  · have := h2 hp
    split_ifs <;> simp_all [receiver.cutInv]

theorem orderedAll_cutInv (cfg : BatchSize) (msgs : List Envelope) :
    ∀ r : receiver, r.cutInv cfg → (receiver.orderedAll cfg r msgs).2.cutInv cfg := by
  induction msgs with
  | nil => intro r h; exact h
  | cons m ms ih =>
    intro r h
    simp only [receiver.orderedAll]
    exact ih _ (Ordered_cutInv cfg r m h)

theorem NewReceiverImpl_cutInv (cfg : BatchSize) : NewReceiverImpl.cutInv cfg := by
  constructor
  · intro _; rfl
  · intro h; exact absurd rfl h

theorem Ordered_two_batches (cfg : BatchSize) (r : receiver) (msg : Envelope)
    (hinv : r.cutInv cfg) (h : (r.Ordered cfg msg).1.1.length = 2) :
    cfg.PreferredMaxBytes < messageSizeBytes msg := by
  obtain ⟨h1, h2⟩ := hinv
  have hlt := messageSizeBytes_lt msg
  by_contra hsz
  unfold receiver.Ordered at h
  simp only [receiver.Cut, gt_iff_lt, hsz, if_false] at h
  by_cases hp : r.pendingBatch = []
  · have h0 := h1 hp
    have hno : ¬ cfg.PreferredMaxBytes < (r.pendingBatchSizeBytes + messageSizeBytes msg) % 2 ^ 32 := by
      rw [h0, Nat.zero_add, Nat.mod_eq_of_lt hlt]; exact hsz
    simp only [hno, decide_False, Bool.false_eq_true, if_false, List.nil_append] at h
    split_ifs at h <;> simp at h
  · have hM := h2 hp
    split_ifs at h with ha hb <;> simp at h
    simp at hb
    omega

theorem Ordered_none_pending (cfg : BatchSize) (r : receiver) (msg : Envelope)
    (h : (r.Ordered cfg msg).1.1.length = 0) : (r.Ordered cfg msg).1.2 = true := by
  unfold receiver.Ordered at h ⊢
  simp only [receiver.Cut] at h ⊢
  split_ifs at h ⊢ <;> simp at h ⊢

theorem messageSizeBytes_le (msg : Envelope) :
    messageSizeBytes msg ≤ msg.Payload.length + msg.Signature.length :=
  Nat.mod_le _ _


/-! ## The trace of catching up -/

theorem catchUpLoop_trace (u : Utils) (o : Oracle) (fuel : Nat) :
    ∀ (next : Nat) (c : Chain),
      Chain.catchUpLoop u o fuel next c
        = (if (pulledNumbers o next fuel).length = fuel then none
           else some ("failed to fetch block "
                  ++ toString (next + (pulledNumbers o next fuel).length) ++ " from cluster"),
           { c with
             ledger := c.ledger ++ (pulledNumbers o next fuel).filterMap
                (fun j => (o.PullBlock j).map (catchUpWrite u))
             pullCalls := c.pullCalls
                ++ (List.range' next fuel).take ((pulledNumbers o next fuel).length + 1) }) := by
  induction fuel with
  | zero =>
    intro next c
    simp [Chain.catchUpLoop, pulledNumbers]
  | succ fuel ih =>
    intro next c
    unfold Chain.catchUpLoop
    cases hp : o.PullBlock next with
    | none =>
      simp [pulledNumbers, List.range'_succ, List.takeWhile_cons, hp]
    | some block =>
      simp only
      rw [ih]
      have hk : pulledNumbers o next (fuel + 1) = next :: pulledNumbers o (next + 1) fuel := by
        simp [pulledNumbers, List.range'_succ, List.takeWhile_cons, hp]
      rw [hk]
      simp only [List.length_cons, Nat.add_right_cancel_iff, List.filterMap_cons, hp,
        Option.map_some', List.range'_succ, List.take_succ_cons, List.append_assoc,
        List.singleton_append, catchUpWrite]
      have ha : next + 1 + (pulledNumbers o (next + 1) fuel).length
          = next + ((pulledNumbers o (next + 1) fuel).length + 1) := by omega
      rw [ha]

theorem pulledNumbers_all (o : Oracle) (next count : Nat)
    (h : ∀ j, next ≤ j → j < next + count → (o.PullBlock j).isSome = true) :
    pulledNumbers o next count = List.range' next count := by
  unfold pulledNumbers
  rw [List.takeWhile_eq_self_iff]
  intro j hj
  rw [List.mem_range'_1] at hj
  exact h j hj.1 hj.2

theorem pulledNumbers_fail (o : Oracle) (count : Nat) :
    ∀ (next k : Nat), next ≤ k → k < next + count → o.PullBlock k = none →
      (∀ j, next ≤ j → j < k → (o.PullBlock j).isSome = true) →
      pulledNumbers o next count = List.range' next (k - next) := by
  induction count with
  | zero => intro next k h1 h2; omega
  | succ count ih =>
    intro next k h1 h2 hk hall
    by_cases he : next = k
    · subst he
      simp [pulledNumbers, List.range'_succ, List.takeWhile_cons, hk]
    · have hlt : next < k := by omega
      have hs := hall next (le_refl _) hlt
      have hrec := ih (next + 1) k (by omega) (by omega) hk
        (fun j hj1 hj2 => hall j (by omega) hj2)
      have hk' : k - next = (k - (next + 1)) + 1 := by omega
      rw [hk', List.range'_succ, ← hrec]
      simp [pulledNumbers, List.range'_succ, List.takeWhile_cons, hs]

theorem pulledNumbers_isSome (o : Oracle) (next count : Nat) :
    ∀ j ∈ pulledNumbers o next count, (o.PullBlock j).isSome = true := by
  intro j hj
  unfold pulledNumbers at hj
  exact List.mem_takeWhile_imp (p := fun j => (o.PullBlock j).isSome) hj

theorem filterMap_map_length {α β γ : Type} (g : α → Option β) (f : β → γ) (l : List α)
    (h : ∀ j ∈ l, (g j).isSome = true) :
    (l.filterMap (fun j => (g j).map f)).length = l.length := by
  induction l with
  | nil => rfl
  | cons a l ih =>
    have ha := h a (List.mem_cons_self a l)
    obtain ⟨b, hb⟩ := Option.isSome_iff_exists.mp ha
    simp only [List.filterMap_cons, hb, Option.map_some', List.length_cons]
    rw [ih (fun j hj => h j (List.mem_cons_of_mem a hj))]

theorem catchUp_trace (u : Utils) (o : Oracle) (c : Chain) (snap : Snapshot) (b : Block)
    (hb : u.UnmarshalBlock snap.Data = some b) (hle : c.Height ≤ b.Number)
    (hp : o.createPuller = true) :
    c.catchUp u o snap
      = (if (pulledNumbers o c.Height (b.Number + 1 - c.Height)).length
              = b.Number + 1 - c.Height then none
         else some ("failed to fetch block "
                ++ toString (c.Height + (pulledNumbers o c.Height
                    (b.Number + 1 - c.Height)).length) ++ " from cluster"),
         { c with
           ledger := c.ledger ++ (pulledNumbers o c.Height (b.Number + 1 - c.Height)).filterMap
              (fun j => (o.PullBlock j).map (catchUpWrite u))
           pullCalls := c.pullCalls
              ++ (List.range' c.Height (b.Number + 1 - c.Height)).take
                  ((pulledNumbers o c.Height (b.Number + 1 - c.Height)).length + 1)
           pullersCreated := c.pullersCreated + 1
           pullersClosed := c.pullersClosed + 1 }) := by
  unfold Chain.catchUp
  rw [hb]
  simp only
  have h1 : ¬ c.Height > b.Number := by omega
  rw [if_neg h1, hp]
  simp only [Bool.not_true, Bool.false_eq_true, if_false]
  rw [catchUpLoop_trace]

/-! ## Lemmas on `Chain.catchUp` -/

theorem catchUp_noop (u : Utils) (o : Oracle) (c : Chain) (snap : Snapshot) (b : Block)
    (hb : u.UnmarshalBlock snap.Data = some b) (hgt : b.Number < c.Height) :
    c.catchUp u o snap = (none, c) := by
  unfold Chain.catchUp
  rw [hb]
  simp only
  rw [if_pos hgt]

theorem catchUpLoop_step (u : Utils) (o : Oracle) (fuel next : Nat) (c0 : Chain)
    (block : Block) (h : o.PullBlock next = some block) :
    Chain.catchUpLoop u o (fuel + 1) next c0
      = Chain.catchUpLoop u o fuel (next + 1)
          { c0 with pullCalls := c0.pullCalls ++ [next]
                    ledger := c0.ledger ++ [catchUpWrite u block] } := by
  rw [Chain.catchUpLoop, h]
  rfl

theorem take_range_le (m : Nat) :
    ∀ (s n : Nat), m ≤ n → (List.range' s n).take m = List.range' s m := by
  induction m with
  | zero => intro s n _; simp
  | succ m ih =>
    intro s n h
    cases n with
    | zero => omega
    | succ n =>
      rw [List.range'_succ, List.take_succ_cons, ih (s + 1) n (by omega), List.range'_succ]


/-! ## Lemmas on `ReadRaftMetadata` and `Chain.Configure` -/

theorem readConsenters_fold (cs : List Consenter) :
    ∀ (m : RaftMetadata), (∀ p ∈ m.Consenters, p.1 < m.NextConsenterId) →
      cs.foldl
        (fun (m : RaftMetadata) consenter =>
          { m with
            Consenters :=
              m.Consenters.filter (fun p => p.1 != m.NextConsenterId)
                ++ [(m.NextConsenterId, consenter)]
            NextConsenterId := m.NextConsenterId + 1 })
        m
      = { m with
          Consenters := m.Consenters ++ (List.range' m.NextConsenterId cs.length).zip cs
          NextConsenterId := m.NextConsenterId + cs.length } := by
  induction cs with
  | nil =>
    intro m _
    simp
  | cons a cs ih =>
    intro m hm
    have hfil : m.Consenters.filter (fun p => p.1 != m.NextConsenterId) = m.Consenters := by
      rw [List.filter_eq_self]
      intro p hp
      have := hm p hp
      simp only [bne_iff_ne, ne_eq]
      omega
    rw [List.foldl_cons, hfil, ih]
    · simp only [List.length_cons, List.range'_succ, List.zip_cons_cons, List.append_assoc,
        List.singleton_append]
      have : m.NextConsenterId + 1 + cs.length = m.NextConsenterId + (cs.length + 1) := by omega
      rw [this]
    · intro p hp
      simp only [List.mem_append, List.mem_singleton] at hp
      rcases hp with hp | hp
      · have := hm p hp
        show p.1 < m.NextConsenterId + 1
        omega
      · subst hp
        show m.NextConsenterId < m.NextConsenterId + 1
        omega

theorem Configure_congr (u : Utils) (k : ConfigUtils) (c : Chain) (env : Envelope)
    (configSeq : Nat) (cc : Option ConfChange) (b : Bool) :
    Chain.Configure u k { c with confChangeInProgress := cc, configInflight := b } env configSeq
      = Chain.Configure u k c env configSeq := by
  rfl

theorem Configure_single (u : Utils) (k : ConfigUtils) (c : Chain)
    (env : Envelope) (configSeq : Nat) (payload : Payload) (header : Header)
    (configUpdate : ConfigUpdate) (writeSet ordererConfigGroup : ConfigGroup)
    (val : ConfigValue) (updatedMetadata : Metadata)
    (h1 : k.UnmarshalPayload env.Payload = Except.ok payload)
    (h2 : payload.Header = some header)
    (h3 : k.UnmarshalChannelHeader header.ChannelHeader = Except.ok HeaderType_CONFIG)
    (h4 : k.UnmarshalConfigUpdateFromPayload payload = Except.ok configUpdate)
    (h5 : configUpdate.WriteSet = some writeSet)
    (h6 : writeSet.Groups.lookup "Orderer" = some ordererConfigGroup)
    (h7 : ordererConfigGroup.Values.lookup "ConsensusType" = some val)
    (h8 : k.MetadataFromConfigValue val = Except.ok updatedMetadata)
    (h9 : (u.ComputeMembershipChanges c.opts.RaftMetadata.Consenters
                updatedMetadata.Consenters).TotalChanges ≤ 1) :
    Chain.Configure u k c env configSeq
      = some (ConfigureResult.submitted
          { LastValidationSeq := configSeq, Payload := env, Channel := c.channelID }) := by
  have hc : c.checkConsentersSet u k val = none := by
    unfold Chain.checkConsentersSet
    rw [h8]
    simp only
    rw [if_neg (by omega)]
  have hv : c.checkConfigUpdateValidity u k env = some none := by
    unfold Chain.checkConfigUpdateValidity
    rw [h1]
    simp only
    rw [h2]
    simp only
    rw [h3]
    simp only
    have hne : (HeaderType_CONFIG == HeaderType_ORDERER_TRANSACTION) = false := by decide
    have heq : (HeaderType_CONFIG == HeaderType_CONFIG) = true := by decide
    rw [hne, heq]
    simp only [Bool.false_eq_true, if_false, if_true]
    rw [h4]
    simp only
    rw [h5]
    simp only
    rw [h6]
    simp only
    rw [h7]
    simp only
    rw [hc]
  unfold Chain.Configure
  rw [hv]

/-! ## The submission channel after the apply case -/

theorem applyCaseResume_enabled (u : Utils) (o : Oracle) (st st' : serveRequestState)
    (hsub : st.submitC = true) (h : st.applyCaseResume u o = some st') :
    st'.submitC = (st.c.justElected || !st.c.configInflight) := by
  unfold serveRequestState.applyCaseResume at h
  split at h
  · rename_i hje
    simp only at h
    split at h
    · cases h; rw [hsub, hje]; rfl
    · split at h
      · cases h
      · cases h; rw [hje]; rfl
  · rename_i hje
    simp only [Bool.not_eq_true] at hje
    split at h
    · rename_i hcfg
      cases h
      rw [hje, hcfg]; rfl
    · rename_i hcfg
      simp only [Bool.not_eq_true] at hcfg
      split at h
      · cases h; rw [hje, hcfg]; rfl
      · cases h; rw [hsub, hje, hcfg]; rfl


/-! ## Lemmas on elections -/

theorem getInFlightConfChange_frame (u : Utils) (o : Oracle) (c : Chain) (b : Int) (j : Bool) :
    Chain.getInFlightConfChange u o { c with blockInflight := b, justElected := j }
      = Chain.getInFlightConfChange u o c := rfl

theorem becomeLeader_confChange (u : Utils) (o : Oracle) (st stL : serveRequestState)
    (h : st.becomeLeader u o = some stL) :
    stL.c.blockInflight = 0 ∧ stL.c.justElected = true ∧ stL.submitC = false
    ∧ (∀ cc, st.c.getInFlightConfChange u o = some (some cc) →
        stL.c.confChangeProposals = st.c.confChangeProposals ++ [cc]
        ∧ stL.c.confChangeInProgress = some cc ∧ stL.c.configInflight = true)
    ∧ (st.c.getInFlightConfChange u o = some none →
        stL.c.confChangeProposals = st.c.confChangeProposals
        ∧ stL.c.confChangeInProgress = st.c.confChangeInProgress
        ∧ stL.c.configInflight = st.c.configInflight) := by
  unfold serveRequestState.becomeLeader at h
  simp only [getInFlightConfChange_frame] at h
  split at h
  · cases h
  · rename_i hg
    cases h
    refine ⟨rfl, rfl, rfl, ?_, fun _ => ⟨rfl, rfl, rfl⟩⟩
    intro cc hcc
    rw [hg] at hcc
    cases hcc
  · rename_i cc0 hg
    cases h
    refine ⟨rfl, rfl, rfl, ?_, ?_⟩
    · intro cc hcc
      rw [hg] at hcc
      cases hcc
      exact ⟨rfl, rfl, rfl⟩
    · intro hcc
      rw [hg] at hcc
      cases hcc

theorem applyCaseSoft_elect (u : Utils) (o : Oracle) (st st1 : serveRequestState)
    (appSoft : SoftState) (helect : appSoft.Lead = st.c.raftID)
    (hnot : st.soft.Lead ≠ st.c.raftID)
    (h : st.applyCaseSoft u o appSoft = some st1) :
    ∃ stL, st.becomeLeader u o = some stL
      ∧ st1.c.justElected = true ∧ st1.submitC = false ∧ st1.c.blockInflight = 0
      ∧ st1.soft.Lead = st1.c.raftID := by
  have h1 : (appSoft.Lead != st.soft.Lead) = true := by
    rw [helect]; simpa using (Ne.symm hnot)
  have h2 : (appSoft.Lead == st.c.raftID) = true := by simpa using helect
  have h3 : (st.soft.Lead == st.c.raftID) = false := by simpa using hnot
  unfold serveRequestState.applyCaseSoft at h
  simp only [h1, h2, h3, if_true, Bool.false_eq_true, if_false] at h
  cases hL : st.becomeLeader u o with
  | none =>
    rw [hL] at h
    cases h
  | some stL =>
    rw [hL] at h
    simp only [Option.some.injEq] at h
    obtain ⟨l1, l2, l3, l4, l5, l6, l7, l8, l9, _⟩ := becomeLeader_spec u o st stL hL
    refine ⟨stL, rfl, ?_, ?_, ?_, ?_⟩
    · rw [← h]; exact l8
    · rw [← h]; exact l3
    · rw [← h]; exact l7
    · rw [← h]
      show appSoft.Lead = stL.c.raftID
      rw [l9, helect]

theorem applyCaseResume_justElected (u : Utils) (o : Oracle) (st st' : serveRequestState)
    (hje : st.c.justElected = true) (hsub : st.submitC = false)
    (h : st.applyCaseResume u o = some st') :
    (st'.submitC = true ↔ (o.lastIndex ≤ st.c.appliedIndex ∧ st.c.configInflight = false))
    ∧ (st'.submitC = false → st'.c.justElected = true) := by
  unfold serveRequestState.applyCaseResume at h
  rw [if_pos hje] at h
  simp only at h
  split at h
  · rename_i hbusy
    cases h
    simp only [Bool.or_eq_true, decide_eq_true_eq] at hbusy
    refine ⟨?_, fun _ => hje⟩
    rw [hsub]
    constructor
    · intro hx; cases hx
    · rintro ⟨ha, hb⟩
      rcases hbusy with hx | hx
      · omega
      · rw [hb] at hx; cases hx
  · rename_i hfree
    simp only [Bool.or_eq_true, decide_eq_true_eq, not_or, Bool.not_eq_true, not_lt] at hfree
    split at h
    · cases h
    · cases h
      refine ⟨⟨fun _ => ⟨hfree.1, hfree.2⟩, fun _ => rfl⟩, ?_⟩
      intro hx
      cases hx

theorem applyCaseSoft_waiting (u : Utils) (o : Oracle) (st st1 : serveRequestState)
    (appSoft : SoftState) (hje : st.c.justElected = true) (hsub : st.submitC = false)
    (h : st.applyCaseSoft u o appSoft = some st1)
    (hlead : st1.soft.Lead = st1.c.raftID) :
    st1.c.justElected = true ∧ st1.submitC = false := by
  unfold serveRequestState.applyCaseSoft at h
  simp only at h
  split at h
  · cases h
  · rename_i st2 h2
    cases h
    simp only at hlead ⊢
    split at h2
    · split at h2
      · cases h2
      · rename_i stx hx
        cases h2
        have hfacts : stx.c.justElected = true ∧ stx.submitC = false
            ∧ stx.c.raftID = st.c.raftID := by
          split at hx
          · obtain ⟨_, _, l3, _, _, _, _, l8, l9, _⟩ := becomeLeader_spec u o st stx hx
            exact ⟨l8, l3, l9⟩
          · cases hx; exact ⟨hje, hsub, rfl⟩
        by_cases hold : st.soft.Lead = st.c.raftID
        · have htrue : (st.soft.Lead == st.c.raftID) = true := by simpa using hold
          rw [htrue, if_pos rfl] at hlead
          rename_i hne _
          simp only [bne_iff_ne, ne_eq] at hne
          exfalso
          apply hne
          have : appSoft.Lead = stx.c.raftID := hlead
          rw [this, hfacts.2.2, hold]
        · have hfalse : (st.soft.Lead == st.c.raftID) = false := by simpa using hold
          rw [hfalse]
          simp only [Bool.false_eq_true, if_false]
          exact ⟨hfacts.1, hfacts.2.1⟩
    · cases h2
      exact ⟨hje, hsub⟩

theorem timerCase_submitC (u : Utils) (o : Oracle) (st st' : serveRequestState)
    (h : st.timerCase u o = some st') : st'.submitC = st.submitC := by
  unfold serveRequestState.timerCase at h
  simp only at h
  split at h
  · cases h; rfl
  · split at h
    · cases h
    · cases h; rfl

theorem justElected_enabled_step (u : Utils) (o : Oracle) (st st' : serveRequestState)
    (ev : Event) (hje : st.c.justElected = true) (hsub : st.submitC = false)
    (h : st.step u o ev = some st') (hlead : st'.soft.Lead = st'.c.raftID)
    (hen : st'.submitC = true) :
    (∃ app, ev = Event.applyC app) ∧ o.lastIndex ≤ st'.c.appliedIndex
      ∧ st'.c.configInflight = false := by
  cases ev with
  | submitC s =>
    simp only [serveRequestState.step, hsub, Bool.not_false, Bool.or_true, if_true,
      Option.some.injEq] at h
    subst h
    rw [hsub] at hen; cases hen
  | timer =>
    simp only [serveRequestState.step] at h
    split at h
    · cases h; rw [hsub] at hen; cases hen
    · rw [timerCase_submitC u o st st' h, hsub] at hen; cases hen
  | snapC sn =>
    simp only [serveRequestState.step] at h
    split at h
    · cases h; rw [hsub] at hen; cases hen
    · rw [(snapCase_fields u o st st' sn h).2.2.1, hsub] at hen; cases hen
  | doneC =>
    simp only [serveRequestState.step] at h
    split at h
    · cases h; rw [hsub] at hen; cases hen
    · cases h; rw [hsub] at hen; cases hen
  | applyC app =>
    refine ⟨⟨app, rfl⟩, ?_⟩
    simp only [serveRequestState.step] at h
    split at h
    · cases h; rw [hsub] at hen; cases hen
    · unfold serveRequestState.applyCase at h
      simp only at h
      split at h
      · cases h
      · rename_i st1 h1
        split at h
        · cases h
        · rename_i c2 h2
          obtain ⟨fr, _⟩ := apply_spec u o st1.c c2 _ h2
          obtain ⟨f1, _, f3, _⟩ := applyFrame_fields _ _ fr
          obtain ⟨_, r2, _, _, _, _, r7, r8, _, r10, _⟩ := applyCaseResume_ledger u o _ st' h
          simp only at r2 r7 r8 r10
          have hlead1 : st1.soft.Lead = st1.c.raftID := by
            rw [← r7, hlead, r8, f1]
          have hw : st1.c.justElected = true ∧ st1.submitC = false := by
            split at h1
            · cases h1; exact ⟨hje, hsub⟩
            · exact applyCaseSoft_waiting u o st st1 _ hje hsub h1 hlead1
          have hres := applyCaseResume_justElected u o { st1 with c := c2 } st'
            (by show c2.justElected = true; rw [f3]; exact hw.1) hw.2 h
          have := hres.1.mp hen
          simp only at this
          rw [r2, r10]
          exact this

/-! ## Demotion and election -/

/-- C11, as stated, fails: the leader that has proposed a configuration block
(`configInflight` set) and then learns that node 2 leads ends the event with
the submission channel disabled. -/
theorem demotion_keeps_submissions_paused :
    configState.soft.Lead = configState.c.raftID
    ∧ configState.step demoUtils demoOracle (Event.applyC demotedApply)
        = some configDemotedState
    ∧ configDemotedState.soft.Lead ≠ configDemotedState.c.raftID
    ∧ configDemotedState.submitC = false := by
  decide

/-- C11, amended: when an apply event demotes the local node from leader, then
once the event has been handled the submission channel is enabled exactly when
the node was just elected or no configuration is in flight after the entries of
the event have been applied; with `configInflight` set on a node that was not
just elected it is disabled. -/
theorem demotion_enables_submissions (u : Utils) (o : Oracle) (st st' : serveRequestState)
    (app : apply) (appSoft : SoftState)
    (hret : st.returned = false) (hsoft : app.soft = some appSoft)
    (hlead : st.soft.Lead = st.c.raftID) (hnew : appSoft.Lead ≠ st.c.raftID)
    (h : st.step u o (Event.applyC app) = some st') :
    st'.soft.Lead = appSoft.Lead
    ∧ st'.submitC = (st.c.justElected || !st'.c.configInflight) := by
  obtain ⟨e, hsoftEq⟩ := applyCaseSoft_demote u o st appSoft hlead hnew
  have hself : serveRequestState.applyCaseSoft u o st appSoft = _ := hsoftEq st.c.cutter
  rw [step_applyC_soft u o st app appSoft hret hsoft, hself] at h
  simp only [Option.bind] at h
  split at h
  · cases h
  rename_i c2 h2
  simp only at h
  obtain ⟨fr, _⟩ := apply_spec u o _ c2 _ h2
  obtain ⟨_, _, f3, _⟩ := applyFrame_fields _ _ fr
  obtain ⟨_, _, _, _, _, _, r7, _, _, r10, _⟩ := applyCaseResume_ledger u o _ st' h
  have hs := applyCaseResume_enabled u o _ st' rfl h
  simp only at f3 r7 r10 hs
  refine ⟨by rw [r7], ?_⟩
  rw [hs, r10, f3]

/-- The leader with one envelope pending and no configuration in flight learns
that node 2 leads: submissions are enabled. -/
theorem demotion_enables_submissions_witness :
    leaderState.returned = false
    ∧ leaderState.soft.Lead = leaderState.c.raftID
    ∧ (2 : Nat) ≠ leaderState.c.raftID
    ∧ leaderState.step demoUtils demoOracle (Event.applyC demotedApply) = some demotedState
    ∧ demotedState.soft.Lead = 2
    ∧ demotedState.submitC = (leaderState.c.justElected || !demotedState.c.configInflight) :=
  ⟨by decide, by decide, by decide, by decide,
    demotion_enables_submissions demoUtils demoOracle leaderState demotedState demotedApply
      { Lead := 2, RaftState := StateType.StateFollower } (by decide) rfl (by decide)
      (by decide) (by decide)⟩

/-- C12, as stated, fails in its last part: a node that was elected while the
raft log holds entries that are not applied, and whose submission channel is
therefore disabled, has it enabled by the apply event that demotes it, although
the last index of the log still exceeds the applied index. -/
theorem demotion_enables_just_elected :
    demoStart.step demoUtils busyOracle electedEvent = some electedState
    ∧ electedState.c.justElected = true ∧ electedState.submitC = false
    ∧ electedState.step demoUtils busyOracle (Event.applyC demotedApply)
        = some electedDemotedState
    ∧ electedDemotedState.submitC = true
    ∧ ¬ (busyOracle.lastIndex ≤ electedDemotedState.c.appliedIndex) := by
  decide

/-- C12, amended: when an apply event reports that the local node became
leader, `becomeLeader` resets the in-flight block counter to zero, marks the
node just-elected and disables the submission channel, and an unfinished
ConfChange, if `getInFlightConfChange` returns one, is proposed again, recorded
as in progress and `configInflight` is set.  Once the event has been handled no
block is in flight and the submission channel is enabled exactly when the last
index of the log does not exceed the applied index and no configuration is in
flight; otherwise the node stays just-elected.  A just-elected node whose
submission channel is disabled and which is the leader after an event has the
channel enabled by that event only if it is an apply event after which the last
index of the log does not exceed the applied index and no configuration is in
flight. -/
theorem election_pauses_submissions (u : Utils) (o : Oracle) (st st' : serveRequestState)
    (app : apply) (appSoft : SoftState)
    (hret : st.returned = false) (hsoft : app.soft = some appSoft)
    (helect : appSoft.Lead = st.c.raftID) (hnot : st.soft.Lead ≠ st.c.raftID)
    (h : st.step u o (Event.applyC app) = some st') :
    (∃ stL, st.becomeLeader u o = some stL
      ∧ stL.c.blockInflight = 0 ∧ stL.c.justElected = true ∧ stL.submitC = false
      ∧ (∀ cc, st.c.getInFlightConfChange u o = some (some cc) →
          stL.c.confChangeProposals = st.c.confChangeProposals ++ [cc]
          ∧ stL.c.confChangeInProgress = some cc ∧ stL.c.configInflight = true)
      ∧ (st.c.getInFlightConfChange u o = some none →
          stL.c.confChangeProposals = st.c.confChangeProposals
          ∧ stL.c.confChangeInProgress = st.c.confChangeInProgress
          ∧ stL.c.configInflight = st.c.configInflight))
    ∧ st'.c.blockInflight = 0
    ∧ st'.soft.Lead = st'.c.raftID
    ∧ (st'.submitC = true ↔
        (o.lastIndex ≤ st'.c.appliedIndex ∧ st'.c.configInflight = false))
    ∧ (st'.submitC = false → st'.c.justElected = true)
    ∧ (∀ (o2 : Oracle) (ev : Event) (st1 st2 : serveRequestState),
        st1.c.justElected = true → st1.submitC = false →
        st1.step u o2 ev = some st2 → st2.soft.Lead = st2.c.raftID → st2.submitC = true →
        (∃ app2, ev = Event.applyC app2) ∧ o2.lastIndex ≤ st2.c.appliedIndex
          ∧ st2.c.configInflight = false) := by
  rw [step_applyC_soft u o st app appSoft hret hsoft] at h
  cases hS : st.applyCaseSoft u o appSoft with
  | none => rw [hS] at h; cases h
  | some st1 =>
    rw [hS] at h
    simp only [Option.bind] at h
    split at h
    · cases h
    rename_i c2 h2
    simp only at h
    obtain ⟨stL, hL, j1, s1, b0, l1⟩ := applyCaseSoft_elect u o st st1 appSoft helect hnot hS
    obtain ⟨fr, _, b1, b2, _⟩ := apply_spec u o st1.c c2 _ h2
    obtain ⟨f1, _, f3, _⟩ := applyFrame_fields _ _ fr
    obtain ⟨_, r2, _, _, r5, _, r7, r8, _, r10, _⟩ := applyCaseResume_ledger u o _ st' h
    have hres := applyCaseResume_justElected u o { st1 with c := c2 } st'
      (by show c2.justElected = true; rw [f3]; exact j1) s1 h
    simp only at r2 r5 r7 r8 r10 hres
    refine ⟨⟨stL, hL, becomeLeader_confChange u o st stL hL⟩, ?_, ?_, ?_, hres.2,
      fun o2 ev st1 st2 a1 a2 a3 a4 a5 => justElected_enabled_step u o2 st1 st2 ev a1 a2 a3 a4 a5⟩
    · rw [r5]
      rw [b0] at b1 b2
      have : min (0 : Int) 0 = 0 := rfl
      rw [this] at b2
      omega
    · rw [r7, r8, f1]; exact l1
    · rw [r2, r10]; exact hres.1

/-- Node 1 is elected with nothing in the raft log and accepts submissions at
once; elected with entries not yet applied, it accepts them at the apply event
after which the log holds nothing more. -/
theorem election_pauses_submissions_witness :
    demoStart.returned = false
    ∧ (1 : Nat) = demoStart.c.raftID
    ∧ demoStart.soft.Lead ≠ demoStart.c.raftID
    ∧ demoStart.step demoUtils demoOracle electedEvent = some readyState
    ∧ readyState.c.blockInflight = 0
    ∧ readyState.soft.Lead = readyState.c.raftID
    ∧ (readyState.submitC = true ↔
        (demoOracle.lastIndex ≤ readyState.c.appliedIndex
          ∧ readyState.c.configInflight = false))
    ∧ ((∃ app2, Event.applyC idleApply = Event.applyC app2)
        ∧ demoOracle.lastIndex ≤ readyState.c.appliedIndex
        ∧ readyState.c.configInflight = false) :=
  ⟨by decide, by decide, by decide, by decide,
    (election_pauses_submissions demoUtils demoOracle demoStart readyState
      { entries := [], soft := some { Lead := 1, RaftState := StateType.StateLeader } }
      { Lead := 1, RaftState := StateType.StateLeader } (by decide) rfl (by decide)
      (by decide) (by decide)).2.1,
    (election_pauses_submissions demoUtils demoOracle demoStart readyState
      { entries := [], soft := some { Lead := 1, RaftState := StateType.StateLeader } }
      { Lead := 1, RaftState := StateType.StateLeader } (by decide) rfl (by decide)
      (by decide) (by decide)).2.2.1,
    (election_pauses_submissions demoUtils demoOracle demoStart readyState
      { entries := [], soft := some { Lead := 1, RaftState := StateType.StateLeader } }
      { Lead := 1, RaftState := StateType.StateLeader } (by decide) rfl (by decide)
      (by decide) (by decide)).2.2.2.1,
    (election_pauses_submissions demoUtils demoOracle demoStart readyState
      { entries := [], soft := some { Lead := 1, RaftState := StateType.StateLeader } }
      { Lead := 1, RaftState := StateType.StateLeader } (by decide) rfl (by decide)
      (by decide) (by decide)).2.2.2.2.2 demoOracle (Event.applyC idleApply) electedState
      readyState (by decide) (by decide) (by decide) (by decide) (by decide)⟩

/-! ## `Chain.Submit` -/

/-- C13: on a chain that has not been started `Submit` returns the error "chain
is not started", on a started chain that has stopped the error "chain is
stopped", in both cases whether or not its `select` could ever proceed and
without sending the request on `submitC`; and it returns nil only on a chain
that is started and not stopped. -/
theorem Submit_requires_running_chain (c : Chain) (startC doneC : Bool)
    (SendSubmit : Nat → SubmitRequest → Option String) (req : SubmitRequest)
    (sel : Option submitSelect) :
    (startC = false →
      c.Submit startC doneC SendSubmit req sel
        = some { err := some "chain is not started", enqueued := false, forwarded := none })
    ∧ (startC = true → doneC = true →
      c.Submit startC doneC SendSubmit req sel
        = some { err := some "chain is stopped", enqueued := false, forwarded := none })
    ∧ (∀ r, c.Submit startC doneC SendSubmit req sel = some r → r.err = none →
        startC = true ∧ doneC = false) := by
  refine ⟨?_, ?_, ?_⟩
  · intro h; subst h; rfl
  · intro h1 h2; subst h1 h2; rfl
  · intro r hr he
    cases startC with
    | false =>
      simp only [Chain.Submit, Chain.isRunning] at hr
      cases hr
      cases he
    | true =>
      cases doneC with
      | true =>
        simp only [Chain.Submit, Chain.isRunning] at hr
        cases hr
        cases he
      | false => exact ⟨rfl, rfl⟩

/-- A chain whose start failed, and a started chain that has halted. -/
theorem Submit_requires_running_chain_witness :
    demoChain.Submit false true (fun _ _ => none) request5 none
        = some { err := some "chain is not started", enqueued := false, forwarded := none }
    ∧ demoChain.Submit true true (fun _ _ => none) request5 none
        = some { err := some "chain is stopped", enqueued := false, forwarded := none } :=
  ⟨(Submit_requires_running_chain demoChain false true (fun _ _ => none) request5 none).1 rfl,
    (Submit_requires_running_chain demoChain true true (fun _ _ => none) request5 none).2.1
      rfl rfl⟩

/-- C14: a submission received by the event loop while the node is a candidate
or pre-candidate, or while no leader is known (the ID of the node itself not
being the ID that stands for no node), is answered with `raft.None` and leaves
the chain, the block cutter included, as it is; on that answer `Submit` returns
the error "no Raft leader" without calling `SendSubmit`. -/
theorem Submit_without_leader (u : Utils) (o : Oracle) (st : serveRequestState)
    (req : SubmitRequest) (SendSubmit : Nat → SubmitRequest → Option String)
    (hret : st.returned = false) (hsub : st.submitC = true)
    (hno : isCandidate st.soft.RaftState = true
            ∨ (st.soft.Lead = raft.None ∧ st.c.raftID ≠ raft.None)) :
    st.step u o (Event.submitC (some req))
      = some { st with leaderReplies := st.leaderReplies ++ [raft.None] }
    ∧ st.c.Submit true false SendSubmit req (some (submitSelect.received raft.None))
      = some { err := some "no Raft leader", enqueued := true, forwarded := none } := by
  refine ⟨?_, rfl⟩
  simp only [serveRequestState.step, hret, hsub, Bool.not_true, Bool.or_self,
    Bool.false_eq_true, if_false, serveRequestState.submitCase]
  by_cases hc : isCandidate st.soft.RaftState = true
  · unfold isCandidate at hc
    rw [if_pos hc]
  · rcases hno with h | ⟨h1, h2⟩
    · exact absurd h hc
    · unfold isCandidate at hc
      rw [if_neg hc]
      have hne : (st.soft.Lead != st.c.raftID) = true := by
        rw [h1]; simpa using (Ne.symm h2)
      simp only [hne, if_true]
      rw [h1]

/-- A submission received by node 1 during an election. -/
theorem Submit_without_leader_witness :
    candidateState.returned = false ∧ candidateState.submitC = true
    ∧ isCandidate candidateState.soft.RaftState = true
    ∧ candidateState.step demoUtils demoOracle (Event.submitC (some request5))
      = some { candidateState with leaderReplies := candidateState.leaderReplies ++ [raft.None] }
    ∧ candidateState.c.Submit true false (fun _ _ => none) request5
        (some (submitSelect.received raft.None))
      = some { err := some "no Raft leader", enqueued := true, forwarded := none } :=
  ⟨by decide, by decide, by decide,
    Submit_without_leader demoUtils demoOracle candidateState request5 (fun _ _ => none)
      (by decide) (by decide) (Or.inl (by decide))⟩

/-! ## Catching up with a snapshot -/

/-- C15: when the height of the ledger is greater than the number of the block
that the snapshot carries, `catchUp` returns no error and leaves the chain as
it is: no block puller created, no call of `PullBlock`, no block written. -/
theorem catchUp_ahead_is_noop (u : Utils) (o : Oracle) (c : Chain) (snap : Snapshot)
    (b : Block) (hb : u.UnmarshalBlock snap.Data = some b) (hgt : b.Number < c.Height) :
    c.catchUp u o snap = (none, c) :=
  catchUp_noop u o c snap b hb hgt

/-- The new chain, of height 1, and a snapshot taken at block 0. -/
theorem catchUp_ahead_is_noop_witness :
    demoUtils.UnmarshalBlock snapshot0.Data
        = some { Number := 0, PreviousHash := [], DataHash := [], Data := [[5]] }
    ∧ (0 : Nat) < demoChain.Height
    ∧ demoChain.catchUp demoUtils pullOracle snapshot0 = (none, demoChain) :=
  ⟨by decide, by decide,
    catchUp_ahead_is_noop demoUtils pullOracle demoChain snapshot0
      { Number := 0, PreviousHash := [], DataHash := [], Data := [[5]] } (by decide)
      (by decide)⟩

/-- C16, as stated, fails: when the height of the ledger equals the number of
the block that the snapshot carries, `catchUp` pulls the block of that number
and writes it to the ledger. -/
theorem catchUp_equal_height_pulls :
    demoUtils.UnmarshalBlock snapshot1.Data
        = some { Number := 1, PreviousHash := [], DataHash := [], Data := [[5]] }
    ∧ demoChain.Height = 1
    ∧ (demoChain.catchUp demoUtils pullOracle snapshot1).2.pullCalls = [1]
    ∧ (demoChain.catchUp demoUtils pullOracle snapshot1).2.ledger.length
        = demoChain.ledger.length + 1 := by
  decide

/-- C16, amended: when the height of the ledger is greater than the number of
the block that the snapshot carries, `catchUp` returns no error and leaves the
chain as it is; when the height equals that number and a block puller is
created, `catchUp` pulls the block of that number, and writes it to the ledger
and returns no error if the pull returns a block. -/
theorem catchUp_at_height (u : Utils) (o : Oracle) (c : Chain) (snap : Snapshot) (b : Block)
    (hb : u.UnmarshalBlock snap.Data = some b) :
    (b.Number < c.Height → c.catchUp u o snap = (none, c))
    ∧ (b.Number = c.Height → o.createPuller = true →
        (c.catchUp u o snap).2.pullCalls = c.pullCalls ++ [c.Height]
        ∧ ∀ block, o.PullBlock c.Height = some block →
            (c.catchUp u o snap).1 = none
            ∧ (c.catchUp u o snap).2.ledger = c.ledger ++ [catchUpWrite u block]) := by
  refine ⟨fun hlt => catchUp_noop u o c snap b hb hlt, ?_⟩
  intro heq hp
  have h1 : ¬ c.Height > b.Number := by omega
  have hf : b.Number + 1 - c.Height = 1 := by omega
  unfold Chain.catchUp
  rw [hb]
  simp only
  rw [if_neg h1, hp, hf]
  simp only [Bool.not_true, Bool.false_eq_true, if_false, Chain.catchUpLoop]
  cases hpull : o.PullBlock c.Height with
  | none =>
    refine ⟨rfl, ?_⟩
    intro block hx
    cases hx
  | some blk =>
    refine ⟨rfl, ?_⟩
    intro block hx
    cases hx
    exact ⟨rfl, rfl⟩

/-- The new chain, of height 1, and a snapshot taken at block 1: block 1 is pulled. -/
theorem catchUp_at_height_witness :
    demoUtils.UnmarshalBlock snapshot1.Data
        = some { Number := 1, PreviousHash := [], DataHash := [], Data := [[5]] }
    ∧ (1 : Nat) = demoChain.Height ∧ pullOracle.createPuller = true
    ∧ (demoChain.catchUp demoUtils pullOracle snapshot1).2.pullCalls
        = demoChain.pullCalls ++ [demoChain.Height] :=
  ⟨by decide, by decide, by decide,
    ((catchUp_at_height demoUtils pullOracle demoChain snapshot1
      { Number := 1, PreviousHash := [], DataHash := [], Data := [[5]] } (by decide)).2
      (by decide) (by decide)).1⟩

/-- C17: when the height `h` of the ledger is at most the number `n` of the
block that the snapshot carries and a block puller is created, `catchUp` calls
`PullBlock` with `h`, `h + 1`, ... in this order up to the first number whose
pull returns nothing, or up to `n`; it writes each block that a pull returns,
configuration blocks through `WriteConfigBlock` and the others through
`WriteBlock`, before the next pull; it creates one puller and closes it once.
When every pull succeeds it returns nil after `n - h + 1` writes; when the pull
of `k` is the first that returns nothing it returns the error naming `k`, after
`k - h` writes. -/
theorem catchUp_pulls_missing_blocks (u : Utils) (o : Oracle) (c : Chain) (snap : Snapshot)
    (b : Block) (hb : u.UnmarshalBlock snap.Data = some b) (hle : c.Height ≤ b.Number)
    (hp : o.createPuller = true) :
    (c.catchUp u o snap).2
        = { c with
            ledger := c.ledger ++ (pulledNumbers o c.Height (b.Number + 1 - c.Height)).filterMap
              (fun j => (o.PullBlock j).map (catchUpWrite u))
            pullCalls := c.pullCalls
              ++ (List.range' c.Height (b.Number + 1 - c.Height)).take
                  ((pulledNumbers o c.Height (b.Number + 1 - c.Height)).length + 1)
            pullersCreated := c.pullersCreated + 1
            pullersClosed := c.pullersClosed + 1 }
    ∧ ((∀ j, c.Height ≤ j → j ≤ b.Number → (o.PullBlock j).isSome = true) →
        (c.catchUp u o snap).1 = none
        ∧ (c.catchUp u o snap).2.pullCalls
            = c.pullCalls ++ List.range' c.Height (b.Number + 1 - c.Height)
        ∧ (c.catchUp u o snap).2.ledger.length = c.ledger.length + (b.Number - c.Height + 1))
    ∧ (∀ k, c.Height ≤ k → k ≤ b.Number → o.PullBlock k = none →
        (∀ j, c.Height ≤ j → j < k → (o.PullBlock j).isSome = true) →
        (c.catchUp u o snap).1
            = some ("failed to fetch block " ++ toString k ++ " from cluster")
        ∧ (c.catchUp u o snap).2.pullCalls = c.pullCalls ++ List.range' c.Height (k + 1 - c.Height)
        ∧ (c.catchUp u o snap).2.ledger.length = c.ledger.length + (k - c.Height))
    ∧ (∀ (fuel next : Nat) (c0 : Chain) (block : Block), o.PullBlock next = some block →
        Chain.catchUpLoop u o (fuel + 1) next c0
          = Chain.catchUpLoop u o fuel (next + 1)
              { c0 with pullCalls := c0.pullCalls ++ [next]
                        ledger := c0.ledger ++ [catchUpWrite u block] }) := by
  have ht := catchUp_trace u o c snap b hb hle hp
  have hlen := filterMap_map_length o.PullBlock (catchUpWrite u)
    (pulledNumbers o c.Height (b.Number + 1 - c.Height))
    (pulledNumbers_isSome o c.Height (b.Number + 1 - c.Height))
  refine ⟨by rw [ht], ?_, ?_, fun fuel next c0 block h => catchUpLoop_step u o fuel next c0 block h⟩
  · intro hall
    have hok := pulledNumbers_all o c.Height (b.Number + 1 - c.Height)
      (fun j h1 h2 => hall j h1 (by omega))
    rw [ht]
    simp only
    rw [List.length_append, hlen, hok, List.length_range', if_pos rfl]
    refine ⟨rfl, ?_, by omega⟩
    rw [List.take_of_length_le (by rw [List.length_range']; omega)]
  · intro k h1 h2 hk hall
    have hok := pulledNumbers_fail o (b.Number + 1 - c.Height) c.Height k h1 (by omega) hk hall
    rw [ht]
    simp only
    rw [List.length_append, hlen, hok, List.length_range']
    have hne : ¬ (k - c.Height = b.Number + 1 - c.Height) := by omega
    rw [if_neg hne]
    have hk' : c.Height + (k - c.Height) = k := by omega
    rw [hk']
    refine ⟨rfl, ?_, rfl⟩
    rw [take_range_le _ _ _ (by omega)]
    have hmin : k - c.Height + 1 = k + 1 - c.Height := by omega
    rw [hmin]

/-- The new chain, of height 1, and a snapshot taken at block 3, with a puller
that finds blocks 1 and 2 only: the error names block 3 after two writes. -/
theorem catchUp_pulls_missing_blocks_witness :
    demoUtils.UnmarshalBlock snapshot3.Data
        = some { Number := 3, PreviousHash := [], DataHash := [], Data := [[5]] }
    ∧ demoChain.Height ≤ 3 ∧ pullOracle.createPuller = true
    ∧ (demoChain.catchUp demoUtils pullOracle snapshot3).1
        = some ("failed to fetch block " ++ toString 3 ++ " from cluster")
    ∧ (demoChain.catchUp demoUtils pullOracle snapshot3).2.pullCalls
        = demoChain.pullCalls ++ List.range' demoChain.Height (3 + 1 - demoChain.Height)
    ∧ (demoChain.catchUp demoUtils pullOracle snapshot3).2.ledger.length
        = demoChain.ledger.length + (3 - demoChain.Height) :=
  ⟨by decide, by decide, by decide,
    (catchUp_pulls_missing_blocks demoUtils pullOracle demoChain snapshot3
      { Number := 3, PreviousHash := [], DataHash := [], Data := [[5]] } (by decide)
      (by decide) (by decide)).2.2.1 3 (by decide) (by decide) (by decide) (by decide)⟩

/-! ## `ReadRaftMetadata`, `Configure` and the batches of `Ordered` -/

/-- C18: when the block metadata is present and not empty, `ReadRaftMetadata`
returns the metadata decoded from it, and fails when it cannot be decoded;
otherwise, for a configuration that lists `n` consenters, it returns the mapping
that assigns the IDs 1, 2, ..., `n` to the consenters in the order of the
configuration, with the next consenter ID `n + 1`. -/
theorem ReadRaftMetadata_spec (Unmarshal : Bytes → Except String RaftMetadata)
    (configMetadata : Metadata) :
    (∀ (bm : common.Metadata) (decoded : RaftMetadata), bm.Value ≠ [] →
        Unmarshal bm.Value = Except.ok decoded →
        ReadRaftMetadata Unmarshal (some bm) configMetadata = Except.ok decoded)
    ∧ (∀ (bm : common.Metadata) (err : String), bm.Value ≠ [] →
        Unmarshal bm.Value = Except.error err →
        ReadRaftMetadata Unmarshal (some bm) configMetadata
          = Except.error ("failed to unmarshal block's metadata: " ++ err))
    ∧ (∀ (blockMetadata : Option common.Metadata),
        (∀ bm, blockMetadata = some bm → bm.Value = []) →
        ReadRaftMetadata Unmarshal blockMetadata configMetadata
          = Except.ok
              { Consenters :=
                  (List.range' 1 configMetadata.Consenters.length).zip configMetadata.Consenters
                NextConsenterId := configMetadata.Consenters.length + 1
                RaftIndex := 0 }) := by
  have hfold := readConsenters_fold configMetadata.Consenters
    { Consenters := [], NextConsenterId := 1, RaftIndex := 0 } (by simp)
  simp only [List.nil_append] at hfold
  refine ⟨?_, ?_, ?_⟩
  · intro bm decoded hne hd
    have hlen : (bm.Value.length != 0) = true := by
      simpa using hne
    simp only [ReadRaftMetadata, hlen, if_true, hd]
  · intro bm err hne hd
    have hlen : (bm.Value.length != 0) = true := by
      simpa using hne
    simp only [ReadRaftMetadata, hlen, if_true, hd]
  · intro blockMetadata hbm
    have hadd : 1 + configMetadata.Consenters.length = configMetadata.Consenters.length + 1 :=
      Nat.add_comm _ _
    cases blockMetadata with
    | none =>
      simp only [ReadRaftMetadata]
      rw [hfold, hadd]
    | some bm =>
      have hv := hbm bm rfl
      simp only [ReadRaftMetadata, hv, List.length_nil, bne_self_eq_false, Bool.false_eq_true,
        if_false]
      rw [hfold, hadd]

/-- Block metadata of one byte, and no block metadata with two consenters in
the configuration. -/
theorem ReadRaftMetadata_spec_witness :
    ReadRaftMetadata demoUnmarshal (some { Value := [4], Signatures := [] })
        { Consenters := [] }
      = Except.ok { Consenters := [], NextConsenterId := 4, RaftIndex := 0 }
    ∧ ReadRaftMetadata demoUnmarshal none
        { Consenters :=
            [{ Host := "a", Port := 7, ClientTlsCert := [], ServerTlsCert := [] },
             { Host := "b", Port := 8, ClientTlsCert := [], ServerTlsCert := [] }] }
      = Except.ok
          { Consenters :=
              (List.range' 1 2).zip
                [{ Host := "a", Port := 7, ClientTlsCert := [], ServerTlsCert := [] },
                 { Host := "b", Port := 8, ClientTlsCert := [], ServerTlsCert := [] }]
            NextConsenterId := 2 + 1
            RaftIndex := 0 } :=
  ⟨(ReadRaftMetadata_spec demoUnmarshal { Consenters := [] }).1
      { Value := [4], Signatures := [] }
      { Consenters := [], NextConsenterId := 4, RaftIndex := 0 } (by decide) rfl,
    (ReadRaftMetadata_spec demoUnmarshal
      { Consenters :=
          [{ Host := "a", Port := 7, ClientTlsCert := [], ServerTlsCert := [] },
           { Host := "b", Port := 8, ClientTlsCert := [], ServerTlsCert := [] }] }).2.2 none
      (fun bm hbm => by cases hbm)⟩

/-- C19, as stated, fails: on a chain on which a ConfChange is in progress, a
CONFIG envelope that adds one consenter is not rejected by `Configure`, which
goes on to call `Submit`. -/
theorem Configure_accepts_during_confChange :
    busyChain.confChangeInProgress
        = some { Typ := ConfChangeType.ConfChangeAddNode, NodeID := 2 }
    ∧ (demoUtils.ComputeMembershipChanges busyChain.opts.RaftMetadata.Consenters
          [{ Host := "orderer", Port := 7, ClientTlsCert := [], ServerTlsCert := [] }]).TotalChanges
        = 1
    ∧ Chain.Configure demoUtils demoConfigUtils busyChain singleEnvelope 0
        = some (ConfigureResult.submitted
            { LastValidationSeq := 0, Payload := singleEnvelope, Channel := "ch" }) := by
  decide

/-- C19, amended: `Configure` does not look at `confChangeInProgress` or
`configInflight`.  A CONFIG envelope whose ConsensusType value differs from the
consenters in the metadata of the chain by at most one addition or removal is
passed to `Submit`, also while a ConfChange is in progress; and whatever the
envelope, the result of `Configure` is the same with and without a ConfChange in
progress. -/
theorem Configure_ignores_confChange_in_progress (u : Utils) (k : ConfigUtils) (c : Chain)
    (env : Envelope) (configSeq : Nat) (payload : Payload) (header : Header)
    (configUpdate : ConfigUpdate) (writeSet ordererConfigGroup : ConfigGroup)
    (val : ConfigValue) (updatedMetadata : Metadata)
    (h1 : k.UnmarshalPayload env.Payload = Except.ok payload)
    (h2 : payload.Header = some header)
    (h3 : k.UnmarshalChannelHeader header.ChannelHeader = Except.ok HeaderType_CONFIG)
    (h4 : k.UnmarshalConfigUpdateFromPayload payload = Except.ok configUpdate)
    (h5 : configUpdate.WriteSet = some writeSet)
    (h6 : writeSet.Groups.lookup "Orderer" = some ordererConfigGroup)
    (h7 : ordererConfigGroup.Values.lookup "ConsensusType" = some val)
    (h8 : k.MetadataFromConfigValue val = Except.ok updatedMetadata)
    (h9 : (u.ComputeMembershipChanges c.opts.RaftMetadata.Consenters
                updatedMetadata.Consenters).TotalChanges ≤ 1) :
    (∀ (cc : Option ConfChange) (b : Bool),
      Chain.Configure u k { c with confChangeInProgress := cc, configInflight := b } env configSeq
        = some (ConfigureResult.submitted
            { LastValidationSeq := configSeq, Payload := env, Channel := c.channelID }))
    ∧ (∀ (cc : Option ConfChange) (b : Bool) (other : Envelope),
      Chain.Configure u k { c with confChangeInProgress := cc, configInflight := b } other
          configSeq
        = Chain.Configure u k c other configSeq) := by
  refine ⟨fun cc b => ?_, fun cc b other => Configure_congr u k c other configSeq cc b⟩
  rw [Configure_congr]
  exact Configure_single u k c env configSeq payload header configUpdate writeSet
    ordererConfigGroup val updatedMetadata h1 h2 h3 h4 h5 h6 h7 h8 h9

/-- A CONFIG envelope that adds consenter 7 to a chain without consenters, with
the addition of a node in progress. -/
theorem Configure_ignores_confChange_in_progress_witness :
    (demoUtils.ComputeMembershipChanges demoChain.opts.RaftMetadata.Consenters
          [{ Host := "orderer", Port := 7, ClientTlsCert := [], ServerTlsCert := [] }]).TotalChanges
        ≤ 1
    ∧ Chain.Configure demoUtils demoConfigUtils
        { demoChain with
          confChangeInProgress := some { Typ := ConfChangeType.ConfChangeAddNode, NodeID := 2 }
          configInflight := true }
        singleEnvelope 0
      = some (ConfigureResult.submitted
          { LastValidationSeq := 0, Payload := singleEnvelope, Channel := demoChain.channelID }) :=
  ⟨by decide,
    (Configure_ignores_confChange_in_progress demoUtils demoConfigUtils demoChain singleEnvelope 0
      { Header := some { ChannelHeader := [1], SignatureHeader := [] }, Data := [7] }
      { ChannelHeader := [1], SignatureHeader := [] }
      { WriteSet := some (ConfigGroup.mk
          [("Orderer", ConfigGroup.mk [] [("ConsensusType", { Value := [7] })])] []) }
      (ConfigGroup.mk [("Orderer", ConfigGroup.mk [] [("ConsensusType", { Value := [7] })])] [])
      (ConfigGroup.mk [] [("ConsensusType", { Value := [7] })])
      { Value := [7] }
      { Consenters :=
          [{ Host := "orderer", Port := 7, ClientTlsCert := [], ServerTlsCert := [] }] }
      rfl rfl rfl rfl rfl rfl rfl rfl (by decide)).1
      (some { Typ := ConfChangeType.ConfChangeAddNode, NodeID := 2 }) true⟩

/-- C20: in every state of the receiver reached from a new receiver under a
fixed configuration, `Ordered` returns at most two batches for every envelope;
it returns two batches only when the size of the envelope exceeds
`PreferredMaxBytes`; it never returns no batch with `pending = false`, and never
two batches with `pending = true`. -/
theorem Ordered_batch_counts (cfg : BatchSize) (msgs : List Envelope) (msg : Envelope) :
    (((receiver.orderedAll cfg NewReceiverImpl msgs).2.Ordered cfg msg).1.1.length ≤ 2)
    ∧ (((receiver.orderedAll cfg NewReceiverImpl msgs).2.Ordered cfg msg).1.1.length = 2 →
        cfg.PreferredMaxBytes < messageSizeBytes msg
        ∧ cfg.PreferredMaxBytes < msg.Payload.length + msg.Signature.length)
    ∧ ¬ (((receiver.orderedAll cfg NewReceiverImpl msgs).2.Ordered cfg msg).1.1.length = 0
          ∧ ((receiver.orderedAll cfg NewReceiverImpl msgs).2.Ordered cfg msg).1.2 = false)
    ∧ ¬ (((receiver.orderedAll cfg NewReceiverImpl msgs).2.Ordered cfg msg).1.1.length = 2
          ∧ ((receiver.orderedAll cfg NewReceiverImpl msgs).2.Ordered cfg msg).1.2 = true) := by
  have hinv := orderedAll_cutInv cfg msgs NewReceiverImpl (NewReceiverImpl_cutInv cfg)
  have hb := Ordered_batches cfg (receiver.orderedAll cfg NewReceiverImpl msgs).2 msg
  refine ⟨hb.1, ?_, ?_, ?_⟩
  · intro h2
    have := Ordered_two_batches cfg _ msg hinv h2
    exact ⟨this, lt_of_lt_of_le this (messageSizeBytes_le msg)⟩
  · rintro ⟨h0, hp⟩
    rw [Ordered_none_pending cfg _ msg h0] at hp
    cases hp
  · rintro ⟨h2, hp⟩
    rw [hb.2 h2] at hp
    cases hp

/-! ## The block cutter: reachable states and the reference procedure -/

theorem Reachable_empty_size (r : receiver) (h : r.Reachable) :
    r.pendingBatch = [] → r.pendingBatchSizeBytes = 0 := by
  induction h with
  | fresh => intro _; rfl
  | ordered cfg r msg _ ih =>
    unfold receiver.Ordered
    simp only [receiver.Cut]
    split_ifs <;> simp_all
  | cut r _ _ => intro _; rfl

theorem Ordered_nonempty (cfg : BatchSize) (r : receiver) (msg : Envelope)
    (h0 : r.pendingBatch = [] → r.pendingBatchSizeBytes = 0) :
    ∀ b ∈ (r.Ordered cfg msg).1.1, b ≠ [] := by
  have hlt := messageSizeBytes_lt msg
  unfold receiver.Ordered
  simp only [receiver.Cut]
  by_cases hp : r.pendingBatch = []
  · have hz := h0 hp
    by_cases h1 : cfg.PreferredMaxBytes < messageSizeBytes msg
    · simp [h1, hp]
    · have h2 : ¬ cfg.PreferredMaxBytes < (r.pendingBatchSizeBytes + messageSizeBytes msg) % 2 ^ 32 := by
        rw [hz, Nat.zero_add, Nat.mod_eq_of_lt hlt]; exact h1
      simp only [gt_iff_lt, h1, if_false, h2, decide_False, Bool.false_eq_true, List.nil_append]
      split_ifs <;> simp
  · split_ifs <;> simp_all

theorem overflow_cut_pending (cfg : BatchSize) (r : receiver) (msg : Envelope)
    (h0 : r.pendingBatch = [] → r.pendingBatchSizeBytes = 0)
    (h1 : messageSizeBytes msg ≤ cfg.PreferredMaxBytes)
    (h2 : (r.pendingBatchSizeBytes + messageSizeBytes msg) % 2 ^ 32 > cfg.PreferredMaxBytes) :
    r.pendingBatch ≠ [] := by
  intro hp
  have hlt := messageSizeBytes_lt msg
  rw [h0 hp, Nat.zero_add, Nat.mod_eq_of_lt hlt] at h2
  omega

theorem Ordered_eq_reference (cfg : BatchSize) (r : receiver) (msg : Envelope)
    (h0 : r.pendingBatch = [] → r.pendingBatchSizeBytes = 0)
    (h1 : r.pendingBatchSizeBytes + envelopeSize msg < 2 ^ 32)
    (h2 : r.pendingBatch.length + 1 < 2 ^ 32) :
    r.Ordered cfg msg = Ordered_reference cfg r msg := by
  have hs : messageSizeBytes msg = envelopeSize msg := by
    unfold messageSizeBytes envelopeSize
    unfold envelopeSize at h1
    exact Nat.mod_eq_of_lt (by omega)
  unfold receiver.Ordered Ordered_reference
  simp only [receiver.Cut, hs, Nat.mod_eq_of_lt h1]
  by_cases hbig : envelopeSize msg > cfg.PreferredMaxBytes
  · simp only [hbig, if_true]
    by_cases hp : r.pendingBatch = []
    · have hz := h0 hp
      cases r with
      | mk pb sz =>
        simp only at hp hz
        subst hp hz
        simp
    · have hpos : r.pendingBatch.length > 0 := List.length_pos.mpr hp
      simp only [hpos, if_true]
  · simp only [hbig, if_false]
    by_cases hov : r.pendingBatchSizeBytes + envelopeSize msg > cfg.PreferredMaxBytes
    · have hlt : envelopeSize msg < 2 ^ 32 := by omega
      simp only [hov, decide_True, if_true, List.nil_append, List.length_singleton,
        Nat.zero_add, Nat.mod_eq_of_lt hlt]
      have h1' : (1 : Nat) % 2 ^ 32 = 1 := by norm_num
      rw [h1']
    · simp only [hov, decide_False, Bool.false_eq_true, if_false, List.nil_append,
        List.length_append, List.length_singleton, Nat.mod_eq_of_lt h2]
      rw [Nat.mod_eq_of_lt h1]

theorem envelopeOf_size (n : Nat) : envelopeSize (envelopeOf n) = n := by
  simp [envelopeSize, envelopeOf]

theorem scenario_count :
    NewReceiverImpl.Ordered countConfig (envelopeOf 100)
      = (([], true), { pendingBatch := [envelopeOf 100], pendingBatchSizeBytes := 100 })
    ∧ receiver.Ordered countConfig
        { pendingBatch := [envelopeOf 100], pendingBatchSizeBytes := 100 } (envelopeOf 100)
      = (([[envelopeOf 100, envelopeOf 100]], false), NewReceiverImpl)
    ∧ (receiver.orderedAll countConfig NewReceiverImpl
        [envelopeOf 100, envelopeOf 100, envelopeOf 100])
      = ([[envelopeOf 100, envelopeOf 100]],
          { pendingBatch := [envelopeOf 100], pendingBatchSizeBytes := 100 }) := by
  decide

theorem scenario_overflow :
    receiver.Ordered bytesConfig
        { pendingBatch := [envelopeOf 60], pendingBatchSizeBytes := 60 } (envelopeOf 80)
      = (([[envelopeOf 60]], true),
          { pendingBatch := [envelopeOf 80], pendingBatchSizeBytes := 80 }) := by
  decide

theorem messageSizeBytes_envelopeOf (n : Nat) (h : n < 2 ^ 32) :
    messageSizeBytes (envelopeOf n) = n := by
  simp only [messageSizeBytes, envelopeOf, List.length_replicate, List.length_nil, Nat.add_zero]
  exact Nat.mod_eq_of_lt h

theorem Ordered_oversized (cfg : BatchSize) (pb : List Envelope) (sz : Nat) (msg : Envelope)
    (h1 : cfg.PreferredMaxBytes < messageSizeBytes msg) (h2 : pb ≠ []) :
    receiver.Ordered cfg { pendingBatch := pb, pendingBatchSizeBytes := sz } msg
      = (([pb, [msg]], false), { pendingBatch := [], pendingBatchSizeBytes := 0 }) := by
  have hpos : pb.length > 0 := List.length_pos.mpr h2
  unfold receiver.Ordered
  simp only [gt_iff_lt, h1, if_true, receiver.Cut]
  rw [if_pos hpos]

theorem scenario_oversized :
    receiver.Ordered bytesConfig
        { pendingBatch := [envelopeOf 50], pendingBatchSizeBytes := 50 } (envelopeOf 150)
      = (([[envelopeOf 50], [envelopeOf 150]], false), NewReceiverImpl) :=
  Ordered_oversized bytesConfig [envelopeOf 50] 50 (envelopeOf 150)
    (by rw [messageSizeBytes_envelopeOf 150 (by norm_num)]; decide) (by simp)

theorem big_divergence (e : Envelope) (h : e.Payload.length + e.Signature.length = 1500000000) :
    receiver.Ordered bigConfig { pendingBatch := [e, e], pendingBatchSizeBytes := 3000000000 } e
      = (([[e, e, e]], false), { pendingBatch := [], pendingBatchSizeBytes := 0 })
    ∧ Ordered_reference bigConfig
        { pendingBatch := [e, e], pendingBatchSizeBytes := 3000000000 } e
      = (([[e, e]], true), { pendingBatch := [e], pendingBatchSizeBytes := 1500000000 }) := by
  have hs : messageSizeBytes e = 1500000000 := by
    unfold messageSizeBytes; rw [h]; norm_num
  have hP : bigConfig.PreferredMaxBytes = 3000000000 := rfl
  have hM : bigConfig.MaxMessageCount = 3 := rfl
  constructor
  · exact Ordered_count_cut bigConfig [e, e] 3000000000 1500000000 205032704 e hs
      (by norm_num) (by rw [hP]; norm_num) (by rw [hP]; norm_num) (by rw [hM]; norm_num)
  · have he : envelopeSize e = 1500000000 := h
    unfold Ordered_reference
    simp only [he, hP, hM]
    norm_num

/-! ## The applied index after `Chain.apply` -/

theorem applyLoop_maxIndex (u : Utils) (o : Oracle) (ents : List Entry) :
    ∀ (l l' : applyLocals) (i : Nat), Chain.applyLoop u o l i ents = some l' →
      l'.c.appliedIndex = maxAdvancedIndex u l.c.appliedIndex ents := by
  induction ents with
  | nil =>
    intro l l' i h
    simp only [Chain.applyLoop, Option.some.injEq] at h
    subst h
    rfl
  | cons ent rest ih =>
    intro l l' i h
    simp only [Chain.applyLoop] at h
    split at h
    · cases h
    · rename_i l1 h1
      have hstep := (applyEntry_spec u o l l1 i ent h1).2.1
      rw [ih l1 l' (i + 1) h, hstep]
      rfl

theorem apply_maxIndex (u : Utils) (o : Oracle) (c c' : Chain) (ents : List Entry)
    (h : Chain.apply u o c ents = some c') :
    c'.appliedIndex = maxAdvancedIndex u c.appliedIndex ents := by
  unfold Chain.apply at h
  split at h
  · cases h; rfl
  · rename_i first rest
    split at h
    · cases h
    · split at h
      · cases h
      · rename_i l hl
        have := applyLoop_maxIndex u o _ _ l 0 hl
        split at h
        · cases h; exact this
        · split at h
          · cases h; exact this
          · cases h; exact this

theorem maxAdvancedIndex_le (u : Utils) (ents : List Entry) :
    ∀ low : Nat, low ≤ maxAdvancedIndex u low ents
      ∧ ∀ e ∈ ents, e.advances u = true → e.Index ≤ maxAdvancedIndex u low ents := by
  induction ents with
  | nil => intro low; exact ⟨le_refl _, by simp⟩
  | cons ent rest ih =>
    intro low
    have hrec := ih (if ent.advances u then max low ent.Index else low)
    have hunf : maxAdvancedIndex u low (ent :: rest)
        = maxAdvancedIndex u (if ent.advances u then max low ent.Index else low) rest := rfl
    rw [hunf]
    refine ⟨?_, ?_⟩
    · refine le_trans ?_ hrec.1
      split
      · exact le_max_left _ _
      · exact le_refl _
    · intro e he hadv
      simp only [List.mem_cons] at he
      rcases he with he | he
      · subst he
        refine le_trans ?_ hrec.1
        rw [if_pos hadv]
        exact le_max_right _ _
      · exact hrec.2 e he hadv

theorem maxAdvancedIndex_all (u : Utils) (ents : List Entry)
    (hall : ∀ e ∈ ents, e.advances u = true) :
    ∀ low : Nat, maxAdvancedIndex u low ents = (ents.map (fun e => e.Index)).foldl max low := by
  induction ents with
  | nil => intro low; rfl
  | cons ent rest ih =>
    intro low
    have hadv := hall ent (List.mem_cons_self ent rest)
    have hunf : maxAdvancedIndex u low (ent :: rest)
        = maxAdvancedIndex u (if ent.advances u then max low ent.Index else low) rest := rfl
    rw [hunf, if_pos hadv, ih (fun e he => hall e (List.mem_cons_of_mem ent he))]
    rfl

/-! ## The channel `errorC` along the event loop -/

theorem becomeLeader_errorC (u : Utils) (o : Oracle) (st st' : serveRequestState)
    (h : st.becomeLeader u o = some st') : st'.c.errorC = st.c.errorC := by
  unfold serveRequestState.becomeLeader at h
  simp only at h
  split at h
  · cases h
  · cases h; rfl
  · cases h; rfl

theorem applyCaseSoft_errorC (u : Utils) (o : Oracle) (st st' : serveRequestState)
    (appSoft : SoftState) (hinv : st.c.errorC = true ↔
      (isCandidate st.soft.RaftState = true ∨ st.soft.Lead = raft.None))
    (h : st.applyCaseSoft u o appSoft = some st') :
    st'.soft = { Lead := appSoft.Lead, RaftState := appSoft.RaftState }
    ∧ (st'.c.errorC = true ↔
        (isCandidate st'.soft.RaftState = true ∨ st'.soft.Lead = raft.None)) := by
  unfold serveRequestState.applyCaseSoft at h
  simp only at h
  split at h
  · cases h
  · rename_i st2 h2
    cases h
    have he : st2.c.errorC = st.c.errorC := by
      split at h2
      · split at h2
        · cases h2
        · rename_i st1 h1
          cases h2
          have h1e : st1.c.errorC = st.c.errorC := by
            split at h1
            · exact becomeLeader_errorC u o st st1 h1
            · cases h1; rfl
          split
          · exact h1e
          · exact h1e
      · cases h2; rfl
    refine ⟨rfl, ?_⟩
    simp only
    rw [he]
    by_cases hnew : isCandidate appSoft.RaftState = true ∨ appSoft.Lead = raft.None
    · have hb : (isCandidate appSoft.RaftState || appSoft.Lead == raft.None) = true := by
        rcases hnew with hx | hx
        · simp [hx]
        · simp [hx]
      rw [hb]
      simp only [if_true, true_iff]
      exact hnew
    · have hb : (isCandidate appSoft.RaftState || appSoft.Lead == raft.None) = false := by
        simp only [not_or, Bool.not_eq_true] at hnew
        simp [hnew.1, hnew.2]
      rw [hb]
      simp only [Bool.false_eq_true, if_false]
      simp only [not_or, Bool.not_eq_true] at hnew
      constructor
      · intro hx
        exfalso
        split at hx
        · cases hx
        · rename_i hcond
          simp only [Bool.or_eq_true, Bool.and_eq_true, beq_iff_eq, bne_iff_ne, ne_eq,
            Bool.not_eq_true', not_or, not_and, Bool.not_eq_false] at hcond
          rcases hinv.mp hx with hc | hl
          · have := hcond.2 hc
            rw [hnew.1] at this
            cases this
          · exact hcond.1 hl hnew.2
      · intro hx
        rcases hx with hx | hx
        · rw [hnew.1] at hx; cases hx
        · exact absurd hx hnew.2

theorem applyCaseResume_errorC (u : Utils) (o : Oracle) (st st' : serveRequestState)
    (h : st.applyCaseResume u o = some st') : st'.c.errorC = st.c.errorC := by
  unfold serveRequestState.applyCaseResume at h
  split at h
  · simp only at h
    split at h
    · cases h; rfl
    · split at h
      · cases h
      · cases h; rfl
  · split at h
    · cases h; rfl
    · split at h
      · cases h; rfl
      · cases h; rfl

theorem step_errorInv (u : Utils) (o : Oracle) (st st' : serveRequestState) (ev : Event)
    (hinv : st.errorInv) (h : st.step u o ev = some st') : st'.errorInv := by
  by_cases hret : st.returned = true
  · have : st' = st := by
      cases ev <;> simp [serveRequestState.step, hret] at h <;> exact h.symm
    rw [this]; exact hinv
  have hret' : st.returned = false := by simpa using hret
  have hI := hinv hret'
  cases ev with
  | submitC s =>
    simp only [serveRequestState.step] at h
    split at h
    · cases h; exact hinv
    · unfold serveRequestState.submitCase at h
      split at h
      · cases h; exact hinv
      · split at h
        · cases h; exact fun _ => hI
        · simp only at h
          split at h
          · cases h; exact fun _ => hI
          · split at h
            · cases h
            · split at h
              · cases h
              · rename_i c2 bc2 hprop
                cases h
                obtain ⟨ds, n, f, e1, _, _⟩ := propose_spec u o _ _ _ _ _ hprop
                intro _
                simp only
                rw [e1]
                exact hI
  | applyC app =>
    simp only [serveRequestState.step, hret', Bool.false_eq_true, if_false] at h
    unfold serveRequestState.applyCase at h
    simp only at h
    split at h
    · cases h
    · rename_i st1 h1
      split at h
      · cases h
      · rename_i c2 h2
        obtain ⟨fr, _⟩ := apply_spec u o st1.c c2 _ h2
        have f6 := (applyFrame_fields _ _ fr).2.2.2.2.2
        have r7 := (applyCaseResume_ledger u o _ st' h).2.2.2.2.2.2.1
        have re := applyCaseResume_errorC u o _ st' h
        simp only at r7 re
        have h1I : st1.c.errorC = true ↔
            (isCandidate st1.soft.RaftState = true ∨ st1.soft.Lead = raft.None) := by
          split at h1
          · cases h1; exact hI
          · exact (applyCaseSoft_errorC u o st st1 _ hI h1).2
        intro _
        rw [re, f6, r7]
        exact h1I
  | timer =>
    simp only [serveRequestState.step] at h
    split at h
    · cases h; exact hinv
    · unfold serveRequestState.timerCase at h
      simp only at h
      split at h
      · cases h; exact fun _ => hI
      · split at h
        · cases h
        · rename_i c2 bc2 hprop
          cases h
          obtain ⟨ds, n, f, e1, _, _⟩ := propose_spec u o _ _ _ _ _ hprop
          intro _
          simp only
          rw [e1]
          exact hI
  | snapC sn =>
    simp only [serveRequestState.step] at h
    split at h
    · cases h; exact hinv
    · unfold serveRequestState.snapCase at h
      split at h
      · cases h; exact hinv
      · split at h
        · cases h
        · rename_i b hb
          cases h
          obtain ⟨ws, ps, k, e1, _⟩ := catchUp_spec u o
            { st.c with lastSnapBlockNum := b.Number, confState := sn.ConfState,
                        appliedIndex := sn.Index } sn
          intro _
          simp only
          rw [e1]
          exact hI
  | doneC =>
    simp only [serveRequestState.step, hret', Bool.false_eq_true, if_false,
      Option.some.injEq] at h
    subst h
    intro hx
    cases hx

theorem run_errorInv (u : Utils) (evs : List (Oracle × Event)) :
    ∀ (st st' : serveRequestState), st.errorInv →
      serveRequestState.run u st evs = some st' → st'.errorInv := by
  induction evs with
  | nil =>
    intro st st' hinv h
    simp only [serveRequestState.run, Option.some.injEq] at h
    subst h
    exact hinv
  | cons ev rest ih =>
    intro st st' hinv h
    obtain ⟨o, e⟩ := ev
    simp only [serveRequestState.run] at h
    split at h
    · cases h
    · rename_i st1 h1
      exact ih st1 st' (step_errorInv u o st st1 e hinv h1) h

theorem two_big (e : Envelope) (h : e.Payload.length + e.Signature.length = 1500000000) :
    (receiver.orderedAll bigConfig NewReceiverImpl [e, e]).2
      = { pendingBatch := [e, e], pendingBatchSizeBytes := 3000000000 } := by
  have hs : messageSizeBytes e = 1500000000 := by
    unfold messageSizeBytes; rw [h]; norm_num
  have hP : bigConfig.PreferredMaxBytes = 3000000000 := rfl
  have hM : bigConfig.MaxMessageCount = 3 := rfl
  have s1 := Ordered_enqueue bigConfig [] 0 1500000000 1500000000 e hs
    (by norm_num) (by rw [hP]; norm_num) (by rw [hP]; norm_num) (by rw [hM]; norm_num)
  have s2 := Ordered_enqueue bigConfig [e] 1500000000 1500000000 3000000000 e hs
    (by norm_num) (by rw [hP]; norm_num) (by rw [hP]) (by rw [hM]; norm_num)
  unfold NewReceiverImpl
  simp only [receiver.orderedAll, s1, List.nil_append, s2, List.cons_append]

theorem bigPending_reached :
    (receiver.orderedAll bigConfig NewReceiverImpl [bigEnvelope, bigEnvelope]).2 = bigPending :=
  two_big bigEnvelope bigEnvelope_bytes

/-! ## The block cutter against its specification -/

/-- C21: `Ordered` equals the reference procedure of the specification in every
state in which an empty pending batch has size zero and the 32-bit sizes and
counts do not wrap around, and the three scenarios of the specification come
out as stated; but after two envelopes of 1,500,000,000 bytes under a limit of
3,000,000,000 bytes, a third such envelope is added to the pending batch by
`Ordered`, whose 32-bit sum wraps around, where the reference procedure emits
the pending batch first. -/
theorem Ordered_against_reference :
    (∀ (cfg : BatchSize) (r : receiver) (msg : Envelope),
      (r.pendingBatch = [] → r.pendingBatchSizeBytes = 0) →
      r.pendingBatchSizeBytes + envelopeSize msg < 2 ^ 32 →
      r.pendingBatch.length + 1 < 2 ^ 32 →
      r.Ordered cfg msg = Ordered_reference cfg r msg)
    ∧ (receiver.orderedAll countConfig NewReceiverImpl
          [envelopeOf 100, envelopeOf 100, envelopeOf 100]
        = ([[envelopeOf 100, envelopeOf 100]],
            { pendingBatch := [envelopeOf 100], pendingBatchSizeBytes := 100 }))
    ∧ (receiver.Ordered bytesConfig
          { pendingBatch := [envelopeOf 60], pendingBatchSizeBytes := 60 } (envelopeOf 80)
        = (([[envelopeOf 60]], true),
            { pendingBatch := [envelopeOf 80], pendingBatchSizeBytes := 80 }))
    ∧ (receiver.Ordered bytesConfig
          { pendingBatch := [envelopeOf 50], pendingBatchSizeBytes := 50 } (envelopeOf 150)
        = (([[envelopeOf 50], [envelopeOf 150]], false), NewReceiverImpl))
    ∧ (receiver.orderedAll bigConfig NewReceiverImpl [bigEnvelope, bigEnvelope]).2 = bigPending
    ∧ bigPending.Ordered bigConfig bigEnvelope
        = (([[bigEnvelope, bigEnvelope, bigEnvelope]], false),
            { pendingBatch := [], pendingBatchSizeBytes := 0 })
    ∧ Ordered_reference bigConfig bigPending bigEnvelope
        = (([[bigEnvelope, bigEnvelope]], true),
            { pendingBatch := [bigEnvelope], pendingBatchSizeBytes := 1500000000 }) :=
  ⟨fun cfg r msg h0 h1 h2 => Ordered_eq_reference cfg r msg h0 h1 h2,
    scenario_count.2.2, scenario_overflow, scenario_oversized, bigPending_reached,
    (big_divergence bigEnvelope bigEnvelope_bytes).1,
    (big_divergence bigEnvelope bigEnvelope_bytes).2⟩

/-- C22: `Cut` returns the pending batch and leaves the receiver with no
pending envelope and a pending size of zero; on a receiver, reached from a new
one, with nothing pending it returns the empty batch and leaves the state as it
is; and a second `Cut` returns the empty batch and leaves the state of the
first. -/
theorem Cut_returns_pending (r : receiver) :
    (r.Cut).1 = r.pendingBatch
    ∧ (r.Cut).2 = { pendingBatch := [], pendingBatchSizeBytes := 0 }
    ∧ (r.Reachable → r.pendingBatch = [] → r.Cut = ([], r))
    ∧ (r.Cut).2.Cut = ([], (r.Cut).2) := by
  refine ⟨rfl, rfl, ?_, rfl⟩
  intro hr hp
  have hz := Reachable_empty_size r hr hp
  cases r with
  | mk pb sz =>
    simp only at hp hz
    subst hp hz
    rfl

/-- A receiver that holds one envelope, and a new receiver. -/
theorem Cut_returns_pending_witness :
    ({ pendingBatch := [smallEnvelope], pendingBatchSizeBytes := 4 } : receiver).Cut
        = ([smallEnvelope], NewReceiverImpl)
    ∧ NewReceiverImpl.Cut = ([], NewReceiverImpl) :=
  ⟨rfl,
    (Cut_returns_pending NewReceiverImpl).2.2.1 receiver.Reachable.fresh rfl⟩

/-- C27: in every state of the receiver reached from a new receiver through
`Ordered` and `Cut`, the pending size is zero whenever the pending batch is
empty; so, whatever the configuration, the cut for a message that would
overflow the batch is taken only with a batch pending, and every batch that
`Ordered` emits is non-empty. -/
theorem Ordered_batches_nonempty (r : receiver) (h : r.Reachable) :
    (r.pendingBatch = [] → r.pendingBatchSizeBytes = 0)
    ∧ (∀ (cfg : BatchSize) (msg : Envelope),
        messageSizeBytes msg ≤ cfg.PreferredMaxBytes →
        (r.pendingBatchSizeBytes + messageSizeBytes msg) % 2 ^ 32 > cfg.PreferredMaxBytes →
        r.pendingBatch ≠ [])
    ∧ (∀ (cfg : BatchSize) (msg : Envelope), ∀ b ∈ (r.Ordered cfg msg).1.1, b ≠ []) := by
  have h0 := Reachable_empty_size r h
  exact ⟨h0, fun cfg msg h1 h2 => overflow_cut_pending cfg r msg h0 h1 h2,
    fun cfg msg => Ordered_nonempty cfg r msg h0⟩

/-- The receiver after one small envelope under a limit of two messages. -/
theorem Ordered_batches_nonempty_witness :
    (NewReceiverImpl.Ordered pairConfig smallEnvelope).2.Reachable
    ∧ ∀ b ∈ ((NewReceiverImpl.Ordered pairConfig smallEnvelope).2.Ordered pairConfig
              smallEnvelope).1.1, b ≠ [] :=
  ⟨receiver.Reachable.ordered pairConfig NewReceiverImpl smallEnvelope receiver.Reachable.fresh,
    (Ordered_batches_nonempty (NewReceiverImpl.Ordered pairConfig smallEnvelope).2
      (receiver.Reachable.ordered pairConfig NewReceiverImpl smallEnvelope
        receiver.Reachable.fresh)).2.2 pairConfig smallEnvelope⟩

/-! ## The token verifier -/

/-- C23: `ProcessTx` accepts the transfer of a single token of quantity 1 into
two outputs of quantities 2^63 and 2^63 + 1: the 64-bit sum of the outputs
wraps around to 1, while their sum as natural numbers is 2^64 + 1. -/
theorem ProcessTx_sum_wraps :
    (demoVerifier.ProcessTx noFaults (ledgerWith 1) "1" alice overflowTransfer).map
        (fun result => result.1) = some none
    ∧ demoVerifier.getOutput noFaults (ledgerWith 1) mintedKey
        = Except.ok { Owner := some { Raw := alice }, Typ := "A", Quantity := 1 }
    ∧ (9223372036854775808 + 9223372036854775809 : Nat) ≠ 1 :=
  ⟨by decide, rfl, by decide⟩

/-- C24: `ProcessTx` accepts the transfer of a token of type `A` and quantity 2
into an output of the empty type followed by an output of type `A`: the empty
type of the first output is taken by `checkOutputs` for no type seen yet. -/
theorem ProcessTx_accepts_mixed_types :
    (demoVerifier.ProcessTx noFaults (ledgerWith 2) "1" alice mixedTransfer).map
        (fun result => result.1) = some none
    ∧ demoVerifier.checkOutputs noFaults (ledgerWith 2)
        [{ Owner := some { Raw := [8] }, Typ := "", Quantity := 1 },
         { Owner := some { Raw := [9] }, Typ := "A", Quantity := 1 }] "1" true
        = Except.ok ("A", 2) :=
  ⟨by decide, rfl⟩

/-- C25: when the checking phase of `ProcessTx` returns an error, `ProcessTx`
returns that error and the state of the ledger is the one it started from. -/
theorem ProcessTx_rejection_writes_nothing (v : Verifier) (f : LedgerFaults)
    (state : LedgerState) (txID : String) (creator : Bytes) (ttx : TokenTransaction)
    (err : TxError) (h : v.checkProcess f state txID creator ttx = some (some err)) :
    v.ProcessTx f state txID creator ttx = some (some err, state) := by
  unfold Verifier.ProcessTx
  rw [h]

/-- A transfer into outputs of two types is rejected, the ledger unchanged. -/
theorem ProcessTx_rejection_writes_nothing_witness :
    demoVerifier.checkProcess noFaults (ledgerWith 2) "1" alice twoTypeTransfer
        = some (some (TxError.InvalidTxError
            "multiple token types ('A', 'B') in output for txID '1'"))
    ∧ demoVerifier.ProcessTx noFaults (ledgerWith 2) "1" alice twoTypeTransfer
        = some (some (TxError.InvalidTxError
            "multiple token types ('A', 'B') in output for txID '1'"), ledgerWith 2) :=
  ⟨by decide,
    ProcessTx_rejection_writes_nothing demoVerifier noFaults (ledgerWith 2) "1" alice
      twoTypeTransfer _ (by decide)⟩

/-- C30: `ProcessTx` fails at run time on a redeem transaction without inputs
and outputs, which passes `checkInputsAndOutputs` and whose first output is
then accessed, and on a redeem transaction with two outputs without owner,
where the owner of the second output is dereferenced. -/
theorem ProcessTx_redeem_fails_at_run_time :
    demoVerifier.checkInputsAndOutputs noFaults [] alice [] [] "1" false = some none
    ∧ demoVerifier.ProcessTx noFaults [] "1" alice emptyRedeem = none
    ∧ demoVerifier.ProcessTx noFaults (ledgerWith 2) "1" alice ownerlessRedeem = none := by
  decide

/-! ## The timer, the applied index and the channel `errorC` -/

/-- C26: a leader whose block cutter is empty receives a normal envelope that
fails revalidation: `ordered` returns `pending = true`, the batch timer is
started, and the block cutter holds nothing. -/
theorem ordered_pending_with_empty_cutter :
    readyState.soft.Lead = readyState.c.raftID
    ∧ readyState.c.cutter = NewReceiverImpl
    ∧ Chain.ordered demoUtils rejectOracle readyState.c.cutter request5
        = some ({ batches := [], pending := true, err := some "bad normal message" },
                NewReceiverImpl)
    ∧ (readyState.step demoUtils rejectOracle (submitEvent env5)).map
        (fun st => (st.ticking, st.c.cutter.pendingBatch)) = some (true, []) := by
  decide

/-- C28: `apply` returns for a list that holds a ConfChange entry of index 1
whose data cannot be decoded, and the applied index is still 0, below the index
of that entry: the `continue` of that case skips the statement that advances
the applied index.  The entry of index 2 that follows in the log is then refused
by the test at the head of `apply`, which fails at run time. -/
theorem apply_skips_undecodable_confChange :
    Chain.apply demoUtils demoOracle demoChain [badConfChangeEntry] = some demoChain
    ∧ demoChain.appliedIndex = 0
    ∧ badConfChangeEntry.Index = 1
    ∧ demoUtils.UnmarshalConfChange badConfChangeEntry.Data = none
    ∧ Chain.apply demoUtils demoOracle demoChain
        [{ Typ := EntryType.EntryNormal, Index := 2, Data := [1, 0, 9] }] = none := by
  decide

/-- What `Chain.apply` does to the applied index: it becomes the maximum of its
previous value and the indices of the entries that reach the end of their
iteration, that is, of all entries but the ConfChange entries whose data cannot
be decoded. -/
theorem apply_applied_index (u : Utils) (o : Oracle) (c c' : Chain) (ents : List Entry)
    (h : Chain.apply u o c ents = some c') :
    c'.appliedIndex = maxAdvancedIndex u c.appliedIndex ents
    ∧ c.appliedIndex ≤ c'.appliedIndex
    ∧ (∀ e ∈ ents, e.advances u = true → e.Index ≤ c'.appliedIndex)
    ∧ ((∀ e ∈ ents, e.advances u = true) →
        c'.appliedIndex = (ents.map (fun e => e.Index)).foldl max c.appliedIndex) := by
  have hm := apply_maxIndex u o c c' ents h
  have hle := maxAdvancedIndex_le u ents c.appliedIndex
  rw [hm]
  exact ⟨rfl, hle.1, hle.2, fun hall => maxAdvancedIndex_all u ents hall c.appliedIndex⟩

/-- C29: the event loop starts with no leader known and the channel `errorC`
closed, and in every state that it reaches from there without having returned,
`errorC` is closed exactly when the soft state is that of a candidate or
pre-candidate or names no leader. -/
theorem errorC_tracks_soft_state (u : Utils) (channelID : String) (ledger : List LedgerWrite)
    (opts : Options) (snapBlkNum : Nat) (st0 st : serveRequestState)
    (evs : List (Oracle × Event))
    (h0 : (NewChain channelID ledger opts snapBlkNum).Start u = some st0)
    (h : serveRequestState.run u st0 evs = some st) (hrun : st.returned = false) :
    (st0.c.errorC = true ∧ st0.soft.Lead = raft.None)
    ∧ (st.c.errorC = true ↔
        (isCandidate st.soft.RaftState = true ∨ st.soft.Lead = raft.None)) := by
  obtain ⟨_, f2, _, _, _, _, _, _, _, _, _, f12, _⟩ := Start_fields u _ st0 h0
  have hl : st0.soft.Lead = raft.None := by rw [f2]; rfl
  have hinv0 : st0.errorInv := fun _ => ⟨fun _ => Or.inr hl, fun _ => f12⟩
  exact ⟨⟨f12, hl⟩, run_errorInv u evs st0 st hinv0 h hrun⟩

/-- Node 1 after its election: a leader is known and `errorC` is open. -/
theorem errorC_tracks_soft_state_witness :
    (NewChain "ch" [genesis] demoOptions 0).Start demoUtils = some demoStart
    ∧ serveRequestState.run demoUtils demoStart [(demoOracle, electedEvent)] = some readyState
    ∧ readyState.returned = false
    ∧ (readyState.c.errorC = true ↔
        (isCandidate readyState.soft.RaftState = true ∨ readyState.soft.Lead = raft.None)) :=
  ⟨by decide, by decide, by decide,
    (errorC_tracks_soft_state demoUtils "ch" [genesis] demoOptions 0 demoStart readyState
      [(demoOracle, electedEvent)] (by decide) (by decide) (by decide)).2⟩

end Fabric
